import Mathlib

/-!
# innoextract: the install-script dumper (`src/cli/iss.cpp`)

A shallow embedding of the functions of `iss.cpp` that rebuild an Inno Setup
script from decoded installer metadata, and theorems about them.

Conventions of the embedding

* a `std::string` is a `List Char`; a character stands for one byte;
* an output stream (`util::ofstream`, `std::ostringstream`) only ever grows, so
  a function that writes to a stream is the function returning the text it
  appends, and sequencing of writes is list concatenation;
* a `flags` bitset over an enumeration `E` is the predicate `E → Bool` telling
  which enumerators are set; the loops that walk a bitset by bit index take the
  declared order of the enumeration (declared in `setup/*.hpp`) as a `flag_decl`;
* a rendering that indexes a vector out of range returns `none`;
* a `std::istream` (`src/util/LoadingUtils.cpp`) is the characters not yet read
  and its fail state.
-/

namespace iss

/-! ## Strings -/

/-- The `boost::replace_all_copy(input, search, format)` scan: the occurrences of
`search` are found left to right without overlap and each is replaced by
`format`.  The first argument counts the characters of the current match that
are still to be skipped. -/
def replace_all_aux (search format : List Char) : Nat → List Char → List Char
  | _, [] => []
  | skip + 1, _ :: cs => replace_all_aux search format skip cs
  | 0, c :: cs =>
    if !search.isEmpty && search.isPrefixOf (c :: cs) then
      format ++ replace_all_aux search format (search.length - 1) cs
    else
      c :: replace_all_aux search format 0 cs

/-- The call `boost::replace_all_copy(input, search, format)`. -/
def replace_all_copy (input search format : List Char) : List Char :=
  replace_all_aux search format 0 input

/-- Decimal text of an unsigned number, as `operator<<` and `boost::lexical_cast`
print it. -/
def dec (n : Nat) : List Char := Nat.toDigits 10 n

/-- Left padding of `s` with the fill character up to the width of `std::setw`. -/
def setw (width : Nat) (fill : Char) (s : List Char) : List Char :=
  List.replicate (width - s.length) fill ++ s

/-- Position of the last occurrence of `c`, as `std::string::find_last_of` with a
one-character set; `none` is `npos`. -/
def find_last_of : List Char → Char → Option Nat
  | [], _ => none
  | x :: xs, c =>
    match find_last_of xs c with
    | some i => some (i + 1)
    | none => if x = c then some 0 else none

/-- The classification `std::isspace` of the classic locale. -/
def is_space (c : Char) : Bool :=
  c = ' ' || c = '\t' || c = '\n' || c = '\x0b' || c = '\x0c' || c = '\r'

/-- The call `boost::trim_right_copy`: trailing white space removed. -/
def trim_right_copy (s : List Char) : List Char :=
  (s.reverse.dropWhile is_space).reverse

/-- Value of a plain `char` after integral promotion; plain `char` is signed, as on
the x86 and x86-64 targets the program is built for. -/
def char_to_int (c : Char) : Int :=
  if c.toNat % 256 < 128 then (c.toNat % 256 : Nat) else ((c.toNat % 256 : Nat) : Int) - 256

/-- Conversion of a plain `char` to `boost::uint32_t`. -/
def char_to_uint32 (c : Char) : Nat := (char_to_int c % (2 ^ 32 : Int)).toNat

/-- Conversion of a plain `char` to `boost::uint8_t`. -/
def char_to_uint8 (c : Char) : Nat := c.toNat % 256

/-- Decimal text of a signed number. -/
def dec_int (i : Int) : List Char :=
  if i < 0 then '-' :: dec i.natAbs else dec i.toNat

/-- Lower-case hexadecimal text of an unsigned number (`std::hex`). -/
def hex (n : Nat) : List Char := Nat.toDigits 16 n

/-! ## Stream helpers -/

/-- The structure `SectionHeader`. -/
structure SectionHeader where
  name : List Char
  prepend_empty_line : Bool := true

/-- The `operator<<` of `SectionHeader`. -/
def SectionHeader.write (s : SectionHeader) : List Char :=
  if s.prepend_empty_line then
    '\n' :: '[' :: (s.name ++ [']', '\n'])
  else
    '[' :: (s.name ++ [']', '\n'])

/-- The structure `StrConst`. -/
structure StrConst where
  name : List Char
  value : List Char
  show_always : Bool := false

/-- The `operator<<` of `StrConst`. -/
def StrConst.write (s : StrConst) : List Char :=
  if s.show_always || !s.value.isEmpty then
    s.name ++ '=' :: (s.value ++ ['\n'])
  else
    []

/-- The function `StrParam`. -/
def StrParam (display_name value : List Char) (quotes : Bool := true) : List Char :=
  if value = [] then
    []
  else if quotes then
    display_name ++ ": \"".toList ++ replace_all_copy value "\"".toList "\"\"".toList
      ++ "\"; ".toList
  else
    display_name ++ ": ".toList ++ value ++ "; ".toList

/-- The `boost::uint64_t` overload of `IntParam`. -/
def IntParam (display_name : List Char) (value : Nat) (quotes : Bool := true) : List Char :=
  if value = 0 then [] else StrParam display_name (dec value) quotes

/-- The `int` overload of `IntParam`. -/
def IntParam_int (display_name : List Char) (value : Int) (quotes : Bool := true) :
    List Char :=
  if value = 0 then [] else StrParam display_name (dec_int value) quotes

/-! ## Format version -/

/-- Modelled from the spec: the resolved format version of `setup/version.hpp`, a
32-bit value holding the four components a.b.c.d one byte each, most significant
first, together with the mark of the wide-character variant. -/
structure version where
  value : Nat
  unicode : Bool
  deriving DecidableEq

/-- Modelled from the spec: the constant `INNO_VERSION_EXT(a, b, c, d)` of
`setup/version.hpp`. -/
def INNO_VERSION_EXT (a b c d : Nat) : Nat := a * 2 ^ 24 + b * 2 ^ 16 + c * 2 ^ 8 + d

/-- Modelled from the spec: the constant `INNO_VERSION(a, b, c)` of
`setup/version.hpp`. -/
def INNO_VERSION (a b c : Nat) : Nat := INNO_VERSION_EXT a b c 0

/-- Modelled from the spec: the component `a()` of a format version. -/
def version.a (v : version) : Nat := v.value / 2 ^ 24 % 256

/-- Modelled from the spec: the component `b()` of a format version. -/
def version.b (v : version) : Nat := v.value / 2 ^ 16 % 256

/-- Modelled from the spec: the component `c()` of a format version. -/
def version.c (v : version) : Nat := v.value / 2 ^ 8 % 256

/-- Modelled from the spec: the component `d()` of a format version. -/
def version.d (v : version) : Nat := v.value % 256

/-- Modelled from the spec: the query `is_unicode()` of a format version. -/
def version.is_unicode (v : version) : Bool := v.unicode

/-- The function `GetInnoVersionStr`. -/
def GetInnoVersionStr (v : version) : List Char :=
  dec v.a ++ '.' :: dec v.b ++ '.' :: dec v.c
    ++ (if v.d ≠ 0 then '.' :: dec v.d else [])
    ++ (if v.is_unicode then " (Unicode)".toList else [])

/-! ## Flags -/

/-- The declaration of a `flags` type over the enumeration `E` (the declarations
are in `setup/*.hpp`): the number of declared bits and the enumerator declared at
each bit index. -/
structure flag_decl (E : Type) where
  bits : Nat
  enum_type : Nat → E

/-- The loop shared by the `print_entry` overloads that render option flags: for
each declared bit index in ascending order, when the bit is set and its token is
not empty, the token and a space are written to the string stream. -/
def flags_to_str {E : Type} (decl : flag_decl E) (Opt2Str : E → List Char)
    (options : E → Bool) : List Char :=
  if (List.range decl.bits).any (fun o_i => options (decl.enum_type o_i)) then
    (List.range decl.bits).flatMap fun o_i =>
      if options (decl.enum_type o_i) then
        let o_s := Opt2Str (decl.enum_type o_i)
        if o_s ≠ [] then o_s ++ [' '] else []
      else
        []
  else
    []

/-- The end of the `print_entry` overloads that render flags: the text `Flags: `
and the flag text when the flag text is not empty. -/
def flags_suffix (s : List Char) : List Char :=
  if s ≠ [] then "Flags: ".toList ++ s else []

/-! ## Windows versions -/

/-- The structure `setup::windows_version::data`. -/
structure windows_version.data where
  major : Nat := 0
  minor : Nat := 0
  build : Nat := 0
  deriving DecidableEq

/-- The structure `setup::windows_version::service_pack`. -/
structure windows_version.service_pack where
  major : Nat := 0
  minor : Nat := 0
  deriving DecidableEq

/-- The structure `setup::windows_version`. -/
structure windows_version where
  win_version : windows_version.data := {}
  nt_version : windows_version.data := {}
  nt_service_pack : windows_version.service_pack := {}
  deriving DecidableEq

/-- The structure `setup::windows_version_range`; the fields are `begin` and
`end` in the source. -/
structure windows_version_range where
  begin_ : windows_version := {}
  end_ : windows_version := {}
  deriving DecidableEq

/-- The function `VerToStr`. -/
def VerToStr (cardinal : windows_version.data)
    (service_pack : windows_version.service_pack) : List Char :=
  let digits := if cardinal.minor % 10 = 0 then 1 else 2
  let minor := if cardinal.minor % 10 = 0 then cardinal.minor / 10 else cardinal.minor
  dec cardinal.major ++ '.' :: setw digits '0' (dec minor)
    ++ (if cardinal.build ≠ 0 then '.' :: dec cardinal.build else [])
    ++ (if service_pack.major ≠ 0 then
          " Service Pack ".toList ++ dec service_pack.major
            ++ (if service_pack.minor ≠ 0 then '.' :: dec service_pack.minor else [])
        else [])

/-- The function `VerOver04000000`. -/
def VerOver04000000 (cardinal : windows_version.data) : Bool :=
  if cardinal.major > 4 then true
  else if cardinal.major < 4 then false
  else if cardinal.minor ≠ 0 then true
  else cardinal.build ≠ 0

/-- The function `PrintVersions`. -/
def PrintVersions (winver : windows_version_range) : List Char :=
  let s_pack : windows_version.service_pack := { major := 0, minor := 0 }
  (if VerOver04000000 winver.begin_.win_version || VerOver04000000 winver.begin_.nt_version
    then
      StrParam "MinVersion".toList
        (VerToStr winver.begin_.win_version s_pack ++ ','
          :: VerToStr winver.begin_.nt_version winver.begin_.nt_service_pack) false
    else [])
  ++
  (if (winver.end_.win_version.major ≠ 0 ∧ winver.end_.win_version.minor ≠ 0)
      ∨ (winver.end_.nt_version.major ≠ 0 ∧ winver.end_.nt_version.minor ≠ 0) then
      StrParam "OnlyBelowVersion".toList
        (VerToStr winver.end_.win_version s_pack ++ ','
          :: VerToStr winver.end_.nt_version winver.end_.nt_service_pack) false
    else [])

/-- The structure `setup::item`, the conditions shared by most entry kinds. -/
structure item where
  components : List Char := []
  tasks : List Char := []
  languages : List Char := []
  check : List Char := []
  before_install : List Char := []
  after_install : List Char := []
  winver : windows_version_range := {}
  deriving DecidableEq

/-- The function `PrintItem`. -/
def PrintItem (it : item) (print_version : Bool := true) (check_quotes : Bool := true) :
    List Char :=
  StrParam "Components".toList it.components false
    ++ StrParam "Tasks".toList it.tasks false
    ++ StrParam "Languages".toList it.languages
    ++ StrParam "Check".toList it.check check_quotes
    ++ StrParam "BeforeInstall".toList it.before_install
    ++ StrParam "AfterInstall".toList it.after_install
    ++ (if print_version then PrintVersions it.winver else [])

/-! ## File entries -/

/-- The enumerators of `setup::file_entry::flags` named by `FileOpt2Str`; `Other`
stands for a declared enumerator that the function does not name. -/
inductive file_flag where
  | ConfirmOverwrite | NeverUninstall | RestartReplace | DeleteAfterInstall
  | RegisterServer | RegisterTypeLib | SharedFile | CompareTimeStamp
  | FontIsNotTrueType | SkipIfSourceDoesntExist | OverwriteReadOnly
  | OverwriteSameVersion | CustomDestName | OnlyIfDestFileExists | NoRegError
  | UninsRestartDelete | OnlyIfDoesntExist | IgnoreVersion | PromptIfOlder
  | DontCopy | UninsRemoveReadOnly | RecurseSubDirsExternal | Bits32 | Bits64
  | ExternalSizePreset | SetNtfsCompression | UnsetNtfsCompression | GacInstall
  | ReplaceSameVersionIfContentsDiffer | DontVerifyChecksum
  | UninsNoSharedFilePrompt | CreateAllSubDirs
  | Other (index : Nat)
  deriving DecidableEq

/-- The function `FileOpt2Str`. -/
def FileOpt2Str : file_flag → List Char
  | .ConfirmOverwrite => "confirmoverwrite".toList
  | .NeverUninstall => []
  | .RestartReplace => "restartreplace".toList
  | .DeleteAfterInstall => "deleteafterinstall".toList
  | .RegisterServer => "regserver".toList
  | .RegisterTypeLib => "regtypelib".toList
  | .SharedFile => "sharedfile".toList
  | .CompareTimeStamp => "comparetimestamp".toList
  | .FontIsNotTrueType => "fontisnttruetype".toList
  | .SkipIfSourceDoesntExist => "skipifsourcedoesntexist".toList
  | .OverwriteReadOnly => "overwritereadonly".toList
  | .OverwriteSameVersion => []
  | .CustomDestName => []
  | .OnlyIfDestFileExists => "onlyifdestfileexists".toList
  | .NoRegError => "noregerror".toList
  | .UninsRestartDelete => "uninsrestartdelete".toList
  | .OnlyIfDoesntExist => "onlyifdoesntexist".toList
  | .IgnoreVersion => "ignoreversion".toList
  | .PromptIfOlder => "promptifolder".toList
  | .DontCopy => "dontcopy".toList
  | .UninsRemoveReadOnly => "uninsremovereadonly".toList
  | .RecurseSubDirsExternal => []
  | .Bits32 => "32bit".toList
  | .Bits64 => "64bit".toList
  | .ExternalSizePreset => []
  | .SetNtfsCompression => "setntfscompression".toList
  | .UnsetNtfsCompression => "unsetntfscomptression".toList
  | .GacInstall => "gacinstall".toList
  | .ReplaceSameVersionIfContentsDiffer => []
  | .DontVerifyChecksum => []
  | .UninsNoSharedFilePrompt => []
  | .CreateAllSubDirs => []
  | .Other _ => []

/-- The enumeration `setup::file_entry::file_type`. -/
inductive file_type where
  | UserFile | UninstExe | RegSvrExe
  deriving DecidableEq

/-- Modelled from the spec: the integer value of a `file_type` enumerator, in the
order of declaration in `setup/file.hpp`. -/
def file_type.val : file_type → Nat
  | .UserFile => 0
  | .UninstExe => 1
  | .RegSvrExe => 2

/-- The structure `setup::file_entry`, with the fields the dumper reads. -/
structure file_entry extends item where
  destination : List Char := []
  install_font_name : List Char := []
  type : file_type := .UserFile
  options : file_flag → Bool := fun _ => false

/-- The function `RemoveBackslashUnlessRoot`. -/
def RemoveBackslashUnlessRoot (path : List Char) : List Char :=
  if path.length < 3 then path
  else if path[1]? = some ':' ∧ path[2]? = some '\\' then path
  else if path.getLast? = some '\\' then path.take (path.length - 1)
  else path

/-- The test `strchr(",:*?\"<>|", c)` of `RenameFiles`; `strchr` also finds the
terminating null character of its first argument. -/
def is_inappropriate (c : Char) : Bool :=
  c ∈ ",:*?\"<>|".toList || c = '\x00'

/-- The three values `RenameFiles` hands to `StrParam`: source, destination
directory (before `RemoveBackslashUnlessRoot`) and destination name. -/
def RenameFiles_parts (entry : file_entry) : List Char × List Char × List Char :=
  let destname := replace_all_copy entry.destination "\\\\".toList "\\".toList
  let destname := replace_all_copy destname "\x7b\x7b".toList "\x7b".toList
  let destname := replace_all_copy destname "/".toList "\\".toList
  let destname :=
    if entry.type.val &&& file_type.UninstExe.val ≠ 0 then "embedded\\uninstall.exe".toList
    else if entry.type.val &&& file_type.RegSvrExe.val ≠ 0 then
      "embedded\\regsvr.exe".toList
    else destname
  let source := destname
  let last_sep := find_last_of destname '\\'
  let destdir := match last_sep with
    | some n => destname.take n
    | none => []
  let destname := match last_sep with
    | some n => destname.drop (n + 1)
    | none => destname
  let source := source.map fun c => if is_inappropriate c then '_' else c
  let last_sep := find_last_of source '\\'
  let destname := match last_sep with
    | some n => if destname = source.drop (n + 1) then [] else destname
    | none => destname
  (source, destdir, destname)

/-- The function `RenameFiles`. -/
def RenameFiles (entry : file_entry) : List Char :=
  let parts := RenameFiles_parts entry
  StrParam "Source".toList parts.1
    ++ StrParam "DestDir".toList (RemoveBackslashUnlessRoot parts.2.1)
    ++ StrParam "DestName".toList parts.2.2

/-- The fields of a user-file line, before the flags. -/
def file_fields (entry : file_entry) : List Char :=
  RenameFiles entry
    ++ StrParam "FontInstall".toList entry.install_font_name
    ++ PrintItem entry.toitem

/-- The overload of `print_entry` for `setup::file_entry`. -/
def print_entry_file (decl : flag_decl file_flag) (entry : file_entry) : List Char :=
  if entry.type ≠ .UserFile then
    []
  else
    file_fields entry
      ++ flags_suffix (flags_to_str decl FileOpt2Str entry.options)
      ++ ['\n']

/-! ## Directory entries -/

/-- The enumerators of `setup::directory_entry::flags` named by `DirOpt2Str`. -/
inductive directory_flag where
  | NeverUninstall | DeleteAfterInstall | AlwaysUninstall | SetNtfsCompression
  | UnsetNtfsCompression
  | Other (index : Nat)
  deriving DecidableEq

/-- The function `DirOpt2Str`. -/
def DirOpt2Str : directory_flag → List Char
  | .NeverUninstall => "uninsneveruninstall".toList
  | .DeleteAfterInstall => "deleteafterinstall".toList
  | .AlwaysUninstall => "uninsalwaysuninstall".toList
  | .SetNtfsCompression => "setntfscomptression".toList
  | .UnsetNtfsCompression => "unsetntfscomptression".toList
  | .Other _ => []

/-- The structure `setup::directory_entry`, with the fields the dumper reads. -/
structure directory_entry where
  name : List Char := []
  options : directory_flag → Bool := fun _ => false

/-- The fields of a directory line, before the flags. -/
def directory_fields (entry : directory_entry) : List Char :=
  StrParam "Name".toList entry.name

/-- The overload of `print_entry` for `setup::directory_entry`. -/
def print_entry_directory (decl : flag_decl directory_flag) (entry : directory_entry) :
    List Char :=
  directory_fields entry
    ++ flags_suffix (flags_to_str decl DirOpt2Str entry.options)
    ++ ['\n']

/-! ## Registry entries -/

/-- The enumeration `setup::registry_entry::hive_name`. -/
inductive hive_name where
  | HKCR | HKCU | HKLM | HKU | HKPD | HKCC | HKDD | Unset
  deriving DecidableEq

/-- The enumeration `setup::registry_entry::value_type`; `Other` stands for a value
that reaches the `default` label of the switch. -/
inductive value_type where
  | None | String | ExpandString | DWord | Binary | MultiString | QWord | Other
  deriving DecidableEq

/-- The enumerators of `setup::registry_entry::flags` named by `RegistryOpt2Str`. -/
inductive registry_flag where
  | CreateValueIfDoesntExist | UninsDeleteValue | UninsClearValue
  | UninsDeleteEntireKey | UninsDeleteEntireKeyIfEmpty | PreserveStringType
  | DeleteKey | DeleteValue | NoError | DontCreateKey | Bits32 | Bits64
  | Other (index : Nat)
  deriving DecidableEq

/-- The structure `setup::registry_entry`, with the fields the dumper reads. -/
structure registry_entry extends item where
  key : List Char := []
  name : List Char := []
  value : List Char := []
  hive : hive_name := .Unset
  type : value_type := .None
  options : registry_flag → Bool := fun _ => false

/-- The function `RegRootToStr`. -/
def RegRootToStr (entry : registry_entry) : List Char :=
  (match entry.hive with
    | .HKCR => "HKCR".toList
    | .HKCU => "HKCU".toList
    | .HKLM => "HKLM".toList
    | .HKU => "HKU".toList
    | .HKPD => "HKPD".toList
    | .HKCC => "HKCC".toList
    | .HKDD => "HKDD".toList
    | .Unset => [])
  ++ (if entry.options .Bits32 then "32".toList
      else if entry.options .Bits64 then "64".toList
      else [])

/-- The function `RegistryOpt2Str`. -/
def RegistryOpt2Str : registry_flag → List Char
  | .CreateValueIfDoesntExist => "createvalueifdoesntexist".toList
  | .UninsDeleteValue => "uninsdeletevalue".toList
  | .UninsClearValue => "uninsclearvalue".toList
  | .UninsDeleteEntireKey => "uninsdeletekey".toList
  | .UninsDeleteEntireKeyIfEmpty => "uninsdeletekeyifempty".toList
  | .PreserveStringType => "preservestringtype".toList
  | .DeleteKey => "deletekey".toList
  | .DeleteValue => "deletevalue".toList
  | .NoError => "noerror".toList
  | .DontCreateKey => "dontcreatekey".toList
  | .Bits32 => []
  | .Bits64 => []
  | .Other _ => []

/-- The function `IntToHex`: upper-case hexadecimal text of a 32-bit unsigned
number, padded on the left with `0` to at least `digits` characters. -/
def IntToHex (i : Nat) (digits : Nat) : List Char :=
  setw digits '0' ((hex (i % 2 ^ 32)).map Char.toUpper)

/-- The value text of a `Binary` registry entry: every character of the value goes
through `IntToHex(entry.value[i], 2)` followed by a space, and the last character
of the result is removed. -/
def registry_binary_data (value : List Char) : List Char :=
  let t := value.flatMap fun c => IntToHex (char_to_uint32 c) 2 ++ [' ']
  if t.length > 0 then t.take (t.length - 1) else t

/-- The value text of a `MultiString` registry entry: `std::regex_replace` with the
pattern that matches one null character. -/
def registry_multi_data (value : List Char) : List Char :=
  replace_all_copy value ['\x00'] "{break}".toList

/-- The variables `vType` and `t` of the registry `print_entry` after the switch on
the value type.  The codepage converter `util::to_utf8` is a collaborator and is
taken as a parameter. -/
def registry_value (to_utf8 : List Char → List Char) (entry : registry_entry) :
    List Char × List Char :=
  match entry.type with
  | .None => ([], [])
  | .String => ("String".toList, to_utf8 entry.value)
  | .ExpandString => ("ExpandSZ".toList, to_utf8 entry.value)
  | .DWord => ("Dword".toList, entry.value)
  | .Binary => ("Binary".toList, registry_binary_data entry.value)
  | .MultiString => ("MultiSZ".toList, registry_multi_data entry.value)
  | .QWord => ("Qword".toList, entry.value)
  | .Other => ("Unknown".toList, [])

/-- The fields of a registry line, before the flags. -/
def registry_fields (to_utf8 : List Char → List Char) (entry : registry_entry) :
    List Char :=
  StrParam "Root".toList (RegRootToStr entry) false
    ++ StrParam "Subkey".toList entry.key
    ++ StrParam "ValueName".toList entry.name
    ++ StrParam "ValueType".toList (registry_value to_utf8 entry).1 false
    ++ StrParam "ValueData".toList (registry_value to_utf8 entry).2
    ++ PrintItem entry.toitem

/-- The overload of `print_entry` for `setup::registry_entry`. -/
def print_entry_registry (decl : flag_decl registry_flag)
    (to_utf8 : List Char → List Char) (entry : registry_entry) : List Char :=
  registry_fields to_utf8 entry
    ++ flags_suffix (flags_to_str decl RegistryOpt2Str entry.options)
    ++ ['\n']

/-! ## INI entries -/

/-- The enumerators of `setup::ini_entry::flags` named by `IniOpt2Str`. -/
inductive ini_flag where
  | CreateKeyIfDoesntExist | UninsDeleteEntry | UninsDeleteEntireSection
  | UninsDeleteSectionIfEmpty | HasValue
  | Other (index : Nat)
  deriving DecidableEq

/-- The function `IniOpt2Str`. -/
def IniOpt2Str : ini_flag → List Char
  | .CreateKeyIfDoesntExist => "createkeyifdoesntexist".toList
  | .UninsDeleteEntry => "uninsdeleteentry".toList
  | .UninsDeleteEntireSection => "uninsdeletesection".toList
  | .UninsDeleteSectionIfEmpty => "uninsdeletesectionifempty".toList
  | .HasValue => []
  | .Other _ => []

/-- The structure `setup::ini_entry`, with the fields the dumper reads. -/
structure ini_entry where
  inifile : List Char := []
  section_ : List Char := []
  key : List Char := []
  value : List Char := []
  options : ini_flag → Bool := fun _ => false

/-- The fields of an INI line, before the flags. -/
def ini_fields (entry : ini_entry) : List Char :=
  StrParam "FileName".toList entry.inifile
    ++ StrParam "Section".toList entry.section_
    ++ StrParam "Key".toList entry.key
    ++ StrParam "String".toList entry.value

/-- The overload of `print_entry` for `setup::ini_entry`. -/
def print_entry_ini (decl : flag_decl ini_flag) (entry : ini_entry) : List Char :=
  ini_fields entry
    ++ flags_suffix (flags_to_str decl IniOpt2Str entry.options)
    ++ ['\n']

/-! ## Run entries -/

/-- The enumerators of `setup::run_entry::flags` named by `RunOpt2Str`. -/
inductive run_flag where
  | ShellExec | SkipIfDoesntExist | PostInstall | Unchecked | SkipIfSilent
  | SkipIfNotSilent | HideWizard | Bits32 | Bits64 | RunAsOriginalUser
  | DontLogParameters | LogOutput
  | Other (index : Nat)
  deriving DecidableEq

/-- The function `RunOpt2Str`. -/
def RunOpt2Str : run_flag → List Char
  | .ShellExec => "shellexec".toList
  | .SkipIfDoesntExist => "skipifdoesntexist".toList
  | .PostInstall => "postinstall".toList
  | .Unchecked => "unchecked".toList
  | .SkipIfSilent => "skipifsilent".toList
  | .SkipIfNotSilent => "skipifnotsilent".toList
  | .HideWizard => "hidewizard".toList
  | .Bits32 => "32bit".toList
  | .Bits64 => "64bit".toList
  | .RunAsOriginalUser => []
  | .DontLogParameters => []
  | .LogOutput => []
  | .Other _ => []

/-- The enumeration `setup::run_entry::wait_condition`. -/
inductive wait_condition where
  | WaitUntilTerminated | NoWait | WaitUntilIdle
  deriving DecidableEq

/-- The structure `setup::run_entry`, with the fields the dumper reads. -/
structure run_entry extends item where
  name : List Char := []
  parameters : List Char := []
  working_dir : List Char := []
  run_once_id : List Char := []
  status_message : List Char := []
  description : List Char := []
  options : run_flag → Bool := fun _ => false
  wait : wait_condition := .WaitUntilTerminated

/-- The fields of a run line, before the flags. -/
def run_fields (entry : run_entry) : List Char :=
  StrParam "Filename".toList entry.name
    ++ StrParam "Parameters".toList entry.parameters
    ++ StrParam "WorkingDir".toList entry.working_dir
    ++ StrParam "RunOnceId".toList entry.run_once_id
    ++ StrParam "StatusMsg".toList entry.status_message
    ++ StrParam "Description".toList entry.description
    ++ PrintItem entry.toitem

/-- The flag text of a run line: the option tokens, then the token of the wait
condition. -/
def run_flags (decl : flag_decl run_flag) (entry : run_entry) : List Char :=
  flags_to_str decl RunOpt2Str entry.options
    ++ (match entry.wait with
        | .NoWait => "nowait".toList
        | .WaitUntilIdle => "waituntilidle".toList
        | .WaitUntilTerminated => [])

/-- The overload of `print_entry` for `setup::run_entry`. -/
def print_entry_run (decl : flag_decl run_flag) (entry : run_entry) : List Char :=
  run_fields entry ++ flags_suffix (run_flags decl entry) ++ ['\n']

/-! ## Icon entries -/

/-- The enumeration `setup::icon_entry::close_setting`. -/
inductive close_setting where
  | NoSetting | CloseOnExit | DontCloseOnExit
  deriving DecidableEq

/-- The structure `setup::icon_entry`, with the fields the dumper reads. -/
structure icon_entry extends item where
  name : List Char := []
  filename : List Char := []
  parameters : List Char := []
  working_dir : List Char := []
  icon_file : List Char := []
  comment : List Char := []
  icon_index : Int := 0
  show_command : Int := 0
  close_on_exit : close_setting := .NoSetting
  deriving DecidableEq

/-- The fields of an icon line, before the flags. -/
def icon_fields (entry : icon_entry) : List Char :=
  StrParam "Name".toList entry.name
    ++ StrParam "Filename".toList entry.filename
    ++ StrParam "Parameters".toList entry.parameters
    ++ StrParam "WorkingDir".toList entry.working_dir
    ++ StrParam "IconFilename".toList entry.icon_file
    ++ IntParam_int "IconIndex".toList entry.icon_index false
    ++ StrParam "Comment".toList entry.comment
    ++ PrintItem entry.toitem

/-- The flag text of an icon line. -/
def icon_flags (entry : icon_entry) : List Char :=
  (match entry.close_on_exit with
    | .CloseOnExit => "closeonexit ".toList
    | .DontCloseOnExit => "dontcloseonexit ".toList
    | .NoSetting => [])
  ++ (if entry.show_command = 3 then "runmaximized ".toList
      else if entry.show_command = 7 then "runminimized ".toList
      else [])

/-- The overload of `print_entry` for `setup::icon_entry`. -/
def print_entry_icon (entry : icon_entry) : List Char :=
  icon_fields entry ++ flags_suffix (icon_flags entry) ++ ['\n']

/-! ## Task, component, delete and type entries -/

/-- The structure `setup::task_entry`, with the fields the dumper reads. -/
structure task_entry where
  name : List Char := []
  description : List Char := []
  group_description : List Char := []
  components : List Char := []
  languages : List Char := []
  check : List Char := []
  winver : windows_version_range := {}
  deriving DecidableEq

/-- The overload of `print_entry` for `setup::task_entry`. -/
def print_entry_task (entry : task_entry) : List Char :=
  StrParam "Name".toList entry.name
    ++ StrParam "Description".toList entry.description
    ++ StrParam "GroupDescription".toList entry.group_description
    ++ StrParam "Components".toList entry.components
    ++ StrParam "Languages".toList entry.languages
    ++ StrParam "Check".toList entry.check
    ++ PrintVersions entry.winver
    ++ ['\n']

/-- The structure `setup::component_entry`, with the fields the dumper reads. -/
structure component_entry where
  name : List Char := []
  description : List Char := []
  types : List Char := []
  languages : List Char := []
  check : List Char := []
  extra_disk_pace_required : Nat := 0
  winver : windows_version_range := {}
  deriving DecidableEq

/-- The overload of `print_entry` for `setup::component_entry`. -/
def print_entry_component (entry : component_entry) : List Char :=
  StrParam "Name".toList entry.name
    ++ StrParam "Description".toList entry.description
    ++ StrParam "Types".toList (replace_all_copy entry.types ",".toList " ".toList)
    ++ IntParam "ExtraDiskSpaceRequired".toList entry.extra_disk_pace_required
    ++ StrParam "Languages".toList entry.languages
    ++ StrParam "Check".toList entry.check
    ++ PrintVersions entry.winver
    ++ ['\n']

/-- The enumeration `setup::delete_entry::target_type`. -/
inductive target_type where
  | Files | FilesAndSubdirs | DirIfEmpty
  deriving DecidableEq

/-- The function `DeleteType2Str`. -/
def DeleteType2Str : target_type → List Char
  | .Files => "files".toList
  | .FilesAndSubdirs => "filesandordirs".toList
  | .DirIfEmpty => "dirifempty".toList

/-- The structure `setup::delete_entry`, with the fields the dumper reads. -/
structure delete_entry extends item where
  name : List Char := []
  type : target_type := .Files
  deriving DecidableEq

/-- The overload of `print_entry` for `setup::delete_entry`. -/
def print_entry_delete (entry : delete_entry) : List Char :=
  StrParam "Type".toList (DeleteType2Str entry.type) false
    ++ StrParam "Name".toList entry.name
    ++ PrintItem entry.toitem false false
    ++ ['\n']

/-- The structure `setup::type_entry`, with the fields the dumper reads. -/
structure type_entry where
  name : List Char := []
  description : List Char := []
  languages : List Char := []
  check : List Char := []
  winver : windows_version_range := {}
  deriving DecidableEq

/-- The overload of `print_entry` for `setup::type_entry`. -/
def print_entry_type (entry : type_entry) : List Char :=
  StrParam "Name".toList entry.name
    ++ StrParam "Description".toList entry.description
    ++ StrParam "Languages".toList entry.languages
    ++ StrParam "Check".toList entry.check
    ++ PrintVersions entry.winver
    ++ ['\n']

/-! ## Message and language entries -/

/-- The structure `setup::language_entry`, with the fields the dumper reads. -/
structure language_entry where
  name : List Char := []
  language_name : List Char := []
  dialog_font : List Char := []
  title_font : List Char := []
  welcome_font : List Char := []
  copyright_font : List Char := []
  license_text : List Char := []
  info_before : List Char := []
  info_after : List Char := []
  language_id : Nat := 0
  codepage : Nat := 0
  dialog_font_size : Nat := 0
  title_font_size : Nat := 0
  welcome_font_size : Nat := 0
  copyright_font_size : Nat := 0
  right_to_left : Bool := false
  deriving DecidableEq

/-- The structure `setup::message_entry`. -/
structure message_entry where
  name : List Char := []
  value : List Char := []
  language : Int := -1
  deriving DecidableEq

/-- The overload of `print_entry` for `setup::message_entry`, given the language
entries of the metadata; `none` when the language index is read out of range. -/
def print_entry_message (languages : List language_entry) (entry : message_entry) :
    Option (List Char) :=
  if entry.language ≥ 0 then
    match languages[entry.language.toNat]? with
    | some lang =>
      some (StrConst.write
        { name := lang.name ++ '.' :: entry.name,
          value := replace_all_copy entry.value "\x0d\x0a".toList "%n".toList })
    | none => none
  else
    some (StrConst.write
      { name := entry.name,
        value := replace_all_copy entry.value "\x0d\x0a".toList "%n".toList })

/-- The function `MaybeToRtf`; `content.compare(0, 5, "{\\rtf") == 0` holds when the
first five characters of the content are that text. -/
def MaybeToRtf (name content : List Char) : List Char :=
  if content.take 5 = "\x7b\\rtf".toList then name ++ ".rtf".toList else name ++ ".txt".toList

/-- The overload of `print_entry` for `setup::language_entry`. -/
def print_entry_language (entry : language_entry) : List Char :=
  StrParam "Name".toList entry.name
    ++ StrParam "MessagesFile".toList ("embedded\\".toList ++ entry.name ++ ".isl".toList)
    ++ (if entry.license_text ≠ [] then
          StrParam "LicenseFile".toList
            (MaybeToRtf ("embedded\\".toList ++ entry.name ++ "License.txt".toList)
              entry.license_text)
        else [])
    ++ (if entry.info_before ≠ [] then
          StrParam "InfoBeforeFile".toList
            (MaybeToRtf ("embedded\\".toList ++ entry.name ++ "InfoBefore.txt".toList)
              entry.info_before)
        else [])
    ++ (if entry.info_after ≠ [] then
          StrParam "InfoAfterFile".toList
            (MaybeToRtf ("embedded\\".toList ++ entry.name ++ "InfoAfter.txt".toList)
              entry.info_after)
        else [])
    ++ ['\n']

/-! ## Sections -/

/-- The result of writing to the script stream: the text written, and whether the
writing ran to its end (`false` when a rendering failed and the dump stopped
there). -/
structure written where
  text : List Char
  completed : Bool
  deriving DecidableEq

/-- Sequencing of two writes: the second happens only when the first ran to its
end. -/
def written.andThen (w : written) (next : written) : written :=
  if w.completed then { text := w.text ++ next.text, completed := next.completed } else w

/-- The loop `for(size_t i = 0; i < entries.size(); i++) print_entry(ofs, info, i,
entries[i])` of `print_entries`; no overload of `print_entry` reads the index. -/
def print_entries_loop {Entry : Type} (print_entry : Entry → Option (List Char)) :
    List Entry → written
  | [] => { text := [], completed := true }
  | e :: es =>
    match print_entry e with
    | none => { text := [], completed := false }
    | some t =>
      written.andThen { text := t, completed := true } (print_entries_loop print_entry es)

/-- The function template `print_entries`. -/
def print_entries {Entry : Type} (print_entry : Entry → Option (List Char))
    (entries : List Entry) (name : List Char) : written :=
  if entries.isEmpty then
    { text := [], completed := true }
  else
    written.andThen { text := SectionHeader.write { name := name }, completed := true }
      (print_entries_loop print_entry entries)

/-- The overload of `print_entries` for language entries. -/
def print_entries_language (entries : List language_entry) (name : List Char) : written :=
  if entries.isEmpty then
    { text := [], completed := true }
  else
    written.andThen
      { text := SectionHeader.write { name := name }
          ++ "; These files are stubs\n".toList
          ++ "; To achieve better results after recompilation, use the real language files\n".toList,
        completed := true }
      (print_entries_loop (fun e => some (print_entry_language e)) entries)

/-! ## Header -/

/-- The enumeration `crypto::checksum_type`, with the enumerators `Hash2Str`
switches over. -/
inductive checksum_type where
  | None | Adler32 | CRC32 | MD5 | SHA1
  deriving DecidableEq

/-- The structure `crypto::checksum`. -/
structure checksum where
  type : checksum_type := .None
  adler32 : Nat := 0
  crc32 : Nat := 0
  md5 : Fin 16 → Char := fun _ => '\x00'
  sha1 : Fin 20 → Char := fun _ => '\x00'

/-- The function `Hash2Str`. -/
def Hash2Str (c : checksum) : List Char :=
  match c.type with
  | .None => "(no checksum)".toList
  | .Adler32 => "0x".toList ++ setw 8 ' ' (hex c.adler32)
  | .CRC32 => "0x".toList ++ setw 8 ' ' (hex c.crc32)
  | .MD5 => (List.finRange 16).flatMap fun i => setw 2 '0' (hex (char_to_uint8 (c.md5 i)))
  | .SHA1 => (List.finRange 20).flatMap fun i => setw 2 '0' (hex (char_to_uint8 (c.sha1 i)))

/-- The table `hex_chars` of `Salt2Str`. -/
def hex_chars : List Char := "0123456789abcdef".toList

/-- The index `( salt[i] & 0xF0 ) >> 4` of `Salt2Str`. -/
def salt_index_high (c : Char) : Int := (Int.land (char_to_int c) 0xF0) >>> 4

/-- The index `( salt[i] & 0x0F ) >> 0` of `Salt2Str`. -/
def salt_index_low (c : Char) : Int := (Int.land (char_to_int c) 0x0F) >>> 0

/-- The read `hex_chars[index]`; `none` when the index is outside the table. -/
def hex_chars_at (index : Int) : Option Char :=
  if index < 0 then none else hex_chars[index.toNat]?

/-- The function `Salt2Str`.  A read outside the table `hex_chars` has no defined
result; it is written here as the character `?` (see `hex_chars_at`). -/
def Salt2Str (salt : List Char) : List Char :=
  let rest :=
    if salt.take 17 = "PasswordCheckHash".toList then salt.drop 17 else salt
  rest.flatMap fun c =>
    [(hex_chars_at (salt_index_high c)).getD '?', (hex_chars_at (salt_index_low c)).getD '?']

/-- The enumerators of `setup::header::architecture_types` named by
`ProcArcsToStr`. -/
inductive architecture where
  | ArchitectureUnknown | X86 | Amd64 | IA64 | ARM64
  deriving DecidableEq

/-- The function `ProcArcsToStr`. -/
def ProcArcsToStr (architectures : architecture → Bool) : List Char :=
  trim_right_copy
    ((if architectures .ArchitectureUnknown then "unknown ".toList else [])
      ++ (if architectures .X86 then "x86 ".toList else [])
      ++ (if architectures .Amd64 then "x64 ".toList else [])
      ++ (if architectures .IA64 then "ia64 ".toList else [])
      ++ (if architectures .ARM64 then "arm64 ".toList else []))

/-- The enumeration `setup::header::privilege_level`. -/
inductive privilege_level where
  | NoPrivileges | PowerUserPrivileges | AdminPrivileges | LowestPrivileges
  deriving DecidableEq

/-- The function `Priv2Str`. -/
def Priv2Str : privilege_level → List Char
  | .NoPrivileges => "none".toList
  | .PowerUserPrivileges => "poweruser".toList
  | .AdminPrivileges => []
  | .LowestPrivileges => "lowest".toList

/-- The enumeration `setup::header::auto_bool`. -/
inductive auto_bool where
  | Auto | No | Yes
  deriving DecidableEq

/-- The function `DisPage2Str`. -/
def DisPage2Str : auto_bool → List Char
  | .Auto => "auto".toList
  | .No => "no".toList
  | .Yes => "yes".toList

/-- The function `GetWizardImageFileName`. -/
def GetWizardImageFileName (index : Nat) (is_small : Bool) : List Char :=
  if is_small then
    "WizardSmallImage".toList ++ dec index ++ ".bmp".toList
  else
    "WizardImage".toList ++ dec index ++ ".bmp".toList

/-- The function `GetImageFileList`. -/
def GetImageFileList (wizard_images : List (List Char)) (is_small : Bool) : List Char :=
  if wizard_images.isEmpty then
    []
  else
    (List.range wizard_images.length).flatMap fun i =>
      (if i ≠ 0 then [','] else [])
        ++ "embedded\\".toList ++ GetWizardImageFileName i is_small

/-- The enumeration `stream::compression_method`, with the enumerators
`print_header` names. -/
inductive compression_method where
  | Stored | Zlib | BZip2 | LZMA1 | LZMA2 | UnknownCompression
  deriving DecidableEq

/-- The enumerators of `setup::header::flags` that `print_header` tests. -/
inductive header_flag where
  | CreateAppDir | EncryptionUsed | Password | Uninstallable | ChangesAssociations
  | AllowNoIcons
  deriving DecidableEq

/-- The structure `setup::header`, with the fields the dumper reads. -/
structure header where
  app_name : List Char := []
  app_versioned_name : List Char := []
  app_id : List Char := []
  app_version : List Char := []
  app_publisher : List Char := []
  app_publisher_url : List Char := []
  app_support_phone : List Char := []
  app_support_url : List Char := []
  app_updates_url : List Char := []
  app_mutex : List Char := []
  app_comments : List Char := []
  app_modify_path : List Char := []
  default_dir_name : List Char := []
  default_group_name : List Char := []
  uninstall_icon : List Char := []
  uninstall_name : List Char := []
  uninstall_files_dir : List Char := []
  base_filename : List Char := []
  uninstallable : List Char := []
  license_text : List Char := []
  info_before : List Char := []
  info_after : List Char := []
  password_salt : List Char := []
  password : checksum := {}
  compression : compression_method := .Stored
  options : header_flag → Bool := fun _ => false
  architectures_allowed : architecture → Bool := fun _ => false
  architectures_installed_in_64bit_mode : architecture → Bool := fun _ => false
  privileges_required : privilege_level := .AdminPrivileges
  extra_disk_space_required : Nat := 0
  disable_dir_page : auto_bool := .No
  disable_program_group_page : auto_bool := .No

/-- The enumerators of `setup::data_entry::flags` that `print_header` tests. -/
inductive data_flag where
  | TimeStampInUTC
  | Other (index : Nat)
  deriving DecidableEq

/-- The structure `setup::data_entry`, with the field the dumper reads. -/
structure data_entry where
  options : data_flag → Bool := fun _ => false

/-- The structure `setup::info`, with the fields the dumper reads. -/
structure info where
  version : iss.version := { value := 0, unicode := false }
  listed_version : iss.version := { value := 0, unicode := false }
  header : iss.header := {}
  files : List file_entry := []
  directories : List directory_entry := []
  registry_entries : List registry_entry := []
  ini_entries : List ini_entry := []
  run_entries : List run_entry := []
  uninstall_run_entries : List run_entry := []
  icons : List icon_entry := []
  tasks : List task_entry := []
  components : List component_entry := []
  delete_entries : List delete_entry := []
  uninstall_delete_entries : List delete_entry := []
  types : List type_entry := []
  messages : List message_entry := []
  languages : List language_entry := []
  data_entries : List data_entry := []
  wizard_images : List (List Char) := []
  wizard_images_small : List (List Char) := []
  decompressor_dll : List Char := []
  decrypt_dll : List Char := []

/-- The `StrConst` objects that `print_header` inserts into the stream after the
`[Setup]` section header, in the order of insertion.  The second argument is the
text of `installer.filename().string()`. -/
def setup_directives (info : info) (installer : List Char) : List StrConst :=
  let header := info.header
  [ ({ name := "AppName".toList, value := header.app_name, show_always := true } : StrConst),
    { name := "AppVerName".toList, value := header.app_versioned_name },
    { name := "AppId".toList, value := header.app_id, show_always := true },
    { name := "AppVersion".toList, value := header.app_version },
    { name := "AppPublisher".toList, value := header.app_publisher },
    { name := "AppPublisherURL".toList, value := header.app_publisher_url },
    { name := "AppSupportPhone".toList, value := header.app_support_phone },
    { name := "AppSupportURL".toList, value := header.app_support_url },
    { name := "AppUpdatesURL".toList, value := header.app_updates_url },
    { name := "AppMutex".toList, value := header.app_mutex },
    { name := "AppComments".toList, value := header.app_comments },
    { name := "AppModifyPath".toList, value := header.app_modify_path } ]
  ++ (if header.options .CreateAppDir then
        [{ name := "DefaultDirName".toList, value := header.default_dir_name }]
      else
        [{ name := "CreateAppDir".toList, value := "no".toList }])
  ++ (if header.default_group_name ≠ "(Default)".toList then
        [{ name := "DefaultGroupName".toList, value := header.default_group_name }]
      else [])
  ++ [ { name := "UninstallDisplayIcon".toList, value := header.uninstall_icon },
       { name := "UninstallDisplayName".toList, value := header.uninstall_name } ]
  ++ (if header.uninstall_files_dir ≠ "{app}".toList then
        [{ name := "UninstallFilesDir".toList, value := header.uninstall_files_dir }]
      else [])
  ++ (if header.base_filename ≠ [] then
        [{ name := "OutputBaseFilename".toList, value := header.base_filename }]
      else
        let installer_string :=
          if installer.length ≥ 4 ∧ installer.drop (installer.length - 4) = ".exe".toList
          then installer.take (installer.length - 4)
          else installer
        [{ name := "OutputBaseFilename".toList, value := installer_string }])
  ++ [ { name := "Compression".toList,
         value := match header.compression with
           | .Stored => "none".toList
           | .Zlib => "zip".toList
           | .BZip2 => "bzip2".toList
           | .LZMA1 => "lzma".toList
           | .LZMA2 => "lzma2".toList
           | .UnknownCompression => "unknown".toList } ]
  ++ (if header.options .EncryptionUsed then
        [{ name := "; Encryption".toList, value := "yes".toList }]
      else [])
  ++ (if info.version.value > INNO_VERSION_EXT 4 2 0 2
        ∧ (header.options .EncryptionUsed ∨ header.options .Password) then
        [ { name := "; PasswordHash".toList, value := Hash2Str header.password },
          { name := "; PasswordSalt".toList, value := Salt2Str header.password_salt } ]
      else [])
  ++ (if info.version.value ≥ INNO_VERSION 5 1 0 then
        [ { name := "ArchitecturesAllowed".toList,
            value := ProcArcsToStr header.architectures_allowed },
          { name := "ArchitecturesInstallIn64BitMode".toList,
            value := ProcArcsToStr header.architectures_installed_in_64bit_mode } ]
      else [])
  ++ (if info.version.value > INNO_VERSION 5 3 1 ∧ ¬ header.options .Uninstallable then
        [{ name := "Uninstallable".toList, value := "no".toList }]
      else if header.uninstallable ≠ "yes".toList then
        [{ name := "Uninstallable".toList, value := header.uninstallable }]
      else [])
  ++ (if header.privileges_required ≠ .AdminPrivileges then
        [{ name := "PrivilegesRequired".toList, value := Priv2Str header.privileges_required }]
      else [])
  ++ (if header.extra_disk_space_required > 0 then
        [{ name := "ExtraDiskSpaceRequired".toList,
           value := dec header.extra_disk_space_required }]
      else [])
  ++ (if header.disable_dir_page ≠ .No then
        [{ name := "DisableDirPage".toList, value := DisPage2Str header.disable_dir_page }]
      else [])
  ++ (if header.disable_program_group_page ≠ .No then
        [{ name := "DisableProgramGroupPage".toList,
           value := DisPage2Str header.disable_program_group_page }]
      else [])
  ++ (if header.options .ChangesAssociations then
        [{ name := "ChangesAssociations".toList, value := "yes".toList }]
      else [])
  ++ (if header.options .AllowNoIcons then
        [{ name := "AllowNoIcons".toList, value := "yes".toList }]
      else [])
  ++ (if header.license_text ≠ [] then
        [{ name := "LicenseFile".toList,
           value := MaybeToRtf "embedded\\License".toList header.license_text }]
      else [])
  ++ (if header.info_before ≠ [] then
        [{ name := "InfoBeforeFile".toList,
           value := MaybeToRtf "embedded\\InfoBefore".toList header.info_before }]
      else [])
  ++ (if header.info_after ≠ [] then
        [{ name := "InfoAfterFile".toList,
           value := MaybeToRtf "embedded\\InfoAfter".toList header.info_after }]
      else [])
  ++ [ { name := "WizardImageFile".toList,
         value := GetImageFileList info.wizard_images false },
       { name := "WizardSmallImageFile".toList,
         value := GetImageFileList info.wizard_images_small true } ]
  ++ (if info.data_entries.any (fun e => e.options .TimeStampInUTC) then
        [{ name := ";TimeStampsInUTC".toList, value := "yes".toList }]
      else [])

/-- The function `print_header`. -/
def print_header (info : info) (installer : List Char) : List Char :=
  StrConst.write
      { name := ";InnoSetupVersion".toList, value := GetInnoVersionStr info.listed_version }
    ++ SectionHeader.write { name := "Setup".toList }
    ++ (setup_directives info installer).flatMap StrConst.write

/-! ## The dump -/

/-- What `dump_iss` takes from the other modules of the program: the declaration
of each flags type and the codepage converter `util::to_utf8` (with the codepage
and lead bytes of the metadata already applied). -/
structure collaborators where
  file_flags : flag_decl file_flag
  directory_flags : flag_decl directory_flag
  registry_flags : flag_decl registry_flag
  ini_flags : flag_decl ini_flag
  run_flags : flag_decl run_flag
  to_utf8 : List Char → List Char

/-- The fourteen calls of `print_entries` in `dump_iss`, in order. -/
def dump_sections (env : collaborators) (info : info) : written :=
  (print_entries (fun e => some (print_entry_file env.file_flags e)) info.files
      "Files".toList)
  |>.andThen (print_entries (fun e => some (print_entry_directory env.directory_flags e))
      info.directories "Dirs".toList)
  |>.andThen (print_entries
      (fun e => some (print_entry_registry env.registry_flags env.to_utf8 e))
      info.registry_entries "Registry".toList)
  |>.andThen (print_entries (fun e => some (print_entry_ini env.ini_flags e))
      info.ini_entries "INI".toList)
  |>.andThen (print_entries (fun e => some (print_entry_run env.run_flags e))
      info.run_entries "Run".toList)
  |>.andThen (print_entries (fun e => some (print_entry_run env.run_flags e))
      info.uninstall_run_entries "UninstallRun".toList)
  |>.andThen (print_entries (fun e => some (print_entry_icon e)) info.icons "Icons".toList)
  |>.andThen (print_entries (fun e => some (print_entry_task e)) info.tasks "Tasks".toList)
  |>.andThen (print_entries (fun e => some (print_entry_component e)) info.components
      "Components".toList)
  |>.andThen (print_entries (fun e => some (print_entry_delete e)) info.delete_entries
      "InstallDelete".toList)
  |>.andThen (print_entries (fun e => some (print_entry_delete e))
      info.uninstall_delete_entries "UninstallDelete".toList)
  |>.andThen (print_entries (fun e => some (print_entry_type e)) info.types "Types".toList)
  |>.andThen (print_entries (print_entry_message info.languages) info.messages
      "CustomMessages".toList)
  |>.andThen (print_entries_language info.languages "Languages".toList)

/-- The text `dump_iss` writes to the script stream once the stream is open: the
byte-order mark for a wide-character listed version, the header, the sections. -/
def dump_script (env : collaborators) (info : info) (installer : List Char) : written :=
  written.andThen
    { text := (if info.listed_version.is_unicode then ['\xEF', '\xBB', '\xBF'] else [])
        ++ print_header info installer,
      completed := true }
    (dump_sections env info)

/-! ## Embedded files -/

/-- The function `UnUnicode`. -/
def UnUnicode (s : List Char) : List Char := s

/-- The text `add_embedded_files` writes to the file `<name>.isl` of a language
entry. -/
def language_options (info : info) (entry : language_entry) : List Char :=
  SectionHeader.write { name := "LangOptions".toList, prepend_empty_line := false }
    ++ StrConst.write
        { name := "LanguageName".toList, value := UnUnicode entry.language_name }
    ++ StrConst.write
        { name := "LanguageID".toList, value := '$' :: IntToHex entry.language_id 4 }
    ++ (if info.version.value < INNO_VERSION_EXT 4 2 0 2 ∨ info.version.is_unicode then
          StrConst.write { name := "LanguageCodePage".toList, value := "0".toList }
        else
          StrConst.write { name := "LanguageCodePage".toList, value := dec entry.codepage })
    ++ StrConst.write { name := "DialogFontName".toList, value := entry.dialog_font }
    ++ StrConst.write { name := "TitleFontName".toList, value := entry.title_font }
    ++ StrConst.write { name := "WelcomeFontName".toList, value := entry.welcome_font }
    ++ StrConst.write { name := "CopyrightFontName".toList, value := entry.copyright_font }
    ++ StrConst.write
        { name := "DialogFontSize".toList, value := dec entry.dialog_font_size }
    ++ StrConst.write { name := "TitleFontSize".toList, value := dec entry.title_font_size }
    ++ StrConst.write
        { name := "WelcomeFontSize".toList, value := dec entry.welcome_font_size }
    ++ StrConst.write
        { name := "CopyrightFontSize".toList, value := dec entry.copyright_font_size }
    ++ (if entry.right_to_left then
          StrConst.write { name := "RightToLeft".toList, value := "yes".toList }
        else [])

/-- The effect of `add_embedded_files` on the directory `embedded` of the output
directory: the files opened, in the order of opening, each with its file name and
the content written to it, and whether the function ran to its end (`false` when a
vector was read out of range and the function stopped there).  Every `open_file`
call is taken to succeed; a file is opened with truncation, so a later file of the
same name replaces an earlier one. -/
structure exported where
  files : List (List Char × List Char)
  completed : Bool
  deriving DecidableEq

/-- Sequencing of two parts of the export: the second happens only when the first
ran to its end. -/
def exported.andThen (x : exported) (next : exported) : exported :=
  if x.completed then { files := x.files ++ next.files, completed := next.completed } else x

/-- The files of a part of `add_embedded_files` that cannot fail. -/
def exported.of (files : List (List Char × List Char)) : exported :=
  { files := files, completed := true }

/-- The body of the two wizard-image loops of `add_embedded_files`, for the values
of the loop index in the given list: the file named by `GetWizardImageFileName` is
opened and `images[i]` is written to it; when `images[i]` is out of range the file
has been opened and the function stops. -/
def export_images (images : List (List Char)) (is_small : Bool) : List Nat → exported
  | [] => exported.of []
  | i :: rest =>
    match images[i]? with
    | some image =>
      exported.andThen (exported.of [(GetWizardImageFileName i is_small, image)])
        (export_images images is_small rest)
    | none => { files := [(GetWizardImageFileName i is_small, [])], completed := false }

/-- The files `add_embedded_files` writes for one language entry. -/
def language_files (info : info) (entry : language_entry) :
    List (List Char × List Char) :=
  [(entry.name ++ ".isl".toList, language_options info entry)]
    ++ (if entry.license_text ≠ [] then
          [(entry.name ++ "License.txt".toList, entry.license_text)]
        else [])
    ++ (if entry.info_before ≠ [] then
          [(entry.name ++ "InfoBefore.txt".toList, entry.info_before)]
        else [])
    ++ (if entry.info_after ≠ [] then
          [(entry.name ++ "InfoAfter.txt".toList, entry.info_after)]
        else [])

/-- The function `add_embedded_files`. -/
def add_embedded_files (info : info) : exported :=
  (exported.of
    ((if info.header.license_text ≠ [] then
        [(MaybeToRtf "License".toList info.header.license_text, info.header.license_text)]
      else [])
    ++ (if info.header.info_before ≠ [] then
        [(MaybeToRtf "InfoBefore".toList info.header.info_before, info.header.info_before)]
      else [])
    ++ (if info.header.info_after ≠ [] then
        [(MaybeToRtf "InfoAfter".toList info.header.info_after, info.header.info_after)]
      else [])))
  |>.andThen
    (if ¬ info.wizard_images.isEmpty then
      export_images info.wizard_images false (List.range info.wizard_images.length)
    else exported.of [])
  |>.andThen
    (if ¬ info.wizard_images_small.isEmpty then
      export_images info.wizard_images_small true (List.range info.wizard_images.length)
    else exported.of [])
  |>.andThen
    (exported.of
      ((if info.decompressor_dll ≠ [] then
          [("decompressor.dll".toList, info.decompressor_dll)]
        else [])
      ++ (if info.header.info_after ≠ [] then
          [("decrypt.dll".toList, info.decrypt_dll)]
        else [])
      ++ info.languages.flatMap (language_files info)))

/-! ## Files and the function `dump_iss` -/

/-- What `dump_iss` takes from `boost::filesystem` and from the file streams:
whether a path can be opened for writing, and the text of the path made of a
directory and a name (`operator/` followed by `string()`). -/
structure filesystem where
  can_open : List Char → Bool
  join : List Char → List Char → List Char

/-- The function `open_file`: nothing when the stream is open afterwards, and
otherwise the message of the `std::runtime_error` it throws. -/
def open_file (fs : filesystem) (path : List Char) : Except (List Char) Unit :=
  if fs.can_open path then
    .ok ()
  else
    .error ("Could not open output file \"".toList ++ path ++ ['"'])

/-- The ways `dump_iss` ends without success: the `std::runtime_error` of the
`open_file` call that stands before the `try` block, the `format_error` thrown from
the `catch` block with its message, and a vector read out of range. -/
inductive failure where
  | runtime_error (what : List Char)
  | format_error (what : List Char)
  | out_of_range
  deriving DecidableEq

/-- The effect of `dump_iss`: the text of the script file, the embedded files
written, each with its path and content, and the failure, if any.  The script is
`none` when the file is not known to hold any text of the script: the file could
not be opened, or the program stopped at a read out of range before the stream was
closed, with the text written so far still in the buffer of the stream. -/
structure dump_outcome where
  script : Option (List Char)
  embedded : List (List Char × List Char)
  failure : Option failure
  deriving DecidableEq

/-- The `open_file` calls of `add_embedded_files` for the files it writes, in
order, under the directory `embedded` of the output directory: the files written
until the first path that cannot be opened, and the message of that failure. -/
def open_embedded (fs : filesystem) (output_dir : List Char) :
    List (List Char × List Char) → List (List Char × List Char) × Option (List Char)
  | [] => ([], none)
  | (name, content) :: rest =>
    match open_file fs (fs.join (fs.join output_dir "embedded".toList) name) with
    | .error what => ([], some what)
    | .ok _ =>
      let r := open_embedded fs output_dir rest
      ((fs.join (fs.join output_dir "embedded".toList) name, content) :: r.1, r.2)

/-- The function `dump_iss`.  The last argument is the text of
`installer.filename().string()`.  The stream of the script is closed after the last
section; a rendering that reads the language entries out of range (the unchecked
`operator[]` of `print_entry` for a message) stops the program before that. -/
def dump_iss (fs : filesystem) (env : collaborators) (info : info)
    (output_dir installer : List Char) : dump_outcome :=
  match open_file fs (fs.join output_dir "install_script.iss".toList) with
  | .error what => { script := none, embedded := [], failure := some (.runtime_error what) }
  | .ok _ =>
    let w := dump_script env info installer
    if w.completed then
      let x := add_embedded_files info
      let r := open_embedded fs output_dir x.files
      match r.2 with
      | some what =>
        { script := some w.text, embedded := r.1,
          failure := some (.format_error
            ("Stream error while dumping iss file!\n \xe2\x94\x94\xe2\x94\x80 error reason: ".toList
              ++ what)) }
      | none =>
        { script := some w.text, embedded := r.1,
          failure := if x.completed then none else some .out_of_range }
    else
      { script := none, embedded := [], failure := some .out_of_range }

/-! ## Loading of strings (`src/util/LoadingUtils.cpp`) -/

/-- The state of a `std::istream`: the characters not yet read and the result of
`fail()`. -/
structure istream where
  bytes : List Char
  fail : Bool
  deriving DecidableEq

/-- The call `target.resize(n)` of `std::string`: the first `n` characters are kept
and a longer string is filled with null characters. -/
def resize (target : List Char) (n : Nat) : List Char :=
  target.take n ++ List.replicate (n - target.length) '\x00'

/-- The call `is.read(&target[0], n)` of `std::istream`, with the stream and the
string after the call: a stream that has failed reads nothing; otherwise the
characters at hand, at most `n`, are stored at the start of the string, and the
stream fails when fewer than `n` were at hand. -/
def istream.read (is : istream) (target : List Char) (n : Nat) : istream × List Char :=
  if is.fail then (is, target)
  else
    ({ bytes := is.bytes.drop n, fail := decide ((is.bytes.take n).length < n) },
      is.bytes.take n ++ target.drop (is.bytes.take n).length)

/-- The function `BinaryString::loadInto`, with the stream and the target after the
call.  The template `loadNumber<int32_t>` is declared in `util/LoadingUtils.hpp`
and is taken as a parameter: it gives the number read and the stream after the
read. -/
def BinaryString.loadInto (loadNumber : istream → Int × istream) (is : istream)
    (target : List Char) : istream × List Char :=
  let length := (loadNumber is).1
  let is := (loadNumber is).2
  if is.fail ∨ length < 0 then
    (is, target)
  else
    let target := resize target length.toNat
    is.read target length.toNat

/-! ### Words of the specification, for comparison with the code -/

/-- A value with every quote character doubled. -/
def double_quotes (v : List Char) : List Char :=
  v.flatMap fun c => if c = '"' then ['"', '"'] else [c]

/-- Reversal of the escaping: every pair of quote characters becomes one quote
character, scanning left to right without overlap. -/
def undouble_quotes : List Char → List Char
  | '"' :: '"' :: cs => '"' :: undouble_quotes cs
  | c :: cs => c :: undouble_quotes cs
  | [] => []

/-- The tokens of the set bits of a mask, in ascending declared-bit order. -/
def set_bit_tokens {E : Type} (decl : flag_decl E) (Opt2Str : E → List Char)
    (options : E → Bool) : List (List Char) :=
  ((List.range decl.bits).filter fun i => options (decl.enum_type i)).map
    fun i => Opt2Str (decl.enum_type i)

/-- Tokens joined by single spaces. -/
def joined_by_spaces (tokens : List (List Char)) : List Char :=
  List.intercalate [' '] tokens

/-- One byte as exactly two upper-case hexadecimal digits. -/
def hex_pair (b : Nat) : List Char :=
  [(Nat.digitChar (b / 16 % 16)).toUpper, (Nat.digitChar (b % 16)).toUpper]

/-- Bytes as pairs of upper-case hexadecimal digits separated by single spaces,
without a trailing separator. -/
def hex_pairs (bytes : List Nat) : List Char :=
  joined_by_spaces (bytes.map hex_pair)

/-- A text that is empty or ends with `; `, as every sequence of `StrParam` writes
does. -/
def ends_with_separator (l : List Char) : Prop :=
  l = [] ∨ "; ".toList <:+ l

/-- A line without a `Flags:` suffix: the text before the newline is empty or ends
with the separator `; ` that closes a field. -/
def without_flags_suffix (line : List Char) : Prop :=
  ∃ fields, line = fields ++ ['\n'] ∧ ends_with_separator fields

/-- A text of one or more lines: it is not empty and its last character is the
newline. -/
def ends_with_newline (l : List Char) : Prop :=
  l ≠ [] ∧ l.getLast? = some '\n'

/-- The fixed order of the sections. -/
def section_order : List (List Char) :=
  [ "Files".toList, "Dirs".toList, "Registry".toList, "INI".toList, "Run".toList,
    "UninstallRun".toList, "Icons".toList, "Tasks".toList, "Components".toList,
    "InstallDelete".toList, "UninstallDelete".toList, "Types".toList,
    "CustomMessages".toList, "Languages".toList ]

/-- The number of entries of each of the fourteen collections, in the order of the
sections. -/
def collection_sizes (info : info) : List Nat :=
  [ info.files.length, info.directories.length, info.registry_entries.length,
    info.ini_entries.length, info.run_entries.length, info.uninstall_run_entries.length,
    info.icons.length, info.tasks.length, info.components.length,
    info.delete_entries.length, info.uninstall_delete_entries.length, info.types.length,
    info.messages.length, info.languages.length ]

/-- The text written for the entries of each of the fourteen collections, in the
order of the sections; for the languages the two comment lines come first. -/
def section_bodies (env : collaborators) (info : info) : List (List Char) :=
  [ (print_entries_loop (fun e => some (print_entry_file env.file_flags e)) info.files).text,
    (print_entries_loop (fun e => some (print_entry_directory env.directory_flags e))
      info.directories).text,
    (print_entries_loop
      (fun e => some (print_entry_registry env.registry_flags env.to_utf8 e))
      info.registry_entries).text,
    (print_entries_loop (fun e => some (print_entry_ini env.ini_flags e))
      info.ini_entries).text,
    (print_entries_loop (fun e => some (print_entry_run env.run_flags e))
      info.run_entries).text,
    (print_entries_loop (fun e => some (print_entry_run env.run_flags e))
      info.uninstall_run_entries).text,
    (print_entries_loop (fun e => some (print_entry_icon e)) info.icons).text,
    (print_entries_loop (fun e => some (print_entry_task e)) info.tasks).text,
    (print_entries_loop (fun e => some (print_entry_component e)) info.components).text,
    (print_entries_loop (fun e => some (print_entry_delete e)) info.delete_entries).text,
    (print_entries_loop (fun e => some (print_entry_delete e))
      info.uninstall_delete_entries).text,
    (print_entries_loop (fun e => some (print_entry_type e)) info.types).text,
    (print_entries_loop (print_entry_message info.languages) info.messages).text,
    "; These files are stubs\n".toList
      ++ "; To achieve better results after recompilation, use the real language files\n".toList
      ++ (print_entries_loop (fun e => some (print_entry_language e)) info.languages).text ]

/-- The message entries of the metadata all have a negative or in-range language
index, which is the contract of the input. -/
def valid_messages (info : info) : Prop :=
  ∀ m ∈ info.messages, m.language < 0 ∨ m.language.toNat < info.languages.length

instance (info : info) : Decidable (valid_messages info) :=
  inferInstanceAs
    (Decidable (∀ m ∈ info.messages, m.language < 0 ∨ m.language.toNat < info.languages.length))

/-- A text with every null character replaced by the token `{break}` and every
other character unchanged. -/
def null_to_break (v : List Char) : List Char :=
  v.flatMap fun c => if c = '\x00' then "\x7bbreak\x7d".toList else [c]

/-- The final path component: what follows the last backslash, or the whole path
when it has no backslash. -/
def final_component (path : List Char) : List Char :=
  match find_last_of path '\\' with
  | some n => path.drop (n + 1)
  | none => path

/-- The un-escaped destination: the raw destination after replacing doubled
backslashes by one backslash, `{{` by `{` and `/` by a backslash. -/
def unescaped_destination (destination : List Char) : List Char :=
  replace_all_copy
    (replace_all_copy (replace_all_copy destination "\\\\".toList "\\".toList)
      "\x7b\x7b".toList "\x7b".toList)
    "/".toList "\\".toList

/-- A Windows version above the baseline 4.0.0: its major is greater than 4, or
its major is 4 and its minor or build is not zero. -/
def exceeds_baseline (v : windows_version.data) : Prop :=
  v.major > 4 ∨ (v.major = 4 ∧ (v.minor ≠ 0 ∨ v.build ≠ 0))

/-- A Windows version with a major and a minor that are both not zero. -/
def has_major_and_minor (v : windows_version.data) : Prop :=
  v.major ≠ 0 ∧ v.minor ≠ 0

/-- The file the exporter ends up with under the given name: the content of the
last file opened under that name, if any. -/
def exported_content (files : List (List Char × List Char)) (name : List Char) :
    Option (List Char) :=
  (files.reverse.find? fun f => f.1 = name).map fun f => f.2

/-- The lines of a text: the runs of characters that a line feed ends, in order,
and the run after the last line feed when it is not empty. -/
def text_lines : List Char → List (List Char)
  | [] => []
  | c :: cs =>
    if c = '\n' then [] :: text_lines cs
    else
      match text_lines cs with
      | [] => [[c]]
      | l :: ls => (c :: l) :: ls

/-- The lines of the text `print_header` writes that start with the given name and
the sign `=`, in order. -/
def header_lines_of (info : info) (installer : List Char) (name : List Char) :
    List (List Char) :=
  (text_lines (print_header info installer)).filter fun line => (name ++ ['=']) <+: line

/-- The header contains the directive of the given name: a line of the text
`print_header` writes starts with the name and the sign `=`. -/
def header_has_directive (info : info) (installer : List Char) (name : List Char) : Prop :=
  ∃ line ∈ text_lines (print_header info installer), (name ++ ['=']) <+: line

instance (info : info) (installer name : List Char) :
    Decidable (header_has_directive info installer name) :=
  inferInstanceAs
    (Decidable (∃ line ∈ text_lines (print_header info installer), (name ++ ['=']) <+: line))

/-- No value that `print_header` hands to a `StrConst` of the `[Setup]` block holds a
line feed. -/
def single_line_values (info : info) (installer : List Char) : Prop :=
  ∀ d ∈ setup_directives info installer, '\n' ∉ d.value

instance (info : info) (installer : List Char) :
    Decidable (single_line_values info installer) :=
  inferInstanceAs (Decidable (∀ d ∈ setup_directives info installer, '\n' ∉ d.value))

/-- The salt after removal of a leading `PasswordCheckHash`. -/
def salt_without_mark (salt : List Char) : List Char :=
  if "PasswordCheckHash".toList <+: salt then salt.drop 17 else salt

/-- The installer's file name with one trailing `.exe` removed. -/
def without_exe (name : List Char) : List Char :=
  if ".exe".toList <:+ name then name.take (name.length - 4) else name

/-- The name of a registry hive, nothing for an unset hive. -/
def hive_text : hive_name → List Char
  | .HKCR => "HKCR".toList
  | .HKCU => "HKCU".toList
  | .HKLM => "HKLM".toList
  | .HKU => "HKU".toList
  | .HKPD => "HKPD".toList
  | .HKCC => "HKCC".toList
  | .HKDD => "HKDD".toList
  | .Unset => []

/-- The text of a minor version below 100: the single digit `minor / 10` for a
minor divisible by 10, and otherwise two digits with zero padding. -/
def minor_text (minor : Nat) : List Char :=
  if minor % 10 = 0 then [Nat.digitChar (minor / 10)]
  else [Nat.digitChar (minor / 10), Nat.digitChar (minor % 10)]

/-- The number written by a text of decimal digits. -/
def digits_value (l : List Char) : Nat :=
  l.foldl (fun acc c => acc * 10 + (c.toNat - 48)) 0

/-- The minor version written by a text of `minor_text`. -/
def minor_of_text (l : List Char) : Nat :=
  if l.length = 1 then digits_value l * 10 else digits_value l

/-- One byte as exactly two lower-case hexadecimal digits, high nibble first. -/
def lower_hex_pair (b : Nat) : List Char :=
  [Nat.digitChar (b / 16 % 16), Nat.digitChar (b % 16)]

/-! ### Concrete declarations, for the evaluation of examples -/

/-- A flags declaration given by the list of its enumerators in declared order. -/
def flag_decl.ofList {E : Type} (enumerators : List E) (other : Nat → E) : flag_decl E :=
  { bits := enumerators.length, enum_type := fun i => enumerators.getD i (other i) }

/-- Modelled from the spec: the declared order of `setup::file_entry::flags` in
`setup/file.hpp`. -/
def file_flags_decl : flag_decl file_flag :=
  flag_decl.ofList
    [ .ConfirmOverwrite, .NeverUninstall, .RestartReplace, .DeleteAfterInstall,
      .RegisterServer, .RegisterTypeLib, .SharedFile, .CompareTimeStamp,
      .FontIsNotTrueType, .SkipIfSourceDoesntExist, .OverwriteReadOnly,
      .OverwriteSameVersion, .CustomDestName, .OnlyIfDestFileExists, .NoRegError,
      .UninsRestartDelete, .OnlyIfDoesntExist, .IgnoreVersion, .PromptIfOlder, .DontCopy,
      .UninsRemoveReadOnly, .RecurseSubDirsExternal, .ReplaceSameVersionIfContentsDiffer,
      .DontVerifyChecksum, .UninsNoSharedFilePrompt, .CreateAllSubDirs, .Bits32, .Bits64,
      .ExternalSizePreset, .SetNtfsCompression, .UnsetNtfsCompression, .GacInstall ]
    .Other

/-- Modelled from the spec: the declared order of `setup::directory_entry::flags`
in `setup/directory.hpp`. -/
def directory_flags_decl : flag_decl directory_flag :=
  flag_decl.ofList
    [ .NeverUninstall, .DeleteAfterInstall, .AlwaysUninstall, .SetNtfsCompression,
      .UnsetNtfsCompression ]
    .Other

/-- Modelled from the spec: the declared order of `setup::registry_entry::flags`
in `setup/registry.hpp`. -/
def registry_flags_decl : flag_decl registry_flag :=
  flag_decl.ofList
    [ .CreateValueIfDoesntExist, .UninsDeleteValue, .UninsClearValue,
      .UninsDeleteEntireKey, .UninsDeleteEntireKeyIfEmpty, .PreserveStringType,
      .DeleteKey, .DeleteValue, .NoError, .DontCreateKey, .Bits32, .Bits64 ]
    .Other

/-- Modelled from the spec: the declared order of `setup::ini_entry::flags` in
`setup/ini.hpp`. -/
def ini_flags_decl : flag_decl ini_flag :=
  flag_decl.ofList
    [ .CreateKeyIfDoesntExist, .UninsDeleteEntry, .UninsDeleteEntireSection,
      .UninsDeleteSectionIfEmpty, .HasValue ]
    .Other

/-- Modelled from the spec: the declared order of `setup::run_entry::flags` in
`setup/run.hpp`. -/
def run_flags_decl : flag_decl run_flag :=
  flag_decl.ofList
    [ .ShellExec, .SkipIfDoesntExist, .PostInstall, .Unchecked, .SkipIfSilent,
      .SkipIfNotSilent, .HideWizard, .Bits32, .Bits64, .RunAsOriginalUser,
      .DontLogParameters, .LogOutput ]
    .Other

/-- A small metadata for the examples: format version 5.5.0, one directory, one
message of the first language, one language. -/
def example_info : info :=
  { version := { value := INNO_VERSION 5 5 0, unicode := false },
    listed_version := { value := INNO_VERSION 5 5 0, unicode := false },
    header := { app_name := "App".toList, architectures_allowed := fun a => a = .Amd64 },
    directories := [{ name := "\x7bapp\x7d".toList }],
    messages := [{ name := "Greeting".toList, value := "Hello".toList, language := 0 }],
    languages := [{ name := "en".toList }] }

/-- A metadata for the examples: format version 5.5.0, no option set, and the given
comments of the application. -/
def example_info_with_comments (comments : List Char) : info :=
  { version := { value := INNO_VERSION 5 5 0, unicode := false },
    listed_version := { value := INNO_VERSION 5 5 0, unicode := false },
    header := { app_comments := comments } }

/-- The collaborators of the examples: the declarations above and a codepage
converter that leaves text as it is. -/
def example_env : collaborators :=
  { file_flags := file_flags_decl, directory_flags := directory_flags_decl,
    registry_flags := registry_flags_decl, ini_flags := ini_flags_decl,
    run_flags := run_flags_decl, to_utf8 := id }

/-- A reader of a 32-bit signed number for the examples: four characters, least
significant first, in two's complement; the stream fails when fewer than four
characters are at hand. -/
def example_loadNumber (is : istream) : Int × istream :=
  if is.fail then (0, is)
  else
    match is.bytes with
    | b0 :: b1 :: b2 :: b3 :: rest =>
      let u := b0.toNat % 256 + 256 * (b1.toNat % 256) + 65536 * (b2.toNat % 256)
        + 16777216 * (b3.toNat % 256)
      (if u < 2147483648 then (u : Int) else (u : Int) - 4294967296,
        { bytes := rest, fail := false })
    | _ => (0, { bytes := [], fail := true })

/-! ## Lemmas on strings -/

theorem replace_all_quote (v : List Char) :
    replace_all_copy v "\"".toList "\"\"".toList = double_quotes v := by
  unfold replace_all_copy double_quotes
  induction v with
  | nil => rfl
  | cons c cs ih =>
    by_cases h : c = '"'
    · subst h
      simp only [replace_all_aux, List.flatMap_cons]
      simpa using ih
    · have hp : List.isPrefixOf "\"".toList (c :: cs) = false := by
        simp [List.isPrefixOf, h, Ne.symm h]
      simp only [replace_all_aux, hp, List.flatMap_cons, h]
      simpa using ih

/-! ## Theorems -/

/-- C1: `StrParam` writes nothing for an empty value; for a non-empty value with
quoting on it writes the name, `: "`, the value with every quote doubled and
`"; `; with quoting off it writes the name, `: `, the value and `; `. -/
theorem StrParam_spec (k : List Char) (c : Char) (cs : List Char) (q : Bool) :
    StrParam k [] q = [] ∧
    StrParam k (c :: cs) true
      = k ++ ": \"".toList ++ double_quotes (c :: cs) ++ "\"; ".toList ∧
    StrParam k (c :: cs) false = k ++ ": ".toList ++ (c :: cs) ++ "; ".toList := by
  refine ⟨by simp [StrParam], ?_, by simp [StrParam]⟩
  simpa [StrParam] using replace_all_quote (c :: cs)

theorem undouble_double (v : List Char) : undouble_quotes (double_quotes v) = v := by
  induction v with
  | nil => rfl
  | cons c cs ih =>
    by_cases h : c = '"'
    · subst h
      simpa [double_quotes, undouble_quotes] using ih
    · have : double_quotes (c :: cs) = c :: double_quotes cs := by simp [double_quotes, h]
      rw [this]
      unfold undouble_quotes
      split
      · rename_i heq
        simp at heq
        exact absurd heq.1 h
      · rename_i heq
        simp at heq
        obtain ⟨rfl, rfl⟩ := heq
        rw [ih]
      · rename_i heq
        simp at heq

theorem replace_all_unquote (v : List Char) :
    replace_all_copy (double_quotes v) "\"\"".toList "\"".toList = v := by
  unfold replace_all_copy
  induction v with
  | nil => rfl
  | cons c cs ih =>
    by_cases h : c = '"'
    · subst h
      have : double_quotes ('"' :: cs) = '"' :: '"' :: double_quotes cs := by
        simp [double_quotes]
      rw [this]
      simp only [replace_all_aux]
      simpa using ih
    · have : double_quotes (c :: cs) = c :: double_quotes cs := by simp [double_quotes, h]
      rw [this]
      have hp : List.isPrefixOf "\"\"".toList (c :: double_quotes cs) = false := by
        simp [List.isPrefixOf, Ne.symm h]
      simp only [replace_all_aux, hp]
      simpa using ih

/-- C2: escaping a value as `StrParam` does (every quote doubled) and then
reversing the escaping (every pair of quotes becomes one quote, left to right
without overlap) gives back the value. -/
theorem escape_roundtrip (v : List Char) :
    undouble_quotes (replace_all_copy v "\"".toList "\"\"".toList) = v ∧
    replace_all_copy (replace_all_copy v "\"".toList "\"\"".toList)
      "\"\"".toList "\"".toList = v := by
  rw [replace_all_quote]
  exact ⟨undouble_double v, replace_all_unquote v⟩

/-! ## Flag rendering -/

theorem flags_to_str_eq {E : Type} (decl : flag_decl E) (Opt2Str : E → List Char)
    (options : E → Bool) :
    flags_to_str decl Opt2Str options
      = ((set_bit_tokens decl Opt2Str options).filter (· ≠ [])).flatMap (· ++ [' ']) := by
  unfold flags_to_str set_bit_tokens
  have key : ∀ l : List Nat,
      (l.flatMap fun o_i =>
        if options (decl.enum_type o_i) then
          let o_s := Opt2Str (decl.enum_type o_i)
          if o_s ≠ [] then o_s ++ [' '] else []
        else [])
      = (((l.filter fun i => options (decl.enum_type i)).map
          fun i => Opt2Str (decl.enum_type i)).filter (· ≠ [])).flatMap (· ++ [' ']) := by
    intro l
    induction l with
    | nil => rfl
    | cons a l ih =>
      simp only [List.flatMap_cons, ih, List.filter_cons]
      by_cases h1 : options (decl.enum_type a) = true
      · by_cases h2 : Opt2Str (decl.enum_type a) = []
        · simp [h1, h2]
        · simp [h1, h2]
      · simp [h1]
  split
  · exact key _
  · rename_i hany
    rw [← key]
    symm
    rw [List.flatMap_eq_nil_iff]
    intro i hi
    have : options (decl.enum_type i) = false := by
      by_contra hc
      exact hany (List.any_eq_true.mpr ⟨i, hi, by simpa using hc⟩)
    simp [this]

theorem flags_to_str_eq_nil {E : Type} (decl : flag_decl E) (Opt2Str : E → List Char)
    (options : E → Bool) :
    flags_to_str decl Opt2Str options = []
      ↔ ∀ i, i < decl.bits → options (decl.enum_type i) = true →
          Opt2Str (decl.enum_type i) = [] := by
  rw [flags_to_str_eq, List.flatMap_eq_nil_iff]
  unfold set_bit_tokens
  constructor
  · intro h i hi hset
    by_contra hne
    have := h (Opt2Str (decl.enum_type i))
      (by
        simp only [List.mem_filter, List.mem_map, List.mem_range, decide_eq_true_eq]
        exact ⟨⟨i, ⟨hi, hset⟩, rfl⟩, hne⟩)
    simp at this
  · intro h t ht
    simp only [List.mem_filter, List.mem_map, List.mem_range, decide_eq_true_eq] at ht
    obtain ⟨⟨i, ⟨hi, hset⟩, rfl⟩, hne⟩ := ht
    exact absurd (h i hi hset) hne

/-- C3 (as stated, refuted): for the file option mask with the single bit
`RestartReplace` set, the rendered token text is `restartreplace` followed by a
space, which is not the tokens of the set bits joined by single spaces. -/
theorem flags_text_not_joined :
    flags_to_str file_flags_decl FileOpt2Str (fun f => f = .RestartReplace)
      = "restartreplace ".toList ∧
    joined_by_spaces
        (set_bit_tokens file_flags_decl FileOpt2Str (fun f => f = .RestartReplace))
      = "restartreplace".toList ∧
    flags_to_str file_flags_decl FileOpt2Str (fun f => f = .RestartReplace)
      ≠ joined_by_spaces
          (set_bit_tokens file_flags_decl FileOpt2Str (fun f => f = .RestartReplace)) := by
  decide

/-- C3 (amended): for every option mask of a file, directory, registry or INI
entry, the rendered token text is the non-empty tokens of the set bits, in
ascending declared-bit order, each followed by one space; it is empty exactly when
every set bit maps to an empty token (in particular when no bit is set); equal
masks give equal text. -/
theorem flags_text_spec (fd : flag_decl file_flag) (dd : flag_decl directory_flag)
    (rd : flag_decl registry_flag) (nd : flag_decl ini_flag)
    (fo fo2 : file_flag → Bool) (dopt : directory_flag → Bool)
    (ropt : registry_flag → Bool) (iopt : ini_flag → Bool)
    (hsame : ∀ i, i < fd.bits → fo (fd.enum_type i) = fo2 (fd.enum_type i)) :
    (flags_to_str fd FileOpt2Str fo
        = ((set_bit_tokens fd FileOpt2Str fo).filter (· ≠ [])).flatMap (· ++ [' ']) ∧
      flags_to_str dd DirOpt2Str dopt
        = ((set_bit_tokens dd DirOpt2Str dopt).filter (· ≠ [])).flatMap (· ++ [' ']) ∧
      flags_to_str rd RegistryOpt2Str ropt
        = ((set_bit_tokens rd RegistryOpt2Str ropt).filter (· ≠ [])).flatMap (· ++ [' ']) ∧
      flags_to_str nd IniOpt2Str iopt
        = ((set_bit_tokens nd IniOpt2Str iopt).filter (· ≠ [])).flatMap (· ++ [' '])) ∧
    ((flags_to_str fd FileOpt2Str fo = []
        ↔ ∀ i, i < fd.bits → fo (fd.enum_type i) = true → FileOpt2Str (fd.enum_type i) = []) ∧
      (flags_to_str dd DirOpt2Str dopt = []
        ↔ ∀ i, i < dd.bits → dopt (dd.enum_type i) = true → DirOpt2Str (dd.enum_type i) = []) ∧
      (flags_to_str rd RegistryOpt2Str ropt = []
        ↔ ∀ i, i < rd.bits → ropt (rd.enum_type i) = true →
            RegistryOpt2Str (rd.enum_type i) = []) ∧
      (flags_to_str nd IniOpt2Str iopt = []
        ↔ ∀ i, i < nd.bits → iopt (nd.enum_type i) = true → IniOpt2Str (nd.enum_type i) = [])) ∧
    flags_to_str fd FileOpt2Str fo = flags_to_str fd FileOpt2Str fo2 := by
  refine ⟨⟨flags_to_str_eq _ _ _, flags_to_str_eq _ _ _, flags_to_str_eq _ _ _,
    flags_to_str_eq _ _ _⟩, ⟨flags_to_str_eq_nil _ _ _, flags_to_str_eq_nil _ _ _,
    flags_to_str_eq_nil _ _ _, flags_to_str_eq_nil _ _ _⟩, ?_⟩
  rw [flags_to_str_eq, flags_to_str_eq]
  have : set_bit_tokens fd FileOpt2Str fo = set_bit_tokens fd FileOpt2Str fo2 := by
    unfold set_bit_tokens
    congr 1
    apply List.filter_congr
    intro i hi
    exact hsame i (List.mem_range.mp hi)
  rw [this]

/-- C3 (amended), at the file mask with `RestartReplace` and `IgnoreVersion` set
and the same mask written with the bits in the other order. -/
theorem flags_text_spec_witness :
    flags_to_str file_flags_decl FileOpt2Str
        (fun f => f = .RestartReplace || f = .IgnoreVersion)
      = "restartreplace ignoreversion ".toList ∧
    flags_to_str file_flags_decl FileOpt2Str
        (fun f => f = .RestartReplace || f = .IgnoreVersion)
      = flags_to_str file_flags_decl FileOpt2Str
        (fun f => f = .IgnoreVersion || f = .RestartReplace) :=
  ⟨by decide,
    (flags_text_spec file_flags_decl directory_flags_decl registry_flags_decl ini_flags_decl
      (fun f => f = .RestartReplace || f = .IgnoreVersion)
      (fun f => f = .IgnoreVersion || f = .RestartReplace)
      (fun _ => false) (fun _ => false) (fun _ => false)
      (by intro i _; simp only [Bool.or_comm])).2.2⟩

/-! ## The `Flags: ` suffix -/

theorem ends_with_separator_nil : ends_with_separator [] := Or.inl rfl

theorem ends_with_separator_append {a b : List Char} (ha : ends_with_separator a)
    (hb : ends_with_separator b) : ends_with_separator (a ++ b) := by
  rcases hb with hb | hb
  · subst hb
    simpa using ha
  · exact Or.inr (hb.trans (List.suffix_append a b))

theorem ends_with_separator_StrParam (k v : List Char) (q : Bool) :
    ends_with_separator (StrParam k v q) := by
  unfold StrParam
  split
  · exact Or.inl rfl
  · split
    · refine Or.inr ⟨k ++ ": \"".toList ++ replace_all_copy v "\"".toList "\"\"".toList
        ++ ['"'], ?_⟩
      simp
    · exact Or.inr ⟨k ++ ": ".toList ++ v, by simp⟩

theorem ends_with_separator_ite (c : Prop) [Decidable c] {a : List Char}
    (ha : ends_with_separator a) : ends_with_separator (if c then a else []) := by
  split
  · exact ha
  · exact Or.inl rfl

theorem ends_with_separator_PrintVersions (w : windows_version_range) :
    ends_with_separator (PrintVersions w) := by
  unfold PrintVersions
  exact ends_with_separator_append
    (ends_with_separator_ite _ (ends_with_separator_StrParam _ _ _))
    (ends_with_separator_ite _ (ends_with_separator_StrParam _ _ _))

theorem ends_with_separator_PrintItem (it : item) (pv cq : Bool) :
    ends_with_separator (PrintItem it pv cq) := by
  unfold PrintItem
  refine ends_with_separator_append (ends_with_separator_append (ends_with_separator_append
    (ends_with_separator_append (ends_with_separator_append (ends_with_separator_append
    (ends_with_separator_StrParam _ _ _) (ends_with_separator_StrParam _ _ _))
    (ends_with_separator_StrParam _ _ _)) (ends_with_separator_StrParam _ _ _))
    (ends_with_separator_StrParam _ _ _)) (ends_with_separator_StrParam _ _ _)) ?_
  split
  · exact ends_with_separator_PrintVersions _
  · exact Or.inl rfl

theorem ends_with_separator_file_fields (e : file_entry) :
    ends_with_separator (file_fields e) := by
  unfold file_fields RenameFiles
  exact ends_with_separator_append (ends_with_separator_append (ends_with_separator_append
    (ends_with_separator_append (ends_with_separator_StrParam _ _ _)
      (ends_with_separator_StrParam _ _ _)) (ends_with_separator_StrParam _ _ _))
    (ends_with_separator_StrParam _ _ _)) (ends_with_separator_PrintItem _ _ _)

theorem ends_with_separator_directory_fields (e : directory_entry) :
    ends_with_separator (directory_fields e) :=
  ends_with_separator_StrParam _ _ _

theorem ends_with_separator_registry_fields (u : List Char → List Char)
    (e : registry_entry) : ends_with_separator (registry_fields u e) := by
  unfold registry_fields
  exact ends_with_separator_append (ends_with_separator_append (ends_with_separator_append
    (ends_with_separator_append (ends_with_separator_append
      (ends_with_separator_StrParam _ _ _) (ends_with_separator_StrParam _ _ _))
      (ends_with_separator_StrParam _ _ _)) (ends_with_separator_StrParam _ _ _))
    (ends_with_separator_StrParam _ _ _)) (ends_with_separator_PrintItem _ _ _)

theorem ends_with_separator_ini_fields (e : ini_entry) :
    ends_with_separator (ini_fields e) := by
  unfold ini_fields
  exact ends_with_separator_append (ends_with_separator_append (ends_with_separator_append
    (ends_with_separator_StrParam _ _ _) (ends_with_separator_StrParam _ _ _))
    (ends_with_separator_StrParam _ _ _)) (ends_with_separator_StrParam _ _ _)

theorem not_flags_suffix_of_ends_with_separator {l : List Char}
    (h : ends_with_separator l) : ¬ ("Flags: ".toList <:+ l) := by
  intro hs
  rcases h with h | h
  · subst h
    simp at hs
  · have := List.suffix_of_suffix_length_le h hs (by decide)
    revert this
    decide

theorem flags_line_iff (fields s : List Char) (h : ends_with_separator fields) :
    ("Flags: ".toList ++ s ++ ['\n']) <:+ (fields ++ flags_suffix s ++ ['\n']) ↔ s ≠ [] := by
  constructor
  · intro hs hnil
    subst hnil
    simp only [flags_suffix, ne_eq, not_true_eq_false, if_false, List.append_nil] at hs
    obtain ⟨t, ht⟩ := hs
    rw [← List.append_assoc, List.append_left_inj] at ht
    exact not_flags_suffix_of_ends_with_separator h ⟨t, ht⟩
  · intro hne
    simp only [flags_suffix, hne, ne_eq, not_false_eq_true, if_true]
    exact ⟨fields, by simp⟩

theorem flags_to_str_ne_nil {E : Type} (decl : flag_decl E) (Opt2Str : E → List Char)
    (options : E → Bool) :
    flags_to_str decl Opt2Str options ≠ []
      ↔ ∃ i, i < decl.bits ∧ options (decl.enum_type i) = true ∧
          Opt2Str (decl.enum_type i) ≠ [] := by
  rw [ne_eq, flags_to_str_eq_nil]
  constructor
  · intro h
    by_contra hc
    apply h
    intro i hi hset
    by_contra hne
    exact hc ⟨i, hi, hset, hne⟩
  · rintro ⟨i, hi, hset, hne⟩ h
    exact hne (h i hi hset)

/-- C4 (as stated, refuted): a file entry of type `UninstExe` with the option
`RestartReplace` set has a set bit with a non-empty token, yet nothing is rendered
for it, so there is no `Flags: ` suffix. -/
theorem non_user_file_no_flags :
    print_entry_file file_flags_decl
        { type := .UninstExe, options := fun f => f = .RestartReplace } = [] ∧
    (∃ i, i < file_flags_decl.bits ∧
      (fun f : file_flag => decide (f = .RestartReplace)) (file_flags_decl.enum_type i) = true ∧
      FileOpt2Str (file_flags_decl.enum_type i) ≠ []) ∧
    ¬ ("Flags: ".toList <:+: print_entry_file file_flags_decl
        { type := .UninstExe, options := fun f => f = .RestartReplace }) := by
  refine ⟨by decide, ⟨2, by decide, by decide, by decide⟩, ?_⟩
  have : print_entry_file file_flags_decl
      { type := .UninstExe, options := fun f => f = .RestartReplace } = [] := by decide
  rw [this]
  simp

/-- C4 (amended): for every user-file entry and every directory, registry and INI
entry, the rendered line ends with `Flags: `, the flag text and the newline if and
only if at least one set option bit maps to a non-empty token. -/
theorem flags_suffix_iff (fd : flag_decl file_flag) (dd : flag_decl directory_flag)
    (rd : flag_decl registry_flag) (nd : flag_decl ini_flag) (u : List Char → List Char)
    (fe : file_entry) (de : directory_entry) (re : registry_entry) (ie : ini_entry)
    (huser : fe.type = .UserFile) :
    ((("Flags: ".toList ++ flags_to_str fd FileOpt2Str fe.options ++ ['\n'])
        <:+ print_entry_file fd fe)
      ↔ ∃ i, i < fd.bits ∧ fe.options (fd.enum_type i) = true ∧
          FileOpt2Str (fd.enum_type i) ≠ []) ∧
    ((("Flags: ".toList ++ flags_to_str dd DirOpt2Str de.options ++ ['\n'])
        <:+ print_entry_directory dd de)
      ↔ ∃ i, i < dd.bits ∧ de.options (dd.enum_type i) = true ∧
          DirOpt2Str (dd.enum_type i) ≠ []) ∧
    ((("Flags: ".toList ++ flags_to_str rd RegistryOpt2Str re.options ++ ['\n'])
        <:+ print_entry_registry rd u re)
      ↔ ∃ i, i < rd.bits ∧ re.options (rd.enum_type i) = true ∧
          RegistryOpt2Str (rd.enum_type i) ≠ []) ∧
    ((("Flags: ".toList ++ flags_to_str nd IniOpt2Str ie.options ++ ['\n'])
        <:+ print_entry_ini nd ie)
      ↔ ∃ i, i < nd.bits ∧ ie.options (nd.enum_type i) = true ∧
          IniOpt2Str (nd.enum_type i) ≠ []) := by
  refine ⟨?_, ?_, ?_, ?_⟩
  · rw [← flags_to_str_ne_nil]
    unfold print_entry_file
    simp only [huser, ne_eq, not_true_eq_false, if_false]
    exact flags_line_iff _ _ (ends_with_separator_file_fields fe)
  · rw [← flags_to_str_ne_nil]
    exact flags_line_iff _ _ (ends_with_separator_directory_fields de)
  · rw [← flags_to_str_ne_nil]
    exact flags_line_iff _ _ (ends_with_separator_registry_fields u re)
  · rw [← flags_to_str_ne_nil]
    exact flags_line_iff _ _ (ends_with_separator_ini_fields ie)

/-- C4 (amended), at the user file `C:\Program Files\App\app.exe` with the options
`RestartReplace` and `IgnoreVersion`, and at entries of the other three kinds
without options. -/
theorem flags_suffix_iff_witness :
    (({ destination := "C:\\Program Files\\App\\app.exe".toList,
        options := fun f => f = .RestartReplace || f = .IgnoreVersion } : file_entry).type
      = .UserFile) ∧
    ("Flags: restartreplace ignoreversion \n".toList
      <:+ print_entry_file file_flags_decl
        { destination := "C:\\Program Files\\App\\app.exe".toList,
          options := fun f => f = .RestartReplace || f = .IgnoreVersion }) :=
  ⟨rfl,
    ((flags_suffix_iff file_flags_decl directory_flags_decl registry_flags_decl
      ini_flags_decl id
      { destination := "C:\\Program Files\\App\\app.exe".toList,
        options := fun f => f = .RestartReplace || f = .IgnoreVersion }
      {} {} {} rfl).1).mpr ⟨2, by decide, by decide, by decide⟩⟩

/-! ## Entry lines -/

theorem ends_with_newline_append (a : List Char) : ends_with_newline (a ++ ['\n']) := by
  constructor
  · simp
  · simp [List.getLast?_append]

theorem replace_all_aux_ne_nil (search format : List Char) (hf : format ≠ [])
    (c : Char) (cs : List Char) : replace_all_aux search format 0 (c :: cs) ≠ [] := by
  unfold replace_all_aux
  split
  · simp [hf]
  · simp

theorem StrConst_write_of_ne_nil (name value : List Char) (always : Bool)
    (h : value ≠ []) :
    StrConst.write { name := name, value := value, show_always := always }
      = (name ++ '=' :: value) ++ ['\n'] := by
  unfold StrConst.write
  cases value with
  | nil => exact absurd rfl h
  | cons c cs => simp

theorem print_entry_message_some (langs : List language_entry) (m : message_entry)
    (hindex : m.language < 0 ∨ m.language.toNat < langs.length) :
    ∃ name, print_entry_message langs m
      = some (StrConst.write
          { name := name,
            value := replace_all_copy m.value "\x0d\x0a".toList "%n".toList }) := by
  unfold print_entry_message
  by_cases h : m.language ≥ 0
  · have hlt : m.language.toNat < langs.length := by
      rcases hindex with h' | h'
      · omega
      · exact h'
    simp only [h, if_true, List.getElem?_eq_getElem hlt]
    exact ⟨_, rfl⟩
  · simp only [h, if_false]
    exact ⟨_, rfl⟩

/-- C5 (as stated, refuted): a file entry of type `UninstExe` and a message entry
with an empty value render the empty text, which is not one or more lines. -/
theorem entries_without_line :
    print_entry_file file_flags_decl { type := .UninstExe } = [] ∧
    print_entry_message [] { name := "Greeting".toList, value := [] } = some [] := by
  decide

/-- C5 (amended): every directory, registry, INI, run, icon, task, component,
delete, type and language entry, every user-file entry, and every message entry
with a non-empty value and a negative or in-range language index renders as one or
more lines, a non-empty text ending with a newline; a file entry of another type
and a message entry with an empty value and such an index render nothing. -/
theorem print_entry_lines (env : collaborators) (langs : List language_entry)
    (fe fe2 : file_entry) (de : directory_entry) (re : registry_entry) (ie : ini_entry)
    (ru : run_entry) (ic : icon_entry) (ta : task_entry) (co : component_entry)
    (dl : delete_entry) (ty : type_entry) (me me2 : message_entry) (la : language_entry)
    (huser : fe.type = .UserFile) (hother : fe2.type ≠ .UserFile)
    (hvalue : me.value ≠ []) (hindex : me.language < 0 ∨ me.language.toNat < langs.length)
    (hvalue2 : me2.value = [])
    (hindex2 : me2.language < 0 ∨ me2.language.toNat < langs.length) :
    (ends_with_newline (print_entry_file env.file_flags fe) ∧
      ends_with_newline (print_entry_directory env.directory_flags de) ∧
      ends_with_newline (print_entry_registry env.registry_flags env.to_utf8 re) ∧
      ends_with_newline (print_entry_ini env.ini_flags ie) ∧
      ends_with_newline (print_entry_run env.run_flags ru) ∧
      ends_with_newline (print_entry_icon ic) ∧
      ends_with_newline (print_entry_task ta) ∧
      ends_with_newline (print_entry_component co) ∧
      ends_with_newline (print_entry_delete dl) ∧
      ends_with_newline (print_entry_type ty) ∧
      (∃ t, print_entry_message langs me = some t ∧ ends_with_newline t) ∧
      ends_with_newline (print_entry_language la)) ∧
    print_entry_file env.file_flags fe2 = [] ∧
    print_entry_message langs me2 = some [] := by
  refine ⟨⟨?_, ends_with_newline_append _, ends_with_newline_append _,
    ends_with_newline_append _, ends_with_newline_append _, ends_with_newline_append _,
    ends_with_newline_append _, ends_with_newline_append _, ends_with_newline_append _,
    ends_with_newline_append _, ?_, ends_with_newline_append _⟩, ?_, ?_⟩
  · unfold print_entry_file
    simp only [huser, ne_eq, not_true_eq_false, if_false]
    exact ends_with_newline_append _
  · obtain ⟨name, hname⟩ := print_entry_message_some langs me hindex
    refine ⟨_, hname, ?_⟩
    have hne : replace_all_copy me.value "\x0d\x0a".toList "%n".toList ≠ [] := by
      cases hv : me.value with
      | nil => exact absurd hv hvalue
      | cons c cs => exact replace_all_aux_ne_nil _ _ (by decide) c cs
    rw [StrConst_write_of_ne_nil _ _ _ hne]
    exact ends_with_newline_append _
  · unfold print_entry_file
    simp [hother]
  · obtain ⟨name, hname⟩ := print_entry_message_some langs me2 hindex2
    rw [hname, hvalue2]
    rfl

/-- C5 (amended), at entries with a name, a user file, a message `Greeting` with
value `Hello` for the first language, a file of type `RegSvrExe` and a message
without value. -/
theorem print_entry_lines_witness :
    (({ destination := "app.exe".toList } : file_entry).type = .UserFile) ∧
    (({ type := .RegSvrExe } : file_entry).type ≠ .UserFile) ∧
    ends_with_newline (print_entry_directory example_env.directory_flags
      { name := "{app}".toList }) ∧
    print_entry_message [{ name := "en".toList }]
      { name := "Greeting".toList, value := "Hello".toList, language := 0 }
      = some "en.Greeting=Hello\n".toList :=
  ⟨rfl, by decide,
    (print_entry_lines example_env [{ name := "en".toList }]
      { destination := "app.exe".toList } { type := .RegSvrExe }
      { name := "{app}".toList } {} {} {} {} {} {} {} {}
      { name := "Greeting".toList, value := "Hello".toList, language := 0 }
      { name := "Empty".toList } {}
      rfl (by decide) (by decide) (by decide) rfl (by decide)).1.2.1,
    by decide⟩

/-! ## Entries without flags -/

theorem toDigitsCore_isDigit (fuel : Nat) : ∀ (n : Nat) (ds : List Char) (c : Char),
    c ∈ Nat.toDigitsCore 10 fuel n ds → c ∈ ds ∨ c.isDigit = true := by
  induction fuel with
  | zero => intro n ds c hc; simp [Nat.toDigitsCore] at hc; exact Or.inl hc
  | succ f ih =>
    intro n ds c hc
    have hd : (Nat.digitChar (n % 10)).isDigit = true := by
      have : n % 10 < 10 := Nat.mod_lt _ (by decide)
      interval_cases (n % 10) <;> decide
    simp only [Nat.toDigitsCore] at hc
    split at hc
    · rcases List.mem_cons.mp hc with h | h
      · exact Or.inr (h ▸ hd)
      · exact Or.inl h
    · rcases ih _ _ _ hc with h | h
      · rcases List.mem_cons.mp h with h | h
        · exact Or.inr (h ▸ hd)
        · exact Or.inl h
      · exact Or.inr h

theorem dec_isDigit (n : Nat) (c : Char) (hc : c ∈ dec n) : c.isDigit = true := by
  rcases toDigitsCore_isDigit _ _ _ _ hc with h | h
  · simp at h
  · exact h

theorem not_F_dec (n : Nat) : 'F' ∉ dec n := fun h => by
  have := dec_isDigit n 'F' h
  revert this; decide

theorem not_F_VerToStr (d : windows_version.data) (sp : windows_version.service_pack) :
    'F' ∉ VerToStr d sp := by
  unfold VerToStr setw
  simp only [List.mem_append, List.mem_cons, not_or, List.mem_replicate]
  refine ⟨⟨⟨not_F_dec _, by decide, ?_, not_F_dec _⟩, ?_⟩, ?_⟩
  · simp
  · split
    · simp [not_F_dec]
    · simp
  · split
    · simp only [List.mem_append, not_or]
      refine ⟨⟨by decide, not_F_dec _⟩, ?_⟩
      split
      · simp [not_F_dec]
      · simp
    · simp

theorem StrParam_nil (k : List Char) (q : Bool) : StrParam k [] q = [] := by simp [StrParam]

theorem not_F_StrParam_plain (k v : List Char) (hk : 'F' ∉ k) (hv : 'F' ∉ v) :
    'F' ∉ StrParam k v false := by
  unfold StrParam
  split
  · simp
  · simp [hk, hv]

theorem not_F_PrintVersions (w : windows_version_range) : 'F' ∉ PrintVersions w := by
  unfold PrintVersions
  simp only [List.mem_append, not_or]
  constructor
  · split
    · exact not_F_StrParam_plain _ _ (by decide) (by simp [not_F_VerToStr])
    · simp
  · split
    · exact not_F_StrParam_plain _ _ (by decide) (by simp [not_F_VerToStr])
    · simp

theorem not_infix_of_not_F {l : List Char} (h : 'F' ∉ l) : ¬ ("Flags: ".toList <:+: l) :=
  fun hi => h (hi.subset (by decide))

theorem flags_to_str_clear {E : Type} (decl : flag_decl E) (f : E → List Char) :
    flags_to_str decl f (fun _ => false) = [] := by
  rw [flags_to_str_eq_nil]
  intro i _ h
  simp at h

theorem not_F_dec_int (k : Int) : 'F' ∉ dec_int k := by
  unfold dec_int
  split
  · simp [not_F_dec]
  · exact not_F_dec _

theorem PrintItem_empty (w : windows_version_range) (pv cq : Bool) :
    'F' ∉ PrintItem { winver := w } pv cq := by
  unfold PrintItem
  simp only [StrParam_nil, List.append_nil, List.nil_append]
  split
  · exact not_F_PrintVersions w
  · simp


theorem not_F_append {a b : List Char} (ha : 'F' ∉ a) (hb : 'F' ∉ b) : 'F' ∉ a ++ b := by
  simp [ha, hb]

theorem not_F_newline : 'F' ∉ ['\n'] := by decide

theorem not_F_nil : 'F' ∉ ([] : List Char) := by simp

theorem not_F_IntParam (k : List Char) (n : Nat) (hk : 'F' ∉ k) : 'F' ∉ IntParam k n := by
  unfold IntParam
  split
  · simp
  · unfold StrParam
    split
    · simp
    · have hq : 'F' ∉ double_quotes (dec n) := by
        unfold double_quotes
        simp only [List.mem_flatMap, not_exists, not_and]
        intro c hc
        split
        · decide
        · simp only [List.mem_singleton]
          intro h
          exact not_F_dec n (h ▸ hc)
      have h1 : 'F' ∉ ": \"".toList := by decide
      have h2 : 'F' ∉ "\"; ".toList := by decide
      simp only [if_true, replace_all_quote]
      exact not_F_append (not_F_append (not_F_append hk h1) hq) h2

theorem not_F_IntParam_int (k : List Char) (n : Int) (hk : 'F' ∉ k) :
    'F' ∉ IntParam_int k n false := by
  unfold IntParam_int
  split
  · simp
  · exact not_F_StrParam_plain _ _ hk (not_F_dec_int n)

/-- C6 (as stated, refuted): a run entry and an icon entry whose text fields are all
empty and whose option bits are all clear still render a `Flags: ` suffix, from the
wait condition and from the close setting. -/
theorem flags_without_option_bits :
    print_entry_run run_flags_decl { wait := .NoWait } = "Flags: nowait\n".toList ∧
    print_entry_icon { close_on_exit := .CloseOnExit } = "Flags: closeonexit \n".toList := by
  decide

/-! ## Sections -/

theorem andThen_completed (a b : List Char) (c : Bool) :
    written.andThen { text := a, completed := true } { text := b, completed := c }
      = { text := a ++ b, completed := c } := by
  simp [written.andThen]

theorem print_entries_loop_of_forall {Entry : Type} (pe : Entry → Option (List Char))
    (entries : List Entry) (renderings : List (List Char))
    (h : List.Forall₂ (fun e r => pe e = some r) entries renderings) :
    print_entries_loop pe entries = { text := renderings.flatten, completed := true } := by
  induction h with
  | nil => rfl
  | cons hhead _ ih =>
    simp only [print_entries_loop, hhead, ih, andThen_completed, List.flatten_cons]

theorem print_entries_loop_some {Entry : Type} (f : Entry → List Char)
    (entries : List Entry) :
    print_entries_loop (fun e => some (f e)) entries
      = { text := (entries.map f).flatten, completed := true } := by
  apply print_entries_loop_of_forall
  induction entries with
  | nil => exact List.Forall₂.nil
  | cons e es ih => exact List.Forall₂.cons rfl ih

theorem forall₂_message (langs : List language_entry) (messages : List message_entry)
    (h : ∀ m ∈ messages, m.language < 0 ∨ m.language.toNat < langs.length) :
    ∃ renderings, List.Forall₂ (fun e r => print_entry_message langs e = some r)
      messages renderings := by
  induction messages with
  | nil => exact ⟨[], List.Forall₂.nil⟩
  | cons m ms ih =>
    obtain ⟨rs, hrs⟩ := ih (fun x hx => h x (List.mem_cons_of_mem _ hx))
    obtain ⟨name, hname⟩ := print_entry_message_some langs m (h m (List.mem_cons_self _ _))
    exact ⟨_ :: rs, List.Forall₂.cons hname hrs⟩

theorem print_entries_eq {Entry : Type} (pe : Entry → Option (List Char))
    (entries : List Entry) (name : List Char)
    (hc : (print_entries_loop pe entries).completed = true) :
    print_entries pe entries name
      = { text := if entries.length ≠ 0 then
            SectionHeader.write { name := name } ++ (print_entries_loop pe entries).text
          else [],
          completed := true } := by
  unfold print_entries
  cases entries with
  | nil => rfl
  | cons e es =>
    simp only [List.isEmpty_cons, Bool.false_eq_true, if_false, List.length_cons, ne_eq,
      Nat.add_one_ne_zero, not_false_eq_true, if_true]
    generalize print_entries_loop pe (e :: es) = w at hc
    cases w
    simp only at hc
    subst hc
    exact andThen_completed _ _ _

theorem print_entries_language_eq (entries : List language_entry) (name : List Char) :
    print_entries_language entries name
      = { text := if entries.length ≠ 0 then
            SectionHeader.write { name := name }
              ++ ("; These files are stubs\n".toList
              ++ "; To achieve better results after recompilation, use the real language files\n".toList
              ++ (print_entries_loop (fun e => some (print_entry_language e)) entries).text)
          else [],
          completed := true } := by
  unfold print_entries_language
  cases entries with
  | nil => rfl
  | cons e es =>
    simp only [List.isEmpty_cons, Bool.false_eq_true, if_false, List.length_cons, ne_eq,
      Nat.add_one_ne_zero, not_false_eq_true, if_true, print_entries_loop_some,
      andThen_completed, List.append_assoc]

theorem flatMap_filter {α β : Type} (p : α → Bool) (f : α → List β) (l : List α) :
    (l.filter p).flatMap f = l.flatMap fun x => if p x then f x else [] := by
  induction l with
  | nil => rfl
  | cons a l ih =>
    by_cases h : p a = true
    · simp [List.filter_cons, h, ih]
    · simp [List.filter_cons, h, ih]

set_option maxRecDepth 100000 in
/-- C8 (as stated, refuted): the text of a non-empty `[Languages]` section is not the
heading followed by the renderings of its entries: two comment lines stand between
them. -/
theorem languages_section_has_comments :
    (print_entries_language [{ name := "en".toList }] "Languages".toList).text
      = ("\n[Languages]\n; These files are stubs\n"
          ++ "; To achieve better results after recompilation, use the real language files\n"
          ++ "Name: \"en\"; MessagesFile: \"embedded\\en.isl\"; \n").toList ∧
    (print_entries_language [{ name := "en".toList }] "Languages".toList).text
      ≠ "\n[Languages]\n".toList ++ print_entry_language { name := "en".toList } := by
  decide

/-- C8 (amended): for every entry kind and every non-empty collection whose
entries all render, the text `print_entries` writes is a blank line, the bracketed
section name and a newline, followed by the renderings of the entries concatenated
in the order of the collection; for the language entries the two comment lines
`; These files are stubs` and `; To achieve better results after recompilation,
use the real language files` stand between the heading and the renderings. -/
theorem section_text {Entry : Type} (pe : Entry → Option (List Char))
    (entries : List Entry) (name : List Char) (renderings : List (List Char))
    (langs : List language_entry) (lname : List Char)
    (hne : entries ≠ [])
    (hr : List.Forall₂ (fun e r => pe e = some r) entries renderings)
    (hl : langs ≠ []) :
    print_entries pe entries name
      = { text := "\n[".toList ++ name ++ "]\n".toList ++ renderings.flatten,
          completed := true } ∧
    print_entries_language langs lname
      = { text := "\n[".toList ++ lname ++ "]\n".toList
            ++ "; These files are stubs\n".toList
            ++ "; To achieve better results after recompilation, use the real language files\n".toList
            ++ (langs.map print_entry_language).flatten,
          completed := true } := by
  have hlen : ∀ {α : Type} (l : List α), l ≠ [] → l.length ≠ 0 := by
    intro α l h hc
    exact h (List.length_eq_zero.mp hc)
  constructor
  · have hloop := print_entries_loop_of_forall pe entries renderings hr
    rw [print_entries_eq pe entries name (by rw [hloop]), hloop]
    simp [hlen entries hne, SectionHeader.write]
  · rw [print_entries_language_eq, print_entries_loop_some]
    simp [hlen langs hl, SectionHeader.write]

/-- C8 (amended), at a collection of two directory entries and one language. -/
theorem section_text_witness :
    print_entries (fun e => some (print_entry_directory directory_flags_decl e))
        [{ name := "a".toList }, { name := "b".toList }] "Dirs".toList
      = { text := "\n[Dirs]\nName: \"a\"; \nName: \"b\"; \n".toList, completed := true } :=
  (section_text (fun e => some (print_entry_directory directory_flags_decl e))
    [{ name := "a".toList }, { name := "b".toList }] "Dirs".toList
    ["Name: \"a\"; \n".toList, "Name: \"b\"; \n".toList]
    [{ name := "en".toList }] "Languages".toList
    (by simp)
    (List.Forall₂.cons (by decide) (List.Forall₂.cons (by decide) List.Forall₂.nil))
    (by simp)).1

/-! ## Header directives -/

theorem any_append_split {α : Type} (l₁ l₂ : List α) (p : α → Prop) :
    (∃ d ∈ l₁ ++ l₂, p d) ↔ (∃ d ∈ l₁, p d) ∨ (∃ d ∈ l₂, p d) := by
  simp only [List.mem_append]
  constructor
  · rintro ⟨d, h | h, hp⟩
    · exact Or.inl ⟨d, h, hp⟩
    · exact Or.inr ⟨d, h, hp⟩
  · rintro (⟨d, h, hp⟩ | ⟨d, h, hp⟩)
    · exact ⟨d, Or.inl h, hp⟩
    · exact ⟨d, Or.inr h, hp⟩

theorem any_ite_split {α : Type} (c : Prop) [Decidable c] (l₁ l₂ : List α) (p : α → Prop) :
    (∃ d ∈ (if c then l₁ else l₂), p d) ↔ (c ∧ ∃ d ∈ l₁, p d) ∨ (¬ c ∧ ∃ d ∈ l₂, p d) := by
  by_cases h : c <;> simp [h]

theorem any_cons_split {α : Type} (a : α) (l : List α) (p : α → Prop) :
    (∃ d ∈ a :: l, p d) ↔ p a ∨ ∃ d ∈ l, p d := by
  simp

theorem any_nil_split {α : Type} (p : α → Prop) :
    (∃ d ∈ ([] : List α), p d) ↔ False := by
  simp

theorem toList_eq_iff (s t : String) : s.toList = t.toList ↔ s = t := by
  constructor
  · intro h
    exact String.ext h
  · intro h
    rw [h]

theorem StrConst_write_ne_nil (n v : List Char) (a : Bool) :
    StrConst.write { name := n, value := v, show_always := a } ≠ [] ↔ a = true ∨ v ≠ [] := by
  unfold StrConst.write
  cases a <;> cases v <;> simp

theorem ProcArcsToStr_eq_nil (a : architecture → Bool) :
    ProcArcsToStr a = [] ↔ ∀ x, a x = false := by
  have key : ∀ b1 b2 b3 b4 b5 : Bool,
      trim_right_copy
        ((if b1 then "unknown ".toList else [])
          ++ (if b2 then "x86 ".toList else [])
          ++ (if b3 then "x64 ".toList else [])
          ++ (if b4 then "ia64 ".toList else [])
          ++ (if b5 then "arm64 ".toList else [])) = []
      ↔ (b1 = false ∧ b2 = false ∧ b3 = false ∧ b4 = false ∧ b5 = false) := by
    decide
  unfold ProcArcsToStr
  rw [key]
  constructor
  · rintro ⟨h1, h2, h3, h4, h5⟩ x
    cases x <;> assumption
  · intro h
    exact ⟨h _, h _, h _, h _, h _⟩

/-- C9 (as stated, refuted): at format version 5.1.0 with both architecture masks
empty the header has neither an `ArchitecturesAllowed` nor an
`ArchitecturesInstallIn64BitMode` directive. -/
theorem architectures_omitted_when_empty :
    INNO_VERSION 5 1 0
      ≤ ({ version := { value := INNO_VERSION 5 1 0, unicode := false },
           listed_version := { value := INNO_VERSION 5 1 0, unicode := false } }
          : info).version.value ∧
    ¬ header_has_directive
        { version := { value := INNO_VERSION 5 1 0, unicode := false },
          listed_version := { value := INNO_VERSION 5 1 0, unicode := false } }
        "setup.exe".toList "ArchitecturesAllowed".toList ∧
    ¬ header_has_directive
        { version := { value := INNO_VERSION 5 1 0, unicode := false },
          listed_version := { value := INNO_VERSION 5 1 0, unicode := false } }
        "setup.exe".toList "ArchitecturesInstallIn64BitMode".toList ∧
    print_header
        { version := { value := INNO_VERSION 5 1 0, unicode := false },
          listed_version := { value := INNO_VERSION 5 1 0, unicode := false } }
        "setup.exe".toList
      = (";InnoSetupVersion=5.1.0\n\n[Setup]\nAppName=\nAppId=\nCreateAppDir=no\n"
          ++ "OutputBaseFilename=setup\nCompression=none\n").toList := by
  decide

/-! ## Binary registry values -/

theorem IntToHex_small : ∀ n, n < 128 → IntToHex n 2 = hex_pair n := by
  decide

theorem char_to_uint32_small (c : Char) (h : c.toNat < 128) : char_to_uint32 c = c.toNat := by
  unfold char_to_uint32 char_to_int
  have h1 : c.toNat % 256 = c.toNat := Nat.mod_eq_of_lt (by omega)
  rw [h1]
  simp only [h, if_true]
  omega

theorem flatMap_space_eq (l : List (List Char)) (t : List Char) :
    (t :: l).flatMap (· ++ [' ']) = joined_by_spaces (t :: l) ++ [' '] := by
  induction l generalizing t with
  | nil => simp [joined_by_spaces, List.intercalate]
  | cons a l ih =>
    rw [List.flatMap_cons, ih]
    simp [joined_by_spaces, List.intercalate, List.intersperse]

/-- The binary value text of a value whose bytes are all below 0x80 is the bytes as
pairs of upper-case hexadecimal digits separated by single spaces. -/
theorem binary_value_below_0x80 (value : List Char) (h : ∀ c ∈ value, c.toNat < 128) :
    registry_binary_data value = hex_pairs (value.map Char.toNat) := by
  unfold registry_binary_data hex_pairs
  have hmap : (value.flatMap fun c => IntToHex (char_to_uint32 c) 2 ++ [' '])
      = (value.map fun c => hex_pair c.toNat).flatMap (· ++ [' ']) := by
    rw [List.flatMap_map]
    apply List.flatMap_congr
    intro c hc
    rw [char_to_uint32_small c (h c hc), IntToHex_small _ (h c hc)]
  simp only [hmap, List.map_map]
  cases value with
  | nil => rfl
  | cons c cs =>
    simp only [List.map_cons, flatMap_space_eq]
    simp [joined_by_spaces]
    rfl

/-- C10 (the code at the failing input): for the binary value with the bytes 0x00
and 0xFF the rendered data is `00 FFFFFFFF`, where the claim has `00 FF`: the
character of the byte 0xFF is converted to the 32-bit argument of `IntToHex` with
its sign.  The bytes 0x00 and 0x7F render as `00 7F`. -/
theorem binary_value_sign_extended :
    char_to_uint32 '\xff' = 4294967295 ∧
    IntToHex (char_to_uint32 '\xff') 2 = "FFFFFFFF".toList ∧
    print_entry_registry registry_flags_decl id { type := .Binary, value := ['\x00', '\xff'] }
      = "ValueType: Binary; ValueData: \"00 FFFFFFFF\"; \n".toList ∧
    hex_pairs [0x00, 0xFF] = "00 FF".toList ∧
    print_entry_registry registry_flags_decl id { type := .Binary, value := ['\x00', '\x7f'] }
      = "ValueType: Binary; ValueData: \"00 7F\"; \n".toList := by
  decide

/-! ## Multi-string registry values -/

theorem replace_all_single (a : Char) (r v : List Char) :
    replace_all_copy v [a] r = v.flatMap fun c => if c = a then r else [c] := by
  unfold replace_all_copy
  induction v with
  | nil => rfl
  | cons c cs ih =>
    by_cases h : c = a
    · subst h
      simp only [replace_all_aux, List.flatMap_cons]
      simpa using ih
    · have hp : List.isPrefixOf [a] (c :: cs) = false := by
        simp [List.isPrefixOf, h, Ne.symm h]
      simp only [replace_all_aux, hp, List.flatMap_cons, h]
      simpa using ih

/-- C11: for every registry entry of type `MultiString` the value handed to the
`ValueData` field is the stored value with every null character replaced by the
token `{break}` and every other character unchanged; the value A, null, B renders
as `ValueData: "A{break}B"`. -/
theorem multi_string_value (u : List Char → List Char) (e : registry_entry) :
    (registry_value u { e with type := .MultiString }).2 = null_to_break e.value ∧
    registry_fields u { e with type := .MultiString }
      = StrParam "Root".toList (RegRootToStr e) false
        ++ StrParam "Subkey".toList e.key
        ++ StrParam "ValueName".toList e.name
        ++ "ValueType: MultiSZ; ".toList
        ++ StrParam "ValueData".toList (null_to_break e.value)
        ++ PrintItem e.toitem ∧
    print_entry_registry registry_flags_decl id
        { type := .MultiString, value := ['A', '\x00', 'B'] }
      = "ValueType: MultiSZ; ValueData: \"A\x7bbreak\x7dB\"; \n".toList := by
  have h : (registry_value u { e with type := .MultiString }).2 = null_to_break e.value := by
    simp only [registry_value, registry_multi_data, null_to_break]
    exact replace_all_single _ _ _
  refine ⟨h, ?_, by decide⟩
  unfold registry_fields
  rw [h]
  rfl

/-! ## Destination names of user files -/

theorem sanitise_eq_backslash (c : Char) :
    (if is_inappropriate c = true then '_' else c) = '\\' ↔ c = '\\' := by
  by_cases h : is_inappropriate c = true
  · simp only [h, if_true]
    constructor
    · intro h'
      exact absurd h' (by decide)
    · intro h'
      subst h'
      exact absurd h (by decide)
  · simp [h]

theorem find_last_of_sanitised (s : List Char) :
    find_last_of (s.map fun c => if is_inappropriate c = true then '_' else c) '\\'
      = find_last_of s '\\' := by
  induction s with
  | nil => rfl
  | cons x xs ih =>
    simp only [List.map_cons, find_last_of, ih]
    cases find_last_of xs '\\' with
    | some i => rfl
    | none =>
      simp only
      by_cases hx : x = '\\'
      · subst hx
        rfl
      · have : ¬ (if is_inappropriate x = true then '_' else x) = '\\' :=
          fun h => hx ((sanitise_eq_backslash x).mp h)
        simp [hx, this]

theorem RenameFiles_parts_user (e : file_entry) (huser : e.type = .UserFile) :
    RenameFiles_parts e
      = ((unescaped_destination e.destination).map
            fun c => if is_inappropriate c = true then '_' else c,
          (match find_last_of (unescaped_destination e.destination) '\\' with
            | some n => (unescaped_destination e.destination).take n
            | none => []),
          (match find_last_of (unescaped_destination e.destination) '\\' with
            | some n =>
              if (unescaped_destination e.destination).drop (n + 1)
                  = ((unescaped_destination e.destination).map
                      fun c => if is_inappropriate c = true then '_' else c).drop (n + 1)
              then [] else (unescaped_destination e.destination).drop (n + 1)
            | none => unescaped_destination e.destination)) := by
  unfold RenameFiles_parts
  simp only [huser, file_type.val, Nat.zero_and, ne_eq, not_true_eq_false, if_false,
    find_last_of_sanitised]
  unfold unescaped_destination
  cases find_last_of
      (replace_all_copy
        (replace_all_copy (replace_all_copy e.destination "\\\\".toList "\\".toList)
          "\x7b\x7b".toList "\x7b".toList)
        "/".toList "\\".toList) '\\' with
  | none => rfl
  | some n => rfl

/-- C12 (as stated, refuted): for the user file with the raw destination `app.exe`,
which has no path separator, the final path component of the source path equals
the destination name, yet the `DestName` field is written. -/
theorem dest_name_kept_without_separator :
    final_component (RenameFiles_parts { destination := "app.exe".toList }).1
      = final_component (unescaped_destination "app.exe".toList) ∧
    (RenameFiles_parts { destination := "app.exe".toList }).2.2 = "app.exe".toList ∧
    print_entry_file file_flags_decl { destination := "app.exe".toList }
      = "Source: \"app.exe\"; DestName: \"app.exe\"; \n".toList := by
  decide

/-- C12 (amended): for every user-file entry whose un-escaped destination contains
a backslash, the value of the `DestName` field is empty, so that the field is
omitted, whenever the final path component of the source path equals the
destination name computed from the raw destination, and it is that name otherwise;
for an un-escaped destination without a backslash the value of the `DestName`
field is the whole un-escaped destination. -/
theorem dest_name_value (e : file_entry) (huser : e.type = .UserFile) :
    (RenameFiles_parts e).2.2
      = (match find_last_of (unescaped_destination e.destination) '\\' with
          | some _ =>
            if final_component (RenameFiles_parts e).1
                = final_component (unescaped_destination e.destination)
            then [] else final_component (unescaped_destination e.destination)
          | none => unescaped_destination e.destination) ∧
    RenameFiles e
      = StrParam "Source".toList (RenameFiles_parts e).1
        ++ StrParam "DestDir".toList (RemoveBackslashUnlessRoot (RenameFiles_parts e).2.1)
        ++ StrParam "DestName".toList (RenameFiles_parts e).2.2 ∧
    StrParam "DestName".toList [] = [] := by
  refine ⟨?_, rfl, by simp [StrParam]⟩
  rw [RenameFiles_parts_user e huser]
  simp only [final_component, find_last_of_sanitised]
  cases h : find_last_of (unescaped_destination e.destination) '\\' with
  | none => rfl
  | some n =>
    simp only
    by_cases heq : List.drop (n + 1) (unescaped_destination e.destination)
        = List.drop (n + 1) ((unescaped_destination e.destination).map
            fun c => if is_inappropriate c = true then '_' else c)
    · rw [if_pos heq, if_pos heq.symm]
    · rw [if_neg heq, if_neg (fun h' => heq h'.symm)]

/-- C12 (amended), at the user file `C:\Program Files\App\app.exe`: the value of
the `DestName` field is empty. -/
theorem dest_name_value_witness :
    (({ destination := "C:\\Program Files\\App\\app.exe".toList } : file_entry).type
      = .UserFile) ∧
    (RenameFiles_parts { destination := "C:\\Program Files\\App\\app.exe".toList }).2.2
      = [] :=
  ⟨rfl,
    (dest_name_value { destination := "C:\\Program Files\\App\\app.exe".toList } rfl).1.trans
      (by decide)⟩

/-! ## Destination directory and name of a user file -/

theorem replace_all_absent (s search format : List Char)
    (h : ¬ (search <:+: s)) : replace_all_copy s search format = s := by
  unfold replace_all_copy
  induction s with
  | nil => rfl
  | cons c cs ih =>
    have hp : search.isPrefixOf (c :: cs) = false := by
      by_contra hc
      have hc' : search.isPrefixOf (c :: cs) = true := by simpa using hc
      exact h (List.isPrefixOf_iff_prefix.mp hc').isInfix
    have ht : ¬ (search <:+: cs) := fun hi => h (hi.trans (List.suffix_cons c cs).isInfix)
    simp only [replace_all_aux, hp, Bool.and_false, Bool.false_eq_true, if_false, ih ht]

theorem VerOver04000000_iff (v : windows_version.data) :
    VerOver04000000 v = true ↔ exceeds_baseline v := by
  unfold VerOver04000000 exceeds_baseline
  by_cases h1 : v.major > 4
  · simp [h1]
  · by_cases h2 : v.major < 4
    · simp [h1, h2]
      omega
    · have h4 : v.major = 4 := by omega
      by_cases h3 : v.minor ≠ 0
      · simp [h4, h3]
      · simp only [ne_eq, not_not] at h3
        simp [h4, h3]

theorem version_pair_ne_nil (a b : windows_version.data)
    (s t : windows_version.service_pack) : VerToStr a s ++ ',' :: VerToStr b t ≠ [] := by
  simp

theorem StrParam_plain (k v : List Char) (h : v ≠ []) :
    StrParam k v false = k ++ ": ".toList ++ v ++ "; ".toList := by
  unfold StrParam
  rw [if_neg h]
  rfl

theorem not_mem_dec (c : Char) (hc : c.isDigit = false) (n : Nat) : c ∉ dec n := by
  intro h
  rw [dec_isDigit n c h] at hc
  exact absurd hc (by decide)

theorem not_O_VerToStr (d : windows_version.data) (sp : windows_version.service_pack) :
    'O' ∉ VerToStr d sp := by
  have hd : ∀ n, 'O' ∉ dec n := not_mem_dec 'O' (by decide)
  unfold VerToStr setw
  simp only [List.mem_append, List.mem_cons, not_or, List.mem_replicate]
  refine ⟨⟨⟨hd _, by decide, ?_, hd _⟩, ?_⟩, ?_⟩
  · simp
  · split
    · simp [hd]
    · simp
  · split
    · simp only [List.mem_append, not_or]
      refine ⟨⟨by decide, hd _⟩, ?_⟩
      split
      · simp [hd]
      · simp
    · simp

theorem PrintVersions_shape (w : windows_version_range) :
    PrintVersions w
      = (if (VerOver04000000 w.begin_.win_version || VerOver04000000 w.begin_.nt_version)
            = true then
          "MinVersion: ".toList
            ++ (VerToStr w.begin_.win_version { major := 0, minor := 0 } ++ ','
              :: VerToStr w.begin_.nt_version w.begin_.nt_service_pack)
            ++ "; ".toList
        else [])
      ++ (if (w.end_.win_version.major ≠ 0 ∧ w.end_.win_version.minor ≠ 0)
            ∨ (w.end_.nt_version.major ≠ 0 ∧ w.end_.nt_version.minor ≠ 0) then
          "OnlyBelowVersion: ".toList
            ++ (VerToStr w.end_.win_version { major := 0, minor := 0 } ++ ','
              :: VerToStr w.end_.nt_version w.end_.nt_service_pack)
            ++ "; ".toList
        else []) := by
  unfold PrintVersions
  simp only [StrParam_plain _ _ (version_pair_ne_nil _ _ _ _)]
  rfl

/-- C14: `PrintVersions` writes a `MinVersion` field, which then opens its output,
if and only if the legacy or the NT lower bound is above the baseline 4.0.0: its
major is greater than 4, or its major is 4 and its minor or build is not zero. -/
theorem min_version_iff (w : windows_version_range) :
    ("MinVersion: ".toList <+: PrintVersions w)
      ↔ (exceeds_baseline w.begin_.win_version ∨ exceeds_baseline w.begin_.nt_version) := by
  rw [← VerOver04000000_iff, ← VerOver04000000_iff, PrintVersions_shape]
  by_cases h : VerOver04000000 w.begin_.win_version = true
      ∨ VerOver04000000 w.begin_.nt_version = true
  · have hb : (VerOver04000000 w.begin_.win_version
        || VerOver04000000 w.begin_.nt_version) = true := by simpa using h
    rw [if_pos hb]
    refine ⟨fun _ => h, fun _ => ?_⟩
    simp only [List.append_assoc]
    exact List.prefix_append _ _
  · have hb : ¬ ((VerOver04000000 w.begin_.win_version
        || VerOver04000000 w.begin_.nt_version) = true) := by simpa using h
    rw [if_neg hb, List.nil_append]
    refine ⟨fun hp => ?_, fun hc => absurd hc h⟩
    exfalso
    obtain ⟨t, ht⟩ := hp
    have hh := congrArg List.head? ht
    split at hh
    · simp at hh
    · simp at hh

/-- C15: `PrintVersions` writes an `OnlyBelowVersion` field if and only if the upper
bound has both a major and a minor that is not zero in the legacy version field or
in the NT version field. -/
theorem only_below_version_iff (w : windows_version_range) :
    ("OnlyBelowVersion: ".toList <:+: PrintVersions w)
      ↔ (has_major_and_minor w.end_.win_version ∨ has_major_and_minor w.end_.nt_version) := by
  rw [PrintVersions_shape]
  unfold has_major_and_minor
  by_cases h : (w.end_.win_version.major ≠ 0 ∧ w.end_.win_version.minor ≠ 0)
      ∨ (w.end_.nt_version.major ≠ 0 ∧ w.end_.nt_version.minor ≠ 0)
  · rw [if_pos h]
    refine ⟨fun _ => h, fun _ => ?_⟩
    simp only [List.append_assoc]
    exact (List.prefix_append _ _).isInfix.trans (List.suffix_append _ _).isInfix
  · rw [if_neg h, List.append_nil]
    refine ⟨fun hi => ?_, fun hc => absurd hc h⟩
    exfalso
    have hO := hi.subset (show 'O' ∈ "OnlyBelowVersion: ".toList by decide)
    split at hO
    · simp only [List.mem_append, List.mem_cons] at hO
      rcases hO with (hO | hO | hO | hO) | hO
      · exact absurd hO (by decide)
      · exact not_O_VerToStr _ _ hO
      · exact absurd hO (by decide)
      · exact not_O_VerToStr _ _ hO
      · exact absurd hO (by decide)
    · simp at hO

/-! ## Rich text and the start of the script -/

/-- C16: `MaybeToRtf` returns the name followed by `.rtf` when the first five
characters of the blob are exactly `{\rtf`, and the name followed by `.txt` for any
other blob, the empty blob and the blobs of fewer than five characters included. -/
theorem MaybeToRtf_spec (name content : List Char) :
    MaybeToRtf name content
      = name ++ (if "\x7b\\rtf".toList <+: content then ".rtf".toList else ".txt".toList) ∧
    MaybeToRtf name [] = name ++ ".txt".toList ∧
    MaybeToRtf name (content.take 4) = name ++ ".txt".toList ∧
    MaybeToRtf name ("\x7b\\rtf".toList ++ content) = name ++ ".rtf".toList := by
  refine ⟨?_, rfl, ?_, ?_⟩
  · unfold MaybeToRtf
    have h : content.take 5 = "\x7b\\rtf".toList ↔ "\x7b\\rtf".toList <+: content := by
      rw [List.prefix_iff_eq_take]
      exact eq_comm
    by_cases hp : "\x7b\\rtf".toList <+: content
    · rw [if_pos (h.mpr hp), if_pos hp]
    · rw [if_neg (fun hc => hp (h.mp hc)), if_neg hp]
  · unfold MaybeToRtf
    have hne : (content.take 4).take 5 ≠ "\x7b\\rtf".toList := by
      intro hc
      have hl := congrArg List.length hc
      simp only [List.length_take] at hl
      have : ("\x7b\\rtf".toList).length = 5 := rfl
      omega
    rw [if_neg hne]
  · unfold MaybeToRtf
    have : ("\x7b\\rtf".toList ++ content).take 5 = "\x7b\\rtf".toList :=
      List.take_left' rfl
    rw [if_pos this]

theorem GetInnoVersionStr_ne_nil (v : version) : GetInnoVersionStr v ≠ [] := by
  unfold GetInnoVersionStr
  intro h
  have := congrArg List.length h
  simp at this

theorem print_header_start (info : info) (installer : List Char) :
    ";InnoSetupVersion=".toList <+: print_header info installer := by
  unfold print_header
  rw [StrConst_write_of_ne_nil _ _ _ (GetInnoVersionStr_ne_nil _)]
  simp only [List.append_assoc]
  exact ⟨_, rfl⟩

theorem MaybeToRtf_ne_self (name content : List Char) : MaybeToRtf name content ≠ name := by
  unfold MaybeToRtf
  intro h
  have hl := congrArg List.length h
  split at hl <;> simp at hl

set_option maxRecDepth 100000 in
/-- C18 (the code at the failing input): for the language `en` with the license text
`Text` the `[Languages]` line names `embedded\enLicense.txt.txt`, while the exporter
writes the text to `enLicense.txt` under `embedded` and writes no file
`enLicense.txt.txt`; for every language entry the path of the line differs from
`embedded\<name>License.txt`, and likewise for the two info texts. -/
theorem language_license_path_mismatch (name text : List Char) :
    print_entry_language { name := "en".toList, license_text := "Text".toList }
      = ("Name: \"en\"; MessagesFile: \"embedded\\en.isl\"; "
          ++ "LicenseFile: \"embedded\\enLicense.txt.txt\"; \n").toList ∧
    (add_embedded_files
        { languages := [{ name := "en".toList, license_text := "Text".toList }] }).files.map
        Prod.fst
      = ["en.isl".toList, "enLicense.txt".toList] ∧
    exported_content
        (add_embedded_files
          { languages := [{ name := "en".toList, license_text := "Text".toList }] }).files
        "enLicense.txt".toList
      = some "Text".toList ∧
    exported_content
        (add_embedded_files
          { languages := [{ name := "en".toList, license_text := "Text".toList }] }).files
        "enLicense.txt.txt".toList
      = none ∧
    MaybeToRtf ("embedded\\".toList ++ name ++ "License.txt".toList) text
      ≠ "embedded\\".toList ++ name ++ "License.txt".toList ∧
    MaybeToRtf ("embedded\\".toList ++ name ++ "InfoBefore.txt".toList) text
      ≠ "embedded\\".toList ++ name ++ "InfoBefore.txt".toList ∧
    MaybeToRtf ("embedded\\".toList ++ name ++ "InfoAfter.txt".toList) text
      ≠ "embedded\\".toList ++ name ++ "InfoAfter.txt".toList := by
  refine ⟨by decide, by decide, by decide, by decide, MaybeToRtf_ne_self _ _,
    MaybeToRtf_ne_self _ _, MaybeToRtf_ne_self _ _⟩

set_option maxRecDepth 100000 in
/-- C19 (the code at the failing inputs): with two small wizard images and one
normal wizard image the exporter writes `WizardSmallImage0.bmp` only, while the
script lists two small image files; with one small wizard image and two normal
wizard images the exporter opens `WizardSmallImage1.bmp` and reads the small image
of index 1, which is out of range. -/
theorem small_images_follow_normal_count :
    add_embedded_files
        { wizard_images := ["N0".toList],
          wizard_images_small := ["S0".toList, "S1".toList] }
      = { files := [("WizardImage0.bmp".toList, "N0".toList),
                    ("WizardSmallImage0.bmp".toList, "S0".toList)],
          completed := true } ∧
    GetImageFileList ["S0".toList, "S1".toList] true
      = "embedded\\WizardSmallImage0.bmp,embedded\\WizardSmallImage1.bmp".toList ∧
    add_embedded_files
        { wizard_images := ["N0".toList, "N1".toList],
          wizard_images_small := ["S0".toList] }
      = { files := [("WizardImage0.bmp".toList, "N0".toList),
                    ("WizardImage1.bmp".toList, "N1".toList),
                    ("WizardSmallImage0.bmp".toList, "S0".toList),
                    ("WizardSmallImage1.bmp".toList, [])],
          completed := false } ∧
    add_embedded_files { wizard_images := [], wizard_images_small := ["S0".toList] }
      = { files := [], completed := true } := by
  decide

set_option maxRecDepth 100000 in
/-- C20 (the code at the failing inputs): with a decryptor blob and no post-install
info text the exporter writes no `decrypt.dll`; with a post-install info text and
an empty decryptor blob it writes an empty `decrypt.dll`. -/
theorem decrypt_dll_follows_info_after :
    add_embedded_files { decrypt_dll := "MZ".toList } = { files := [], completed := true } ∧
    add_embedded_files { header := { info_after := "Done".toList } }
      = { files := [("InfoAfter.txt".toList, "Done".toList), ("decrypt.dll".toList, [])],
          completed := true } ∧
    add_embedded_files { decompressor_dll := "MZ".toList }
      = { files := [("decompressor.dll".toList, "MZ".toList)], completed := true } := by
  decide

/-! ## Message entries -/

/-- C21: rendering a message entry fails, with a read of the language entries out
of range, if and only if its language index is not negative and not less than the
number of language entries; for a negative index or an index in range the
rendering gives a text. -/
theorem message_fails_iff (langs : List language_entry) (m : message_entry) :
    (print_entry_message langs m = none
      ↔ (0 ≤ m.language ∧ ¬ (m.language.toNat < langs.length))) ∧
    ((print_entry_message langs m).isSome
      ↔ (m.language < 0 ∨ m.language.toNat < langs.length)) := by
  have h1 : print_entry_message langs m = none
      ↔ (0 ≤ m.language ∧ ¬ (m.language.toNat < langs.length)) := by
    unfold print_entry_message
    by_cases h : m.language ≥ 0
    · simp only [h, if_true, true_and]
      by_cases hlt : m.language.toNat < langs.length
      · simp [List.getElem?_eq_getElem hlt, hlt]
      · have : langs[m.language.toNat]? = none := List.getElem?_eq_none (by omega)
        simp [this, hlt]
    · simp [h]
  refine ⟨h1, ?_⟩
  rw [Option.isSome_iff_ne_none, ne_eq, h1]
  constructor
  · intro h
    by_contra hc
    exact h ⟨by omega, by omega⟩
  · rintro (h | h) ⟨h0, hn⟩
    · omega
    · exact hn h

/-- C22: for a path that cannot be opened for writing `open_file` fails with the
message `Could not open output file "<path>"`, which names the path; for a path
that can be opened it does not fail; and when the path of the script cannot be
opened `dump_iss` fails with that error, the script file is not written and no
embedded file is written. -/
theorem open_failure (fs : filesystem) (env : collaborators) (info : info)
    (output_dir installer closed opened : List Char)
    (hclosed : fs.can_open closed = false) (hopened : fs.can_open opened = true)
    (hscript : fs.can_open (fs.join output_dir "install_script.iss".toList) = false) :
    open_file fs closed
      = .error ("Could not open output file \"".toList ++ closed ++ "\"".toList) ∧
    open_file fs opened = .ok () ∧
    dump_iss fs env info output_dir installer
      = { script := none, embedded := [],
          failure := some (.runtime_error
            ("Could not open output file \"".toList
              ++ fs.join output_dir "install_script.iss".toList ++ "\"".toList)) } := by
  refine ⟨?_, ?_, ?_⟩
  · unfold open_file
    simp only [hclosed, Bool.false_eq_true, if_false]
    rfl
  · unfold open_file
    simp only [hopened, if_true]
  · unfold dump_iss open_file
    simp only [hscript, Bool.false_eq_true, if_false]
    rfl

/-- C22, at the output directory `out` of a file system in which every path but
`out/install_script.iss` can be opened. -/
theorem open_failure_witness :
    dump_iss
        { can_open := fun p => p ≠ "out/install_script.iss".toList,
          join := fun dir name => dir ++ '/' :: name }
        example_env example_info "out".toList "setup.exe".toList
      = { script := none, embedded := [],
          failure := some (.runtime_error
            "Could not open output file \"out/install_script.iss\"".toList) } :=
  (open_failure
    { can_open := fun p => p ≠ "out/install_script.iss".toList,
      join := fun dir name => dir ++ '/' :: name }
    example_env example_info "out".toList "setup.exe".toList
    "out/install_script.iss".toList "out/embedded/en.isl".toList
    (by decide) (by decide) (by decide)).2.2

/-! ## Password, uninstall and output directives of the header -/

theorem setw_ne_nil (width : Nat) (fill : Char) (s : List Char) (h : 0 < width) :
    setw width fill s ≠ [] := by
  unfold setw
  intro hc
  have hl := congrArg List.length hc
  simp only [List.length_append, List.length_replicate, List.length_nil] at hl
  omega

theorem Hash2Str_ne_nil (c : checksum) : Hash2Str c ≠ [] := by
  unfold Hash2Str
  cases c.type with
  | None => simp
  | Adler32 => simp
  | CRC32 => simp
  | MD5 =>
    intro h
    rw [List.flatMap_eq_nil_iff] at h
    exact setw_ne_nil 2 '0' _ (by decide) (h (0 : Fin 16) (List.mem_finRange _))
  | SHA1 =>
    intro h
    rw [List.flatMap_eq_nil_iff] at h
    exact setw_ne_nil 2 '0' _ (by decide) (h (0 : Fin 20) (List.mem_finRange _))

theorem flatMap_pair_eq_nil (l : List Char) (f g : Char → Char) :
    (l.flatMap fun c => [f c, g c]) = [] ↔ l = [] := by
  cases l <;> simp

theorem Salt2Str_eq_nil (salt : List Char) :
    Salt2Str salt = [] ↔ salt_without_mark salt = [] := by
  have hp : salt.take 17 = "PasswordCheckHash".toList ↔ "PasswordCheckHash".toList <+: salt := by
    rw [List.prefix_iff_eq_take]
    exact eq_comm
  unfold Salt2Str salt_without_mark
  dsimp only
  rw [flatMap_pair_eq_nil]
  by_cases h : "PasswordCheckHash".toList <+: salt
  · rw [if_pos (hp.mpr h), if_pos h]
  · rw [if_neg (fun hc => h (hp.mp hc)), if_neg h]

/-! ## The Uninstallable and OutputBaseFilename directives -/

theorem filter_ite_split {α : Type} (c : Prop) [Decidable c] (l₁ l₂ : List α) (p : α → Bool) :
    (if c then l₁ else l₂).filter p = if c then l₁.filter p else l₂.filter p := by
  split <;> rfl

theorem without_exe_eq (name : List Char) :
    (if name.length ≥ 4 ∧ name.drop (name.length - 4) = ".exe".toList
      then name.take (name.length - 4) else name) = without_exe name := by
  unfold without_exe
  by_cases h : ".exe".toList <:+ name
  · have hlen : 4 ≤ name.length := by simpa using h.length_le
    have hdrop : name.drop (name.length - 4) = ".exe".toList := by
      have := List.suffix_iff_eq_drop.mp h
      simpa using this.symm
    rw [if_pos ⟨hlen, hdrop⟩, if_pos h]
  · have hn : ¬ (name.length ≥ 4 ∧ name.drop (name.length - 4) = ".exe".toList) := by
      rintro ⟨_, hdrop⟩
      apply h
      rw [← hdrop]
      exact List.drop_suffix _ _
    rw [if_neg hn, if_neg h]

/-! ## Directives that are always shown -/

theorem StrConst_write_plain (d : StrConst) (h : d.show_always = false) :
    d.write = if d.value = [] then [] else d.name ++ ['='] ++ d.value ++ ['\n'] := by
  unfold StrConst.write
  rw [h]
  cases hv : d.value with
  | nil => simp
  | cons c cs => simp

/-! ## The root of a registry entry -/

theorem flags_to_str_agree {E : Type} (decl : flag_decl E) (Opt2Str : E → List Char)
    (o₁ o₂ : E → Bool) (h : ∀ e, Opt2Str e ≠ [] → o₁ e = o₂ e) :
    flags_to_str decl Opt2Str o₁ = flags_to_str decl Opt2Str o₂ := by
  rw [flags_to_str_eq, flags_to_str_eq]
  unfold set_bit_tokens
  congr 1
  induction List.range decl.bits with
  | nil => rfl
  | cons i l ih =>
    simp only [ne_eq, decide_not] at ih
    by_cases ht : Opt2Str (decl.enum_type i) = []
    · cases h1 : o₁ (decl.enum_type i) <;> cases h2 : o₂ (decl.enum_type i) <;>
        simp [List.filter_cons, h1, h2, ht, ih]
    · have := h _ ht
      cases h2 : o₂ (decl.enum_type i) <;> simp [List.filter_cons, this, h2, ih]

/-- Claim C25.  The text of `RegRootToStr` is the name of the hive, nothing for an
unset hive, followed by `32` when `Bits32` is set, otherwise by `64` when `Bits64`
is set, otherwise by nothing.  The tokens of `Bits32` and `Bits64` are empty, and
for every declaration of the flags the flag text of the entry, and so its `Flags:`
suffix, is the one of the same options with the two bits cleared. -/
theorem registry_root (decl : flag_decl registry_flag) (entry : registry_entry) :
    RegRootToStr entry
      = hive_text entry.hive
        ++ (if entry.options .Bits32 = true then "32".toList
            else if entry.options .Bits64 = true then "64".toList
            else [])
    ∧ RegistryOpt2Str .Bits32 = [] ∧ RegistryOpt2Str .Bits64 = []
    ∧ flags_to_str decl RegistryOpt2Str entry.options
      = flags_to_str decl RegistryOpt2Str
          (fun f => entry.options f && decide (f ≠ .Bits32) && decide (f ≠ .Bits64))
    ∧ flags_suffix (flags_to_str decl RegistryOpt2Str entry.options)
      = flags_suffix (flags_to_str decl RegistryOpt2Str
          (fun f => entry.options f && decide (f ≠ .Bits32) && decide (f ≠ .Bits64))) := by
  have key : flags_to_str decl RegistryOpt2Str entry.options
      = flags_to_str decl RegistryOpt2Str
          (fun f => entry.options f && decide (f ≠ .Bits32) && decide (f ≠ .Bits64)) := by
    apply flags_to_str_agree
    intro e he
    cases e <;> simp [RegistryOpt2Str] at he ⊢
  refine ⟨?_, rfl, rfl, key, by rw [← key]⟩
  unfold RegRootToStr hive_text
  cases entry.hive <;> rfl

/-! ## The source value of a user file -/

theorem sanitised_free (l : List Char) (c : Char) (hc : c ∈ ",:*?\"<>|".toList) :
    c ∉ l.map fun d => if is_inappropriate d = true then '_' else d := by
  intro hmem
  obtain ⟨d, _, hd⟩ := List.mem_map.mp hmem
  by_cases hi : is_inappropriate d = true
  · rw [if_pos hi] at hd
    subst hd
    revert hc
    decide
  · rw [if_neg hi] at hd
    subst hd
    apply hi
    unfold is_inappropriate
    rw [decide_eq_true hc]
    rfl

/-- Claim C28.  For a user file, the source value of `RenameFiles` has the length of
the un-escaped destination, it is the un-escaped destination with every character
of `, : * ? " < > |` (and the null character) replaced by an underscore, it holds
none of these characters, the doubling of quotes leaves it as it is, and the
`Source` parameter holds it between quotes when it is not empty. -/
theorem source_value (e : file_entry) (huser : e.type = .UserFile) :
    (RenameFiles_parts e).1.length = (unescaped_destination e.destination).length
    ∧ (RenameFiles_parts e).1
        = (unescaped_destination e.destination).map
            (fun c => if c ∈ ",:*?\"<>|".toList ∨ c = '\x00' then '_' else c)
    ∧ (∀ c ∈ ",:*?\"<>|".toList, c ∉ (RenameFiles_parts e).1)
    ∧ replace_all_copy (RenameFiles_parts e).1 "\"".toList "\"\"".toList
        = (RenameFiles_parts e).1
    ∧ StrParam "Source".toList (RenameFiles_parts e).1
        = (if (RenameFiles_parts e).1 = [] then []
          else "Source: \"".toList ++ (RenameFiles_parts e).1 ++ "\"; ".toList) := by
  have hfree : ∀ c ∈ ",:*?\"<>|".toList, c ∉ (RenameFiles_parts e).1 := by
    intro c hc
    rw [RenameFiles_parts_user e huser]
    exact sanitised_free _ c hc
  have hq : replace_all_copy (RenameFiles_parts e).1 "\"".toList "\"\"".toList
      = (RenameFiles_parts e).1 := by
    apply replace_all_absent
    intro hinf
    exact hfree '"' (by decide) (hinf.subset (List.mem_singleton_self _))
  refine ⟨?_, ?_, hfree, hq, ?_⟩
  · rw [RenameFiles_parts_user e huser]
    simp
  · rw [RenameFiles_parts_user e huser]
    apply List.map_congr_left
    intro c _
    unfold is_inappropriate
    simp
  · unfold StrParam
    rw [hq]
    rfl

theorem source_value_witness :
    (RenameFiles_parts { destination := "\x7bapp\x7d/a*b:c.txt".toList }).1
      = "\x7bapp\x7d\\a_b_c.txt".toList
    ∧ (RenameFiles_parts { destination := "\x7bapp\x7d/a*b:c.txt".toList }).1.length
      = (unescaped_destination "\x7bapp\x7d/a*b:c.txt".toList).length
    ∧ StrParam "Source".toList
        (RenameFiles_parts { destination := "\x7bapp\x7d/a*b:c.txt".toList }).1
      = "Source: \"\x7bapp\x7d\\a_b_c.txt\"; ".toList :=
  ⟨by decide,
    (source_value { destination := "\x7bapp\x7d/a*b:c.txt".toList } rfl).1,
    by decide⟩

/-! ## The text of a Windows version -/

theorem toDigitsCore_acc (fuel : Nat) : ∀ (n : Nat) (ds : List Char),
    Nat.toDigitsCore 10 fuel n ds = Nat.toDigitsCore 10 fuel n [] ++ ds := by
  induction fuel with
  | zero => intro n ds; simp [Nat.toDigitsCore]
  | succ f ih =>
    intro n ds
    simp only [Nat.toDigitsCore]
    split
    · rfl
    · rw [ih _ (_ :: ds), ih _ [_]]
      simp

theorem digits_value_snoc (l : List Char) (c : Char) :
    digits_value (l ++ [c]) = digits_value l * 10 + (c.toNat - 48) := by
  unfold digits_value
  rw [List.foldl_append]
  rfl

theorem digitChar_value (k : Nat) (h : k < 10) : (Nat.digitChar k).toNat - 48 = k := by
  interval_cases k <;> rfl

theorem digits_value_toDigitsCore (fuel : Nat) : ∀ n : Nat, n < fuel →
    digits_value (Nat.toDigitsCore 10 fuel n []) = n := by
  induction fuel with
  | zero => intro n h; omega
  | succ f ih =>
    intro n h
    have hm : n % 10 < 10 := Nat.mod_lt _ (by decide)
    simp only [Nat.toDigitsCore]
    split
    · rename_i h0
      have : digits_value [Nat.digitChar (n % 10)] = (Nat.digitChar (n % 10)).toNat - 48 := by
        simp [digits_value]
      rw [this, digitChar_value _ hm]
      omega
    · rename_i h0
      rw [toDigitsCore_acc, digits_value_snoc, digitChar_value _ hm, ih (n / 10) (by omega)]
      omega

theorem digits_value_dec (n : Nat) : digits_value (dec n) = n :=
  digits_value_toDigitsCore (n + 1) n (Nat.lt_succ_self n)

theorem dec_inj (m n : Nat) (h : dec m = dec n) : m = n := by
  rw [← digits_value_dec m, ← digits_value_dec n, h]

theorem split_at_dot : ∀ (l₁ l₂ r₁ r₂ : List Char), '.' ∉ l₁ → '.' ∉ l₂ →
    l₁ ++ '.' :: r₁ = l₂ ++ '.' :: r₂ → l₁ = l₂ ∧ r₁ = r₂ := by
  intro l₁
  induction l₁ with
  | nil =>
    intro l₂ r₁ r₂ _ h2 h
    cases l₂ with
    | nil => simpa using h
    | cons c cs =>
      simp only [List.nil_append, List.cons_append, List.cons.injEq] at h
      exact absurd (h.1 ▸ List.mem_cons_self _ _) h2
  | cons a as ih =>
    intro l₂ r₁ r₂ h1 h2 h
    cases l₂ with
    | nil =>
      simp only [List.nil_append, List.cons_append, List.cons.injEq] at h
      exact absurd (h.1 ▸ List.mem_cons_self _ _) h1
    | cons c cs =>
      simp only [List.cons_append, List.cons.injEq] at h
      obtain ⟨hl, hr⟩ := ih cs r₁ r₂ (fun hm => h1 (List.mem_cons_of_mem _ hm))
        (fun hm => h2 (List.mem_cons_of_mem _ hm)) h.2
      exact ⟨by rw [h.1, hl], hr⟩

theorem not_dot_dec (n : Nat) : '.' ∉ dec n := not_mem_dec '.' (by decide) n

theorem minor_text_eq (m : Nat) (h : m < 100) :
    setw (if m % 10 = 0 then 1 else 2) '0' (dec (if m % 10 = 0 then m / 10 else m))
      = minor_text m := by
  interval_cases m <;> rfl

theorem minor_of_minor_text (m : Nat) (h : m < 100) : minor_of_text (minor_text m) = m := by
  interval_cases m <;> rfl

theorem not_dot_minor_text (m : Nat) (h : m < 100) : '.' ∉ minor_text m := by
  interval_cases m <;> decide

theorem VerToStr_format (v : windows_version.data) (sp : windows_version.service_pack)
    (h : v.minor < 100) :
    VerToStr v sp
      = dec v.major ++ '.' :: (minor_text v.minor
          ++ (if v.build ≠ 0 then '.' :: dec v.build else []))
        ++ (if sp.major ≠ 0 then
              " Service Pack ".toList ++ dec sp.major
                ++ (if sp.minor ≠ 0 then '.' :: dec sp.minor else [])
            else []) := by
  unfold VerToStr
  dsimp only
  rw [minor_text_eq _ h]
  simp

/-- Claim C29.  For two Windows versions with a minor below 100 and one service
pack, `VerToStr` gives the same text exactly when the versions are equal.  The text
is the major, a dot, the minor as the single digit `minor / 10` when it is divisible
by 10 and as two digits with zero padding otherwise, then a dot and the build when
the build is not zero, then the text of the service pack. -/
theorem VerToStr_injective (a b : windows_version.data) (sp : windows_version.service_pack)
    (ha : a.minor < 100) (hb : b.minor < 100) :
    (VerToStr a sp = VerToStr b sp ↔ a = b)
    ∧ VerToStr a sp
      = dec a.major ++ '.' :: (minor_text a.minor
          ++ (if a.build ≠ 0 then '.' :: dec a.build else []))
        ++ (if sp.major ≠ 0 then
              " Service Pack ".toList ++ dec sp.major
                ++ (if sp.minor ≠ 0 then '.' :: dec sp.minor else [])
            else []) := by
  refine ⟨⟨?_, fun h => by rw [h]⟩, VerToStr_format a sp ha⟩
  intro h
  rw [VerToStr_format a sp ha, VerToStr_format b sp hb] at h
  have h1 := List.append_cancel_right h
  obtain ⟨hmajor, hrest⟩ := split_at_dot _ _ _ _ (not_dot_dec _) (not_dot_dec _) h1
  have hM : a.major = b.major := dec_inj _ _ hmajor
  have hmb : a.minor = b.minor ∧ a.build = b.build := by
    by_cases hab : a.build = 0
    · by_cases hbb : b.build = 0
      · simp only [hab, hbb, ne_eq, not_true_eq_false, if_false, List.append_nil] at hrest
        refine ⟨?_, by rw [hab, hbb]⟩
        rw [← minor_of_minor_text a.minor ha, ← minor_of_minor_text b.minor hb, hrest]
      · exfalso
        simp only [hab, hbb, ne_eq, not_true_eq_false, not_false_eq_true, if_false, if_true,
          List.append_nil] at hrest
        apply not_dot_minor_text a.minor ha
        rw [hrest]
        simp
    · by_cases hbb : b.build = 0
      · exfalso
        simp only [hab, hbb, ne_eq, not_true_eq_false, not_false_eq_true, if_false, if_true,
          List.append_nil] at hrest
        apply not_dot_minor_text b.minor hb
        rw [← hrest]
        simp
      · simp only [hab, hbb, ne_eq, not_false_eq_true, if_true] at hrest
        obtain ⟨hm, hbuild⟩ := split_at_dot _ _ _ _ (not_dot_minor_text _ ha)
          (not_dot_minor_text _ hb) hrest
        refine ⟨?_, dec_inj _ _ hbuild⟩
        rw [← minor_of_minor_text a.minor ha, ← minor_of_minor_text b.minor hb, hm]
  cases a
  cases b
  simp only [windows_version.data.mk.injEq]
  exact ⟨hM, hmb.1, hmb.2⟩

theorem VerToStr_injective_witness :
    ((VerToStr { major := 5, minor := 1, build := 2600 } { major := 2 }
        = VerToStr { major := 5, minor := 10, build := 2600 } { major := 2 })
      ↔ ({ major := 5, minor := 1, build := 2600 } : windows_version.data)
          = { major := 5, minor := 10, build := 2600 })
    ∧ VerToStr { major := 5, minor := 1, build := 2600 } { major := 2 }
        = "5.01.2600 Service Pack 2".toList
    ∧ VerToStr { major := 5, minor := 10, build := 2600 } { major := 2 }
        = "5.1.2600 Service Pack 2".toList :=
  ⟨(VerToStr_injective { major := 5, minor := 1, build := 2600 }
      { major := 5, minor := 10, build := 2600 } { major := 2 } (by decide) (by decide)).1,
    by decide, by decide⟩

/-! ## The text of the password salt -/

theorem ldiff_byte (m b : Nat) (hm : m < 256) (hb : b < 256) : Nat.ldiff m (255 - b) = m &&& b := by
  apply Nat.eq_of_testBit_eq
  intro i
  have h255 : 255 - b = 2 ^ 8 - (b + 1) := by omega
  rw [Nat.testBit_ldiff, Nat.testBit_land, h255,
    Nat.testBit_two_pow_sub_succ (by simpa using hb) i]
  by_cases hi : i < 8
  · simp [hi]
  · have hle : 256 ≤ 2 ^ i :=
      calc 256 = 2 ^ 8 := by norm_num
        _ ≤ 2 ^ i := Nat.pow_le_pow_right (by decide) (by omega)
    simp [hi, Nat.testBit_lt_two_pow (lt_of_lt_of_le hb hle),
      Nat.testBit_lt_two_pow (lt_of_lt_of_le hm hle)]

theorem char_land (c : Char) (m : Nat) (hm : m < 256) :
    Int.land (char_to_int c) (m : Int) = ((char_to_uint8 c &&& m : Nat) : Int) := by
  unfold char_to_int char_to_uint8
  have hb : c.toNat % 256 < 256 := Nat.mod_lt _ (by decide)
  generalize c.toNat % 256 = b at hb
  by_cases h : b < 128
  · rw [if_pos h]
    rfl
  · rw [if_neg h]
    have hneg : ((b : Nat) : Int) - 256 = Int.negSucc (255 - b) := by
      rw [Int.negSucc_eq]
      omega
    rw [hneg]
    show ((Nat.ldiff m (255 - b) : Nat) : Int) = _
    rw [ldiff_byte m b hm hb, Nat.land_comm]

set_option maxRecDepth 100000 in
theorem byte_nibbles : ∀ b, b < 256 →
    (b &&& 240) >>> 4 = b / 16 % 16 ∧ (b &&& 15) >>> 0 = b % 16 := by
  decide

theorem salt_index_high_eq (c : Char) :
    salt_index_high c = ((char_to_uint8 c / 16 % 16 : Nat) : Int) := by
  unfold salt_index_high
  have h := char_land c 240 (by decide)
  have hb : char_to_uint8 c < 256 := Nat.mod_lt _ (by decide)
  rw [show (0xF0 : Int) = ((240 : Nat) : Int) from rfl, h]
  show (((char_to_uint8 c &&& 240) >>> 4 : Nat) : Int) = _
  rw [(byte_nibbles _ hb).1]

theorem salt_index_low_eq (c : Char) :
    salt_index_low c = ((char_to_uint8 c % 16 : Nat) : Int) := by
  unfold salt_index_low
  have h := char_land c 15 (by decide)
  have hb : char_to_uint8 c < 256 := Nat.mod_lt _ (by decide)
  rw [show (0x0F : Int) = ((15 : Nat) : Int) from rfl, h]
  show (((char_to_uint8 c &&& 15) >>> 0 : Nat) : Int) = _
  rw [(byte_nibbles _ hb).2]

theorem hex_chars_at_digit (k : Nat) (hk : k < 16) :
    hex_chars_at (k : Int) = some (Nat.digitChar k) := by
  unfold hex_chars_at
  rw [if_neg (by omega)]
  simp only [Int.toNat_ofNat]
  interval_cases k <;> rfl

theorem salt_rest_eq (salt : List Char) :
    (if salt.take 17 = "PasswordCheckHash".toList then salt.drop 17 else salt)
      = salt_without_mark salt := by
  have hp : salt.take 17 = "PasswordCheckHash".toList ↔ "PasswordCheckHash".toList <+: salt := by
    rw [List.prefix_iff_eq_take]
    exact eq_comm
  unfold salt_without_mark
  by_cases h : "PasswordCheckHash".toList <+: salt
  · rw [if_pos (hp.mpr h), if_pos h]
  · rw [if_neg (fun hc => h (hp.mp hc)), if_neg h]

theorem salt_pair_eq (c : Char) :
    [(hex_chars_at (salt_index_high c)).getD '?', (hex_chars_at (salt_index_low c)).getD '?']
      = lower_hex_pair (char_to_uint8 c) := by
  rw [salt_index_high_eq, salt_index_low_eq,
    hex_chars_at_digit _ (Nat.mod_lt _ (by decide)),
    hex_chars_at_digit _ (Nat.mod_lt _ (by decide))]
  rfl

theorem digitChar_mem_hex_chars (k : Nat) (hk : k < 16) : Nat.digitChar k ∈ hex_chars := by
  interval_cases k <;> decide

/-- Claim C31.  For every salt, `Salt2Str` is the salt without a leading
`PasswordCheckHash`, each byte written as two lower-case hexadecimal digits, the
high nibble first: the text has twice the length of that salt and holds only
characters of the table.  For every character, also one whose byte is 0x80 or
above, both indices into the table of sixteen digits are between 0 and 15, and the
two reads of the table are inside it. -/
theorem Salt2Str_digits (salt : List Char) :
    Salt2Str salt
      = (salt_without_mark salt).flatMap (fun c => lower_hex_pair (char_to_uint8 c))
    ∧ (Salt2Str salt).length = 2 * (salt_without_mark salt).length
    ∧ (∀ x ∈ Salt2Str salt, x ∈ hex_chars)
    ∧ (∀ c : Char,
        (0 ≤ salt_index_high c ∧ salt_index_high c < 16)
        ∧ (0 ≤ salt_index_low c ∧ salt_index_low c < 16)
        ∧ hex_chars_at (salt_index_high c)
            = some (Nat.digitChar (char_to_uint8 c / 16 % 16))
        ∧ hex_chars_at (salt_index_low c)
            = some (Nat.digitChar (char_to_uint8 c % 16))) := by
  have key : Salt2Str salt
      = (salt_without_mark salt).flatMap (fun c => lower_hex_pair (char_to_uint8 c)) := by
    unfold Salt2Str
    dsimp only
    rw [salt_rest_eq]
    congr 1
    funext c
    exact salt_pair_eq c
  refine ⟨key, ?_, ?_, ?_⟩
  · rw [key]
    induction salt_without_mark salt with
    | nil => rfl
    | cons c cs ih =>
      rw [List.flatMap_cons, List.length_append, ih]
      simp only [lower_hex_pair, List.length_cons, List.length_nil]
      omega
  · intro x hx
    rw [key] at hx
    obtain ⟨c, _, hc⟩ := List.mem_flatMap.mp hx
    unfold lower_hex_pair at hc
    rcases List.mem_cons.mp hc with h | h
    · rw [h]
      exact digitChar_mem_hex_chars _ (Nat.mod_lt _ (by decide))
    · rw [List.mem_singleton.mp h]
      exact digitChar_mem_hex_chars _ (Nat.mod_lt _ (by decide))
  · intro c
    have h1 : char_to_uint8 c / 16 % 16 < 16 := Nat.mod_lt _ (by decide)
    have h2 : char_to_uint8 c % 16 < 16 := Nat.mod_lt _ (by decide)
    rw [salt_index_high_eq, salt_index_low_eq]
    refine ⟨⟨by omega, by omega⟩, ⟨by omega, by omega⟩, hex_chars_at_digit _ h1,
      hex_chars_at_digit _ h2⟩

set_option maxRecDepth 100000 in
/-- Claim C31, at the salt made of the mark `PasswordCheckHash` and the bytes 0x80,
0xff, 0x0a and 0x41. -/
theorem Salt2Str_digits_witness :
    Salt2Str "PasswordCheckHash\x80\xff\x0aA".toList = "80ff0a41".toList :=
  (Salt2Str_digits "PasswordCheckHash\x80\xff\x0aA".toList).1.trans (by decide)

/-! ## Loading a binary string -/

theorem resize_length (target : List Char) (n : Nat) : (resize target n).length = n := by
  unfold resize
  simp only [List.length_append, List.length_take, List.length_replicate]
  omega

theorem read_length (is : istream) (target : List Char) (n : Nat) :
    (is.read target n).2.length = target.length ⊔ (if is.fail then 0 else min n is.bytes.length) := by
  unfold istream.read
  by_cases h : is.fail = true
  · simp [h]
  · simp only [h, Bool.false_eq_true, if_false, List.length_append, List.length_take,
      List.length_drop]
    omega

/-- Claim C32.  For every reader of the length and every stream and target: when the
stream has failed after the read of the length, or the length read is negative,
`BinaryString::loadInto` leaves the target as it was and only the read of the
length has moved the stream; otherwise the size of the target after the call is
the length read. -/
theorem loadInto_size (loadNumber : istream → Int × istream) (is : istream)
    (target : List Char) :
    if (loadNumber is).2.fail = true ∨ (loadNumber is).1 < 0 then
      BinaryString.loadInto loadNumber is target = ((loadNumber is).2, target)
    else
      (((BinaryString.loadInto loadNumber is target).2.length : Nat) : Int)
        = (loadNumber is).1 := by
  unfold BinaryString.loadInto
  dsimp only
  by_cases h : (loadNumber is).2.fail = true ∨ (loadNumber is).1 < 0
  · rw [if_pos h, if_pos h]
  · rw [if_neg h, if_neg h]
    have hlen : 0 ≤ (loadNumber is).1 := by
      by_contra hc
      exact h (Or.inr (by omega))
    have hfail : (loadNumber is).2.fail = false := by
      cases hf : (loadNumber is).2.fail with
      | false => rfl
      | true => exact absurd (Or.inl hf) h
    rw [read_length, resize_length, hfail]
    simp only [Bool.false_eq_true, if_false]
    omega

/-- Claim C32, with a reader of four characters, least significant first: a length
of 3 before the characters `abcd`, a length of 5 before the only character `a` (the
target keeps its second character and is filled to five), a
length of -1, and a stream of two characters. -/
theorem loadInto_size_witness :
    BinaryString.loadInto example_loadNumber
        { bytes := "\x03\x00\x00\x00abcd".toList, fail := false } "xy".toList
      = ({ bytes := "d".toList, fail := false }, "abc".toList)
    ∧ BinaryString.loadInto example_loadNumber
        { bytes := "\x05\x00\x00\x00a".toList, fail := false } "xy".toList
      = ({ bytes := [], fail := true }, "ay\x00\x00\x00".toList)
    ∧ BinaryString.loadInto example_loadNumber
        { bytes := "\xff\xff\xff\xffabcd".toList, fail := false } "xy".toList
      = ({ bytes := "abcd".toList, fail := false }, "xy".toList)
    ∧ BinaryString.loadInto example_loadNumber
        { bytes := "\x03\x00".toList, fail := false } "xy".toList
      = ({ bytes := [], fail := true }, "xy".toList)
    ∧ (if (example_loadNumber { bytes := "\x03\x00".toList, fail := false }).2.fail = true
          ∨ (example_loadNumber { bytes := "\x03\x00".toList, fail := false }).1 < 0 then
        BinaryString.loadInto example_loadNumber
            { bytes := "\x03\x00".toList, fail := false } "xy".toList
          = ((example_loadNumber { bytes := "\x03\x00".toList, fail := false }).2,
              "xy".toList)
      else
        (((BinaryString.loadInto example_loadNumber
            { bytes := "\x03\x00".toList, fail := false } "xy".toList).2.length : Nat) : Int)
          = (example_loadNumber { bytes := "\x03\x00".toList, fail := false }).1) :=
  ⟨by decide, by decide, by decide, by decide,
    loadInto_size example_loadNumber { bytes := "\x03\x00".toList, fail := false }
      "xy".toList⟩

/-! ## The lines of the header -/

theorem text_lines_newline (cs : List Char) : text_lines ('\n' :: cs) = [] :: text_lines cs := by
  rw [text_lines]
  simp

theorem text_lines_cons (c : Char) (cs : List Char) (hc : c ≠ '\n') :
    text_lines (c :: cs)
      = match text_lines cs with
        | [] => [[c]]
        | l :: ls => (c :: l) :: ls := by
  rw [text_lines, if_neg hc]

theorem text_lines_line (l rest : List Char) (h : '\n' ∉ l) :
    text_lines (l ++ '\n' :: rest) = l :: text_lines rest := by
  induction l with
  | nil => exact text_lines_newline rest
  | cons c cs ih =>
    have hc : c ≠ '\n' := fun hc => h (hc ▸ List.mem_cons_self _ _)
    have hcs : '\n' ∉ cs := fun hm => h (List.mem_cons_of_mem _ hm)
    rw [List.cons_append, text_lines_cons _ _ hc, ih hcs]

theorem text_lines_writes (ds : List StrConst)
    (h : ∀ d ∈ ds, '\n' ∉ d.name ∧ '\n' ∉ d.value) :
    text_lines (ds.flatMap StrConst.write)
      = (ds.filter fun d => decide (d.write ≠ [])).map fun d => d.name ++ '=' :: d.value := by
  induction ds with
  | nil => rfl
  | cons d ds ih =>
    have hd := h d (List.mem_cons_self _ _)
    have ih' := ih (fun x hx => h x (List.mem_cons_of_mem _ hx))
    rw [List.flatMap_cons]
    by_cases hw : d.write = []
    · rw [hw, List.nil_append, ih', List.filter_cons]
      simp [hw]
    · have hshape : d.write = (d.name ++ '=' :: d.value) ++ '\n' :: [] := by
        unfold StrConst.write at hw ⊢
        split
        · simp
        · rename_i hc
          rw [if_neg hc] at hw
          exact absurd rfl hw
      have hfree : '\n' ∉ d.name ++ '=' :: d.value := by
        simp only [List.mem_append, List.mem_cons, not_or]
        exact ⟨hd.1, by decide, hd.2⟩
      have hf : ((d :: ds).filter fun d => decide (d.write ≠ []))
          = d :: ds.filter fun d => decide (d.write ≠ []) := by
        simp [List.filter_cons, hw]
      rw [hf, List.map_cons, hshape, List.append_assoc, List.cons_append, List.nil_append,
        text_lines_line _ _ hfree, ih']

theorem names_plain (info : info) (installer : List Char) :
    ¬ ∃ d ∈ setup_directives info installer, ('=' ∈ d.name ∨ '\n' ∈ d.name) := by
  unfold setup_directives
  simp only [any_append_split, any_ite_split, any_cons_split, any_nil_split]
  simp +decide

theorem split_at_char (a : Char) : ∀ (l₁ l₂ r₁ r₂ : List Char), a ∉ l₁ → a ∉ l₂ →
    l₁ ++ a :: r₁ = l₂ ++ a :: r₂ → l₁ = l₂ ∧ r₁ = r₂ := by
  intro l₁
  induction l₁ with
  | nil =>
    intro l₂ r₁ r₂ _ h2 h
    cases l₂ with
    | nil => simpa using h
    | cons c cs =>
      simp only [List.nil_append, List.cons_append, List.cons.injEq] at h
      exact absurd (h.1 ▸ List.mem_cons_self _ _) h2
  | cons b bs ih =>
    intro l₂ r₁ r₂ h1 h2 h
    cases l₂ with
    | nil =>
      simp only [List.nil_append, List.cons_append, List.cons.injEq] at h
      exact absurd (h.1 ▸ List.mem_cons_self _ _) h1
    | cons c cs =>
      simp only [List.cons_append, List.cons.injEq] at h
      obtain ⟨hl, hr⟩ := ih cs r₁ r₂ (fun hm => h1 (List.mem_cons_of_mem _ hm))
        (fun hm => h2 (List.mem_cons_of_mem _ hm)) h.2
      exact ⟨by rw [h.1, hl], hr⟩

theorem name_of_line (n m v : List Char) (hn : '=' ∉ n) (hm : '=' ∉ m) :
    (n ++ ['=']) <+: (m ++ '=' :: v) ↔ m = n := by
  constructor
  · rintro ⟨t, ht⟩
    rw [List.append_assoc, List.singleton_append] at ht
    exact (split_at_char '=' _ _ _ _ hn hm ht).1.symm
  · intro h
    subst h
    exact ⟨v, by simp⟩

theorem not_newline_dec (n : Nat) : '\n' ∉ dec n := not_mem_dec '\n' (by decide) n

theorem GetInnoVersionStr_plain (v : version) : '\n' ∉ GetInnoVersionStr v := by
  unfold GetInnoVersionStr
  split_ifs <;> simp [not_newline_dec]

/-- The lines of the header when no value holds a line feed: the line of the
version, an empty line, the heading `[Setup]`, and one line for each directive
whose `operator<<` writes, in order. -/
theorem header_lines (info : info) (installer : List Char)
    (h : single_line_values info installer) :
    text_lines (print_header info installer)
      = (";InnoSetupVersion".toList ++ '=' :: GetInnoVersionStr info.listed_version)
        :: [] :: "[Setup]".toList
        :: ((setup_directives info installer).filter fun d => decide (d.write ≠ [])).map
            fun d => d.name ++ '=' :: d.value := by
  unfold print_header
  rw [StrConst_write_of_ne_nil _ _ _ (GetInnoVersionStr_ne_nil _)]
  have h0 : '\n' ∉ ";InnoSetupVersion".toList ++ '=' :: GetInnoVersionStr info.listed_version := by
    simp only [List.mem_append, List.mem_cons, not_or]
    exact ⟨by decide, by decide, GetInnoVersionStr_plain _⟩
  have hs : SectionHeader.write { name := "Setup".toList }
      = [] ++ '\n' :: ("[Setup]".toList ++ '\n' :: []) := by decide
  rw [hs]
  simp only [List.append_assoc, List.cons_append, List.nil_append]
  rw [show (";InnoSetupVersion".toList ++ '=' :: (GetInnoVersionStr info.listed_version
        ++ '\n' :: '\n' :: ("[Setup]".toList
          ++ '\n' :: (setup_directives info installer).flatMap StrConst.write)))
      = (";InnoSetupVersion".toList ++ '=' :: GetInnoVersionStr info.listed_version)
        ++ '\n' :: ([] ++ '\n' :: ("[Setup]".toList
          ++ '\n' :: (setup_directives info installer).flatMap StrConst.write)) by simp]
  rw [text_lines_line _ _ h0, text_lines_line _ _ (by simp),
    text_lines_line _ _ (by decide), text_lines_writes]
  intro d hd
  exact ⟨fun hn => names_plain info installer ⟨d, hd, Or.inr hn⟩, h d hd⟩

theorem filter_lines_named (name : List Char) (ds : List StrConst)
    (hname : ∀ d ∈ ds, ((name ++ ['=']) <+: (d.name ++ '=' :: d.value) ↔ d.name = name)) :
    (((ds.filter fun d => decide (d.write ≠ [])).map fun d => d.name ++ '=' :: d.value).filter
        fun line => decide ((name ++ ['=']) <+: line))
      = (ds.filter fun d => decide (d.name = name ∧ d.write ≠ [])).map
          fun d => d.name ++ '=' :: d.value := by
  induction ds with
  | nil => rfl
  | cons d ds ih =>
    have ih' := ih (fun x hx => hname x (List.mem_cons_of_mem _ hx))
    have hd := hname d (List.mem_cons_self _ _)
    by_cases hw : d.write = []
    · rw [List.filter_cons, if_neg (by simp [hw]), ih', List.filter_cons,
        if_neg (by simp [hw])]
    · rw [List.filter_cons, if_pos (by simp [hw]), List.map_cons, List.filter_cons]
      by_cases hdn : d.name = name
      · rw [if_pos (by simpa using hd.mpr hdn), ih', List.filter_cons,
          if_pos (by simp [hw, hdn]), List.map_cons]
      · rw [if_neg (by simpa using mt hd.mp hdn), ih', List.filter_cons,
          if_neg (by simp [hdn])]

/-- The lines of the header that start with a name and the sign `=`, when no value
holds a line feed: the lines of the directives of that name whose `operator<<`
writes. -/
theorem header_lines_named (info : info) (installer : List Char)
    (h : single_line_values info installer) (name : List Char) (hn : '=' ∉ name)
    (hv : name ≠ ";InnoSetupVersion".toList) :
    header_lines_of info installer name
      = ((setup_directives info installer).filter
            fun d => decide (d.name = name ∧ d.write ≠ [])).map
          fun d => d.name ++ '=' :: d.value := by
  unfold header_lines_of
  rw [header_lines info installer h]
  have h1 : ¬ ((name ++ ['=']) <+: (";InnoSetupVersion".toList
      ++ '=' :: GetInnoVersionStr info.listed_version)) := by
    intro hp
    exact hv ((name_of_line name ";InnoSetupVersion".toList
      (GetInnoVersionStr info.listed_version) hn (by decide)).mp hp).symm
  have h3 : ¬ ((name ++ ['=']) <+: "[Setup]".toList) := by
    intro hp
    have : '=' ∈ "[Setup]".toList := hp.subset (by simp)
    revert this
    decide
  rw [List.filter_cons, if_neg (by simpa using h1), List.filter_cons,
    if_neg (by simp), List.filter_cons, if_neg (by simpa using h3)]
  exact filter_lines_named name _ (fun d hd =>
    name_of_line name d.name d.value hn
      (fun hm => names_plain info installer ⟨d, hd, Or.inl hm⟩))

/-! ## Directives in the text of the header -/

theorem header_has_iff (info : info) (installer : List Char)
    (h : single_line_values info installer) (name : List Char) (hn : '=' ∉ name)
    (hv : name ≠ ";InnoSetupVersion".toList) :
    header_has_directive info installer name
      ↔ ∃ d ∈ setup_directives info installer, d.name = name ∧ d.write ≠ [] := by
  have hl := header_lines_named info installer h name hn hv
  unfold header_lines_of at hl
  unfold header_has_directive
  constructor
  · rintro ⟨line, hmem, hp⟩
    have hin : line ∈ (text_lines (print_header info installer)).filter
        fun line => decide ((name ++ ['=']) <+: line) :=
      List.mem_filter.mpr ⟨hmem, by simpa using hp⟩
    rw [hl] at hin
    obtain ⟨d, hd, _⟩ := List.mem_map.mp hin
    have hd' := List.mem_filter.mp hd
    exact ⟨d, hd'.1, by simpa using hd'.2⟩
  · rintro ⟨d, hd, hname, hw⟩
    have hin : d.name ++ '=' :: d.value ∈ (text_lines (print_header info installer)).filter
        fun line => decide ((name ++ ['=']) <+: line) := by
      rw [hl]
      exact List.mem_map.mpr ⟨d, List.mem_filter.mpr ⟨hd, by simp [hname, hw]⟩, rfl⟩
    have hin' := List.mem_filter.mp hin
    exact ⟨_, hin'.1, by simpa using hin'.2⟩

theorem architectures_written (info : info) (installer : List Char) :
    ((∃ d ∈ setup_directives info installer,
        d.name = "ArchitecturesAllowed".toList ∧ d.write ≠ [])
      ↔ info.version.value ≥ INNO_VERSION 5 1 0
        ∧ ProcArcsToStr info.header.architectures_allowed ≠ []) ∧
    ((∃ d ∈ setup_directives info installer,
        d.name = "ArchitecturesInstallIn64BitMode".toList ∧ d.write ≠ [])
      ↔ info.version.value ≥ INNO_VERSION 5 1 0
        ∧ ProcArcsToStr info.header.architectures_installed_in_64bit_mode ≠ []) := by
  constructor
  · unfold setup_directives
    simp only [any_append_split, any_ite_split, any_cons_split, any_nil_split,
      toList_eq_iff, String.reduceEq, false_and, and_false, or_false, false_or, true_and,
      StrConst_write_ne_nil, Bool.false_eq_true]
  · unfold setup_directives
    simp only [any_append_split, any_ite_split, any_cons_split, any_nil_split,
      toList_eq_iff, String.reduceEq, false_and, and_false, or_false, false_or, true_and,
      StrConst_write_ne_nil, Bool.false_eq_true]

/-- C9 (amended): when no value of the `[Setup]` block holds a line feed, a line of
the header starts with `ArchitecturesAllowed=` exactly when the format version is at
or above 5.1.0 and the mask of allowed architectures renders to a non-empty value,
and likewise a line starts with `ArchitecturesInstallIn64BitMode=` for the mask of
the 64-bit install mode; below 5.1.0 neither appears.  A mask renders to the empty
value exactly when none of its architectures is set. -/
theorem architecture_directives (info : info) (installer : List Char)
    (a : architecture → Bool) (hlines : single_line_values info installer) :
    (header_has_directive info installer "ArchitecturesAllowed".toList
      ↔ info.version.value ≥ INNO_VERSION 5 1 0
        ∧ ProcArcsToStr info.header.architectures_allowed ≠ []) ∧
    (header_has_directive info installer "ArchitecturesInstallIn64BitMode".toList
      ↔ info.version.value ≥ INNO_VERSION 5 1 0
        ∧ ProcArcsToStr info.header.architectures_installed_in_64bit_mode ≠ []) ∧
    (ProcArcsToStr a = [] ↔ ∀ x, a x = false) := by
  refine ⟨?_, ?_, ProcArcsToStr_eq_nil a⟩
  · rw [header_has_iff info installer hlines _ (by decide) (by decide)]
    exact (architectures_written info installer).1
  · rw [header_has_iff info installer hlines _ (by decide) (by decide)]
    exact (architectures_written info installer).2

set_option maxRecDepth 100000 in
/-- C9 (amended), at the example metadata, of version 5.5.0 with the architecture
x64 allowed and no architecture for the 64-bit install mode. -/
theorem architecture_directives_witness :
    single_line_values example_info "setup.exe".toList ∧
    header_has_directive example_info "setup.exe".toList "ArchitecturesAllowed".toList ∧
    ¬ header_has_directive example_info "setup.exe".toList
        "ArchitecturesInstallIn64BitMode".toList ∧
    "ArchitecturesAllowed=x64".toList
      ∈ text_lines (print_header example_info "setup.exe".toList) :=
  ⟨by decide,
    (architecture_directives example_info "setup.exe".toList (fun _ => false)
      (by decide)).1.mpr (by decide),
    fun hc => absurd
      (((architecture_directives example_info "setup.exe".toList (fun _ => false)
        (by decide)).2.1.mp hc).2) (by decide),
    by decide⟩

/-! ## The password directives in the text of the header -/

theorem password_written (info : info) (installer : List Char) :
    ((∃ d ∈ setup_directives info installer, d.name = "; PasswordHash".toList ∧ d.write ≠ [])
      ↔ (info.version.value > INNO_VERSION_EXT 4 2 0 2
          ∧ (info.header.options .EncryptionUsed = true ∨ info.header.options .Password = true)))
    ∧ ((∃ d ∈ setup_directives info installer,
          d.name = "; PasswordSalt".toList ∧ d.write ≠ [])
      ↔ (info.version.value > INNO_VERSION_EXT 4 2 0 2
          ∧ (info.header.options .EncryptionUsed = true ∨ info.header.options .Password = true))
        ∧ salt_without_mark info.header.password_salt ≠ []) := by
  constructor
  · unfold setup_directives
    simp only [any_append_split, any_ite_split, any_cons_split, any_nil_split,
      toList_eq_iff, String.reduceEq, false_and, and_false, or_false, false_or, true_and,
      StrConst_write_ne_nil, Bool.false_eq_true, Hash2Str_ne_nil, ne_eq, not_false_eq_true,
      and_true]
  · unfold setup_directives
    simp only [any_append_split, any_ite_split, any_cons_split, any_nil_split,
      toList_eq_iff, String.reduceEq, false_and, and_false, or_false, false_or, true_and,
      StrConst_write_ne_nil, Bool.false_eq_true, ne_eq, Salt2Str_eq_nil]

theorem password_pair_inserted (info : info) (installer : List Char)
    (hcond : info.version.value > INNO_VERSION_EXT 4 2 0 2
      ∧ (info.header.options .EncryptionUsed = true ∨ info.header.options .Password = true)) :
    ([ { name := "; PasswordHash".toList, value := Hash2Str info.header.password },
       { name := "; PasswordSalt".toList, value := Salt2Str info.header.password_salt } ]
      : List StrConst) <:+: setup_directives info installer := by
  unfold setup_directives
  dsimp only
  iterate 13 refine List.IsInfix.trans ?_ (List.prefix_append _ _).isInfix
  rw [if_pos hcond]
  exact (List.suffix_append _ _).isInfix

set_option maxRecDepth 100000 in
/-- C23 (as stated, refuted): at format version 5.5.0 with neither the option
`EncryptionUsed` nor the option `Password`, and comments made of `x`, a line feed
and `; PasswordHash=00`, the text of the header has the line `; PasswordHash=00`. -/
theorem password_hash_line_forged :
    header_has_directive (example_info_with_comments "x\n; PasswordHash=00".toList)
        "setup.exe".toList "; PasswordHash".toList ∧
    "; PasswordHash=00".toList
      ∈ text_lines (print_header (example_info_with_comments "x\n; PasswordHash=00".toList)
          "setup.exe".toList) ∧
    ¬ ((example_info_with_comments "x\n; PasswordHash=00".toList).version.value
          > INNO_VERSION_EXT 4 2 0 2
        ∧ ((example_info_with_comments "x\n; PasswordHash=00".toList).header.options
              .EncryptionUsed = true
          ∨ (example_info_with_comments "x\n; PasswordHash=00".toList).header.options
              .Password = true)) := by
  decide

/-- C23 (amended): when no value of the `[Setup]` block holds a line feed, a line of
the header starts with `; PasswordHash=` if and only if the format version is
strictly above 4.2.0.2 and the option `EncryptionUsed` or the option `Password` is
set; a line starts with `; PasswordSalt=` if and only if, in addition, the salt
without a leading `PasswordCheckHash` is not empty; and in that case the line of the
salt is the line right after the line of the hash. -/
theorem password_directives (info : info) (installer : List Char)
    (hlines : single_line_values info installer) :
    (header_has_directive info installer "; PasswordHash".toList
      ↔ (info.version.value > INNO_VERSION_EXT 4 2 0 2
          ∧ (info.header.options .EncryptionUsed = true ∨ info.header.options .Password = true)))
    ∧ (header_has_directive info installer "; PasswordSalt".toList
      ↔ (info.version.value > INNO_VERSION_EXT 4 2 0 2
          ∧ (info.header.options .EncryptionUsed = true ∨ info.header.options .Password = true))
        ∧ salt_without_mark info.header.password_salt ≠ [])
    ∧ ([ "; PasswordHash=".toList ++ Hash2Str info.header.password,
         "; PasswordSalt=".toList ++ Salt2Str info.header.password_salt ]
          <:+: text_lines (print_header info installer)
      ↔ (info.version.value > INNO_VERSION_EXT 4 2 0 2
          ∧ (info.header.options .EncryptionUsed = true ∨ info.header.options .Password = true))
        ∧ salt_without_mark info.header.password_salt ≠ []) := by
  have hhash := (header_has_iff info installer hlines "; PasswordHash".toList
    (by decide) (by decide)).trans (password_written info installer).1
  have hsalt := (header_has_iff info installer hlines "; PasswordSalt".toList
    (by decide) (by decide)).trans (password_written info installer).2
  refine ⟨hhash, hsalt, ?_, ?_⟩
  · intro hinf
    exact hsalt.mp ⟨_, hinf.subset (by simp), ⟨Salt2Str info.header.password_salt, rfl⟩⟩
  · rintro ⟨hcond, hne⟩
    have hpair := password_pair_inserted info installer hcond
    have hfil := List.IsInfix.filter (fun d : StrConst => decide (d.write ≠ [])) hpair
    have hmap := List.IsInfix.map (fun d : StrConst => d.name ++ '=' :: d.value) hfil
    have hw1 : StrConst.write
        { name := "; PasswordHash".toList, value := Hash2Str info.header.password } ≠ [] := by
      rw [StrConst_write_ne_nil]
      exact Or.inr (Hash2Str_ne_nil _)
    have hw2 : StrConst.write
        { name := "; PasswordSalt".toList, value := Salt2Str info.header.password_salt }
          ≠ [] := by
      rw [StrConst_write_ne_nil]
      exact Or.inr (fun hc => hne ((Salt2Str_eq_nil _).mp hc))
    rw [List.filter_cons, if_pos (by simpa using hw1), List.filter_cons,
      if_pos (by simpa using hw2), List.filter_nil] at hmap
    rw [header_lines info installer hlines]
    refine List.IsInfix.trans ?_ (List.suffix_cons _ _).isInfix
    refine List.IsInfix.trans ?_ (List.suffix_cons _ _).isInfix
    refine List.IsInfix.trans ?_ (List.suffix_cons _ _).isInfix
    exact hmap

set_option maxRecDepth 100000 in
/-- C23 (amended), at a metadata of version 5.5.0 with the option `Password`, an
MD5 hash whose bytes are all zero and the salt `PasswordCheckHash` followed by the
byte 0x41. -/
theorem password_directives_witness :
    single_line_values
        { version := { value := INNO_VERSION 5 5 0, unicode := false },
          listed_version := { value := INNO_VERSION 5 5 0, unicode := false },
          header := { options := fun f => f = .Password, password := { type := .MD5 },
                      password_salt := "PasswordCheckHashA".toList } }
        "setup.exe".toList ∧
    [ "; PasswordHash=".toList ++ Hash2Str { type := .MD5 },
      "; PasswordSalt=".toList ++ Salt2Str "PasswordCheckHashA".toList ]
      <:+: text_lines (print_header
        { version := { value := INNO_VERSION 5 5 0, unicode := false },
          listed_version := { value := INNO_VERSION 5 5 0, unicode := false },
          header := { options := fun f => f = .Password, password := { type := .MD5 },
                      password_salt := "PasswordCheckHashA".toList } }
        "setup.exe".toList) :=
  ⟨by decide,
    (password_directives
        { version := { value := INNO_VERSION 5 5 0, unicode := false },
          listed_version := { value := INNO_VERSION 5 5 0, unicode := false },
          header := { options := fun f => f = .Password, password := { type := .MD5 },
                      password_salt := "PasswordCheckHashA".toList } }
        "setup.exe".toList (by decide)).2.2.mpr ⟨by decide, by decide⟩⟩

/-! ## The lines of the Uninstallable and OutputBaseFilename directives -/

theorem uninstallable_written (info : info) (installer : List Char) :
    ((setup_directives info installer).filter
        fun d => decide (d.name = "Uninstallable".toList ∧ d.write ≠ []))
      = (if info.version.value > INNO_VERSION 5 3 1
            ∧ info.header.options .Uninstallable = false
        then [{ name := "Uninstallable".toList, value := "no".toList }]
        else if info.header.uninstallable ≠ [] ∧ info.header.uninstallable ≠ "yes".toList
        then [{ name := "Uninstallable".toList, value := info.header.uninstallable }]
        else []) := by
  unfold setup_directives
  simp only [List.filter_append, filter_ite_split, List.filter_cons, List.filter_nil,
    toList_eq_iff, String.reduceEq, false_and, true_and, decide_False, decide_True,
    Bool.false_eq_true, if_false, if_true, List.append_nil, List.nil_append, ite_self,
    StrConst_write_ne_nil, false_or, ne_eq]
  by_cases h1 : info.version.value > INNO_VERSION 5 3 1
      ∧ info.header.options .Uninstallable = false
  · have h1' : info.version.value > INNO_VERSION 5 3 1
        ∧ ¬ info.header.options .Uninstallable = true := by
      simpa using h1
    rw [if_pos h1', if_pos h1]
    simp
  · have h1' : ¬ (info.version.value > INNO_VERSION 5 3 1
        ∧ ¬ info.header.options .Uninstallable = true) := by
      simpa using h1
    rw [if_neg h1', if_neg h1]
    by_cases h2 : info.header.uninstallable = "yes".toList
    · simp [h2]
    · by_cases h3 : info.header.uninstallable = []
      · simp [h3]
      · simp [h2, h3]

theorem output_base_written (info : info) (installer : List Char) :
    ((setup_directives info installer).filter
        fun d => decide (d.name = "OutputBaseFilename".toList ∧ d.write ≠ []))
      = (if info.header.base_filename ≠ []
        then [{ name := "OutputBaseFilename".toList, value := info.header.base_filename }]
        else if without_exe installer ≠ []
        then [{ name := "OutputBaseFilename".toList, value := without_exe installer }]
        else []) := by
  unfold setup_directives
  dsimp only
  rw [without_exe_eq]
  simp only [List.filter_append, filter_ite_split, List.filter_cons, List.filter_nil,
    toList_eq_iff, String.reduceEq, false_and, true_and, decide_False, decide_True,
    Bool.false_eq_true, if_false, if_true, List.append_nil, List.nil_append, ite_self,
    StrConst_write_ne_nil, false_or, ne_eq]
  by_cases h1 : info.header.base_filename = []
  · by_cases h2 : without_exe installer = []
    · simp [h1, h2]
    · simp [h1, h2]
  · simp [h1]

set_option maxRecDepth 100000 in
/-- C24 (as stated, refuted): at format version 5.5.0 with the option bit
`Uninstallable` clear and comments made of `x`, a line feed and `Uninstallable=no`,
the text of the header has the line `Uninstallable=no` twice. -/
theorem uninstallable_line_forged :
    (example_info_with_comments "x\nUninstallable=no".toList).version.value
        > INNO_VERSION 5 3 1 ∧
    (example_info_with_comments "x\nUninstallable=no".toList).header.options .Uninstallable
        = false ∧
    header_lines_of (example_info_with_comments "x\nUninstallable=no".toList)
        "setup.exe".toList "Uninstallable".toList
      = ["Uninstallable=no".toList, "Uninstallable=no".toList] := by
  decide

/-- C24 (amended): when no value of the `[Setup]` block holds a line feed, the lines
of the header that start with `Uninstallable=` are: the single line
`Uninstallable=no` when the version is above 5.3.1 and the option bit
`Uninstallable` is clear; otherwise the single line `Uninstallable=` followed by the
uninstallable text of the header when that text is neither empty nor `yes`;
otherwise none. -/
theorem uninstallable_directive (info : info) (installer : List Char)
    (hlines : single_line_values info installer) :
    header_lines_of info installer "Uninstallable".toList
      = (if info.version.value > INNO_VERSION 5 3 1
            ∧ info.header.options .Uninstallable = false
        then ["Uninstallable=no".toList]
        else if info.header.uninstallable ≠ [] ∧ info.header.uninstallable ≠ "yes".toList
        then ["Uninstallable=".toList ++ info.header.uninstallable]
        else []) := by
  rw [header_lines_named info installer hlines _ (by decide) (by decide),
    uninstallable_written]
  by_cases h1 : info.version.value > INNO_VERSION 5 3 1
      ∧ info.header.options .Uninstallable = false
  · rw [if_pos h1, if_pos h1]
    rfl
  · rw [if_neg h1, if_neg h1]
    by_cases h2 : info.header.uninstallable ≠ [] ∧ info.header.uninstallable ≠ "yes".toList
    · rw [if_pos h2, if_pos h2]
      rfl
    · rw [if_neg h2, if_neg h2]
      rfl

set_option maxRecDepth 100000 in
/-- C24 (amended), at the example metadata, of version 5.5.0 with the option bit
`Uninstallable` clear. -/
theorem uninstallable_directive_witness :
    single_line_values example_info "setup.exe".toList ∧
    header_lines_of example_info "setup.exe".toList "Uninstallable".toList
      = ["Uninstallable=no".toList] :=
  ⟨by decide,
    (uninstallable_directive example_info "setup.exe".toList (by decide)).trans (by decide)⟩

set_option maxRecDepth 100000 in
/-- C27 (as stated, refuted): with an empty base filename, the installer file name
`.exe` and comments made of `x`, a line feed and `OutputBaseFilename=y`, the text of
the header has the line `OutputBaseFilename=y`, although the file name without
`.exe` is empty. -/
theorem output_base_line_forged :
    (example_info_with_comments "x\nOutputBaseFilename=y".toList).header.base_filename = [] ∧
    without_exe ".exe".toList = [] ∧
    header_lines_of (example_info_with_comments "x\nOutputBaseFilename=y".toList)
        ".exe".toList "OutputBaseFilename".toList
      = ["OutputBaseFilename=y".toList] := by
  decide

/-- C27 (amended): when no value of the `[Setup]` block holds a line feed, the lines
of the header that start with `OutputBaseFilename=` are: the single line with the
base filename of the header when it is not empty; otherwise the single line with the
file name of the installer without one trailing `.exe` when that text is not empty;
otherwise none.  A name that ends with `.exe` loses these four characters, and any
other name, a name shorter than four characters included, is kept whole. -/
theorem output_base_filename (info : info) (installer : List Char)
    (hlines : single_line_values info installer) :
    header_lines_of info installer "OutputBaseFilename".toList
      = (if info.header.base_filename ≠ []
        then ["OutputBaseFilename=".toList ++ info.header.base_filename]
        else if without_exe installer ≠ []
        then ["OutputBaseFilename=".toList ++ without_exe installer]
        else [])
    ∧ (without_exe (installer ++ ".exe".toList) = installer)
    ∧ (without_exe installer = installer
        ∨ (4 ≤ installer.length ∧ installer = without_exe installer ++ ".exe".toList)) := by
  refine ⟨?_, ?_, ?_⟩
  · rw [header_lines_named info installer hlines _ (by decide) (by decide),
      output_base_written]
    by_cases h1 : info.header.base_filename ≠ []
    · rw [if_pos h1, if_pos h1]
      rfl
    · rw [if_neg h1, if_neg h1]
      by_cases h2 : without_exe installer ≠ []
      · rw [if_pos h2, if_pos h2]
        rfl
      · rw [if_neg h2, if_neg h2]
        rfl
  · unfold without_exe
    rw [if_pos (List.suffix_append _ _)]
    simp
  · unfold without_exe
    by_cases h : ".exe".toList <:+ installer
    · right
      rw [if_pos h]
      have hlen : 4 ≤ installer.length := by simpa using h.length_le
      refine ⟨hlen, ?_⟩
      obtain ⟨t, ht⟩ := h
      subst ht
      simp
    · left
      rw [if_neg h]

set_option maxRecDepth 100000 in
/-- C27 (amended), at the example metadata, whose base filename is empty, and the
installer file name `setup.exe`. -/
theorem output_base_filename_witness :
    single_line_values example_info "setup.exe".toList ∧
    header_lines_of example_info "setup.exe".toList "OutputBaseFilename".toList
      = ["OutputBaseFilename=setup".toList] :=
  ⟨by decide,
    (output_base_filename example_info "setup.exe".toList (by decide)).1.trans (by decide)⟩

/-! ## The lines of AppName and AppId -/

theorem dump_sections_eq (env : collaborators) (info : info)
    (hvalid : valid_messages info) :
    dump_sections env info
      = { text :=
            (((section_order.zip (collection_sizes info)).zip (section_bodies env info)).filter
                fun r => r.1.2 ≠ 0).flatMap
              fun r => SectionHeader.write { name := r.1.1 } ++ r.2,
          completed := true } := by
  obtain ⟨rs, hrs⟩ := forall₂_message info.languages info.messages hvalid
  have hm : (print_entries_loop (print_entry_message info.languages) info.messages).completed
      = true := by
    rw [print_entries_loop_of_forall _ _ _ hrs]
  have hs : ∀ {Entry : Type} (f : Entry → List Char) (es : List Entry),
      (print_entries_loop (fun e => some (f e)) es).completed = true := by
    intro Entry f es
    rw [print_entries_loop_some]
  rw [flatMap_filter]
  unfold dump_sections
  rw [print_entries_eq _ _ _ (hs _ _), print_entries_eq _ _ _ (hs _ _),
    print_entries_eq _ _ _ (hs _ _), print_entries_eq _ _ _ (hs _ _),
    print_entries_eq _ _ _ (hs _ _), print_entries_eq _ _ _ (hs _ _),
    print_entries_eq _ _ _ (hs _ _), print_entries_eq _ _ _ (hs _ _),
    print_entries_eq _ _ _ (hs _ _), print_entries_eq _ _ _ (hs _ _),
    print_entries_eq _ _ _ (hs _ _), print_entries_eq _ _ _ (hs _ _),
    print_entries_eq _ _ _ hm, print_entries_language_eq]
  simp only [andThen_completed, section_order, collection_sizes, section_bodies, List.zip,
    List.zipWith, List.flatMap_cons, List.flatMap_nil, List.append_nil, List.append_assoc,
    decide_eq_true_eq]

theorem dump_script_eq (env : collaborators) (info : info) (installer : List Char)
    (hvalid : valid_messages info) :
    dump_script env info installer
      = { text := (if info.listed_version.is_unicode then ['\xEF', '\xBB', '\xBF'] else [])
            ++ print_header info installer
            ++ (((section_order.zip (collection_sizes info)).zip
                  (section_bodies env info)).filter fun r => r.1.2 ≠ 0).flatMap
                fun r => SectionHeader.write { name := r.1.1 } ++ r.2,
          completed := true } := by
  unfold dump_script
  rw [dump_sections_eq env info hvalid, andThen_completed]

theorem dump_iss_script (fs : filesystem) (env : collaborators) (info : info)
    (output_dir installer : List Char)
    (hopen : fs.can_open (fs.join output_dir "install_script.iss".toList) = true)
    (hvalid : valid_messages info) :
    (dump_iss fs env info output_dir installer).script
      = some ((if info.listed_version.is_unicode then ['\xEF', '\xBB', '\xBF'] else [])
            ++ print_header info installer
            ++ (((section_order.zip (collection_sizes info)).zip
                  (section_bodies env info)).filter fun r => r.1.2 ≠ 0).flatMap
                fun r => SectionHeader.write { name := r.1.1 } ++ r.2) := by
  unfold dump_iss open_file
  rw [if_pos hopen]
  dsimp only
  rw [dump_script_eq env info installer hvalid]
  dsimp only
  rw [if_pos rfl]
  split <;> rfl

set_option maxRecDepth 100000 in
/-- C17 (as stated, refuted): at a metadata with a wide-character listed version and a
message whose language index 0 is outside the empty list of languages, `dump_iss`
stops at the read out of range, before the stream is closed: the file is not known
to hold any text of the script, and so neither the byte-order mark nor
`;InnoSetupVersion=`. -/
theorem script_lost_at_message :
    dump_iss { can_open := fun _ => true, join := fun dir name => dir ++ '/' :: name }
        example_env
        { version := { value := INNO_VERSION 5 5 0, unicode := true },
          listed_version := { value := INNO_VERSION 5 5 0, unicode := true },
          messages := [{ name := "Greeting".toList, value := "Hello".toList, language := 0 }] }
        "out".toList "setup.exe".toList
      = { script := none, embedded := [], failure := some .out_of_range } := by
  decide

/-- C17 (amended): for every metadata whose message entries have a negative or
in-range language index, when the script file can be opened, `dump_iss` leaves a
script that begins with the three bytes EF BB BF of the byte-order mark immediately
followed by `;InnoSetupVersion=` when the listed format version is a wide-character
variant, and directly with `;InnoSetupVersion=` otherwise; the script begins with
the byte-order mark only for a wide-character listed version. -/
theorem script_start (fs : filesystem) (env : collaborators) (info : info)
    (output_dir installer : List Char)
    (hopen : fs.can_open (fs.join output_dir "install_script.iss".toList) = true)
    (hvalid : valid_messages info) :
    ∃ text, (dump_iss fs env info output_dir installer).script = some text
      ∧ ((if info.listed_version.is_unicode then ['\xEF', '\xBB', '\xBF'] else [])
          ++ ";InnoSetupVersion=".toList) <+: text
      ∧ (['\xEF', '\xBB', '\xBF'] <+: text ↔ info.listed_version.is_unicode = true) := by
  refine ⟨_, dump_iss_script fs env info output_dir installer hopen hvalid, ?_, ?_⟩
  · rw [List.append_assoc]
    exact ((List.prefix_append_right_inj _).mpr
      ((print_header_start info installer).trans (List.prefix_append _ _)))
  · by_cases hu : info.listed_version.is_unicode = true
    · rw [if_pos hu, List.append_assoc]
      exact ⟨fun _ => hu, fun _ => List.prefix_append _ _⟩
    · rw [if_neg hu, List.nil_append]
      refine ⟨fun hp => ?_, fun hc => absurd hc hu⟩
      exfalso
      obtain ⟨t, ht⟩ := print_header_start info installer
      rw [← ht] at hp
      obtain ⟨r, hr⟩ := hp
      have := congrArg List.head? hr
      simp at this

set_option maxRecDepth 100000 in
/-- C17 (amended), at the example metadata with a wide-character listed version and a
file system in which every path can be opened. -/
theorem script_start_witness :
    ∃ text,
      (dump_iss { can_open := fun _ => true, join := fun dir name => dir ++ '/' :: name }
        example_env
        { example_info with listed_version := { value := INNO_VERSION 5 5 0, unicode := true } }
        "out".toList "setup.exe".toList).script = some text
      ∧ "\xEF\xBB\xBF;InnoSetupVersion=".toList <+: text :=
  (script_start { can_open := fun _ => true, join := fun dir name => dir ++ '/' :: name }
    example_env
    { example_info with listed_version := { value := INNO_VERSION 5 5 0, unicode := true } }
    "out".toList "setup.exe".toList rfl (by decide)).imp fun _ h => ⟨h.1, h.2.1⟩

/-! ## Lines without a `Flags:` suffix -/

theorem ends_with_separator_IntParam (k : List Char) (n : Nat) (q : Bool) :
    ends_with_separator (IntParam k n q) := by
  unfold IntParam
  split
  · exact Or.inl rfl
  · exact ends_with_separator_StrParam _ _ _

theorem ends_with_separator_IntParam_int (k : List Char) (n : Int) (q : Bool) :
    ends_with_separator (IntParam_int k n q) := by
  unfold IntParam_int
  split
  · exact Or.inl rfl
  · exact ends_with_separator_StrParam _ _ _

theorem ends_with_separator_run_fields (e : run_entry) :
    ends_with_separator (run_fields e) := by
  unfold run_fields
  exact ends_with_separator_append (ends_with_separator_append (ends_with_separator_append
    (ends_with_separator_append (ends_with_separator_append (ends_with_separator_append
    (ends_with_separator_StrParam _ _ _) (ends_with_separator_StrParam _ _ _))
    (ends_with_separator_StrParam _ _ _)) (ends_with_separator_StrParam _ _ _))
    (ends_with_separator_StrParam _ _ _)) (ends_with_separator_StrParam _ _ _))
    (ends_with_separator_PrintItem _ _ _)

theorem ends_with_separator_icon_fields (e : icon_entry) :
    ends_with_separator (icon_fields e) := by
  unfold icon_fields
  exact ends_with_separator_append (ends_with_separator_append (ends_with_separator_append
    (ends_with_separator_append (ends_with_separator_append (ends_with_separator_append
    (ends_with_separator_append
    (ends_with_separator_StrParam _ _ _) (ends_with_separator_StrParam _ _ _))
    (ends_with_separator_StrParam _ _ _)) (ends_with_separator_StrParam _ _ _))
    (ends_with_separator_StrParam _ _ _)) (ends_with_separator_IntParam_int _ _ _))
    (ends_with_separator_StrParam _ _ _)) (ends_with_separator_PrintItem _ _ _)

theorem flags_to_str_all_clear {E : Type} (decl : flag_decl E) (f : E → List Char)
    (options : E → Bool) (h : ∀ x, options x = false) : flags_to_str decl f options = [] := by
  have : options = fun _ => false := funext h
  rw [this]
  exact flags_to_str_clear decl f

theorem without_flags_suffix_of_fields (fields : List Char) (h : ends_with_separator fields) :
    without_flags_suffix (fields ++ flags_suffix [] ++ ['\n']) := by
  refine ⟨fields, ?_, h⟩
  simp [flags_suffix]

theorem no_suffix_of_without_flags_suffix (line s : List Char)
    (hline : without_flags_suffix line) (hs : ¬ ("; ".toList <:+ s)) :
    ¬ (("Flags: ".toList ++ s ++ ['\n']) <:+ line) := by
  obtain ⟨fields, hfields, hsep⟩ := hline
  intro hsuf
  rw [hfields] at hsuf
  obtain ⟨t, ht⟩ := hsuf
  rw [← List.append_assoc, List.append_left_inj] at ht
  have hsf : ("Flags: ".toList ++ s) <:+ fields := ⟨t, ht⟩
  rcases hsep with hnil | hsep
  · subst hnil
    have := hsf.length_le
    simp at this
  · have h2 : "; ".toList <:+ "Flags: ".toList ++ s :=
      List.suffix_of_suffix_length_le hsep hsf (by simp)
    match s, hs, h2 with
    | [], _, h2 => exact absurd h2 (by decide)
    | [c], _, h2 =>
      obtain ⟨u, hu⟩ := h2
      have := congrArg List.reverse hu
      simp at this
    | c :: d :: r, hs, h2 =>
      exact hs (List.suffix_of_suffix_length_le h2 (List.suffix_append _ _) (by simp))

/-- An entry of any kind whose text fields are all empty and whose option bits are all
clear renders a line in which the text `Flags: ` occurs nowhere, provided that the
run entry waits until termination and the icon entry has no close setting and a show
command other than 3 and 7 (the codepage converter maps the empty text to the empty
text). -/
theorem no_flags_text_when_empty (env : collaborators) (w : windows_version_range)
    (hive : hive_name) (vt : value_type) (tt : target_type) (k sc : Int) (n : Nat)
    (hu : env.to_utf8 [] = []) (h3 : sc ≠ 3) (h7 : sc ≠ 7) :
    ¬ ("Flags: ".toList <:+: print_entry_file env.file_flags { winver := w }) ∧
    ¬ ("Flags: ".toList <:+: print_entry_directory env.directory_flags {}) ∧
    ¬ ("Flags: ".toList <:+: print_entry_registry env.registry_flags env.to_utf8
        { winver := w, hive := hive, type := vt }) ∧
    ¬ ("Flags: ".toList <:+: print_entry_ini env.ini_flags {}) ∧
    ¬ ("Flags: ".toList <:+: print_entry_run env.run_flags { winver := w }) ∧
    ¬ ("Flags: ".toList <:+: print_entry_icon
        { winver := w, icon_index := k, show_command := sc }) ∧
    ¬ ("Flags: ".toList <:+: print_entry_task { winver := w }) ∧
    ¬ ("Flags: ".toList <:+: print_entry_component
        { winver := w, extra_disk_pace_required := n }) ∧
    ¬ ("Flags: ".toList <:+: print_entry_delete { winver := w, type := tt }) ∧
    ¬ ("Flags: ".toList <:+: print_entry_type { winver := w }) := by
  refine ⟨?_, ?_, ?_, ?_, ?_, ?_, ?_, ?_, ?_, ?_⟩ <;> apply not_infix_of_not_F
  · have hp : RenameFiles_parts { winver := w } = ([], [], []) := by
      simp [RenameFiles_parts, file_type.val, replace_all_copy, replace_all_aux, find_last_of]
    have hr : RemoveBackslashUnlessRoot [] = [] := by decide
    simp only [print_entry_file, file_fields, RenameFiles, hp, flags_to_str_clear,
      flags_suffix, StrParam_nil, hr, ne_eq, not_true_eq_false,
      if_false, List.append_nil, List.nil_append]
    exact not_F_append (PrintItem_empty w _ _) not_F_newline
  · simp only [print_entry_directory, directory_fields, flags_to_str_clear, flags_suffix,
      StrParam_nil, ne_eq, not_true_eq_false, if_false, List.append_nil, List.nil_append]
    exact not_F_newline
  · have h1 : 'F' ∉ RegRootToStr { winver := w, hive := hive, type := vt } := by
      cases hive <;> simp [RegRootToStr]
    have h2 : 'F' ∉ (registry_value env.to_utf8 { winver := w, hive := hive, type := vt }).1
        ∧ (registry_value env.to_utf8 { winver := w, hive := hive, type := vt }).2 = [] := by
      cases vt <;>
        simp [registry_value, hu, registry_binary_data, registry_multi_data,
          replace_all_copy, replace_all_aux]
    simp only [print_entry_registry, registry_fields, flags_to_str_clear, flags_suffix,
      StrParam_nil, h2.2, ne_eq, not_true_eq_false, if_false, List.append_nil,
      List.nil_append]
    exact not_F_append (not_F_append (not_F_append
      (not_F_StrParam_plain _ _ (by decide) h1) (not_F_StrParam_plain _ _ (by decide) h2.1))
      (PrintItem_empty w _ _)) not_F_newline
  · simp only [print_entry_ini, ini_fields, flags_to_str_clear, flags_suffix,
      StrParam_nil, ne_eq, not_true_eq_false, if_false, List.append_nil, List.nil_append]
    exact not_F_newline
  · simp only [print_entry_run, run_fields, run_flags, flags_to_str_clear, flags_suffix,
      StrParam_nil, ne_eq, not_true_eq_false, if_false, List.append_nil, List.nil_append]
    exact not_F_append (PrintItem_empty w _ _) not_F_newline
  · have : icon_flags { winver := w, icon_index := k, show_command := sc } = [] := by
      simp [icon_flags, h3, h7]
    simp only [print_entry_icon, icon_fields, this, flags_suffix, StrParam_nil, ne_eq,
      not_true_eq_false, if_false, List.append_nil, List.nil_append]
    exact not_F_append (not_F_append (not_F_IntParam_int _ _ (by decide))
      (PrintItem_empty w _ _)) not_F_newline
  · simp only [print_entry_task, StrParam_nil, List.append_nil, List.nil_append]
    exact not_F_append (not_F_PrintVersions w) not_F_newline
  · have : replace_all_copy [] ",".toList " ".toList = [] := rfl
    simp only [print_entry_component, StrParam_nil, this, List.append_nil, List.nil_append]
    exact not_F_append (not_F_append (not_F_IntParam _ _ (by decide))
      (not_F_PrintVersions w)) not_F_newline
  · have ht : 'F' ∉ DeleteType2Str tt := by cases tt <;> decide
    simp only [print_entry_delete, StrParam_nil, List.append_nil, List.nil_append]
    exact not_F_append (not_F_append (not_F_StrParam_plain _ _ (by decide) ht)
      (PrintItem_empty w _ _)) not_F_newline
  · simp only [print_entry_type, StrParam_nil, List.append_nil, List.nil_append]
    exact not_F_append (not_F_PrintVersions w) not_F_newline

/-- C6 (amended): a file, directory, registry, INI, run, icon, task, component,
delete or type entry whose option bits are all clear, whatever its fields are,
renders a line without a `Flags:` suffix, provided that the run entry waits until
termination and the icon entry has no close setting and a show command other than 3
and 7: the line is made of the fields, each closed by `; `, and the newline (a file
entry that is not a user file renders nothing).  A line of this form does not end
with `Flags: `, a flag text and the newline, whatever the flag text is, as long as
the flag text does not itself end with `; `. -/
theorem no_flags_when_clear (env : collaborators) (fe : file_entry) (de : directory_entry)
    (re : registry_entry) (ie : ini_entry) (ru : run_entry) (ic : icon_entry)
    (ta : task_entry) (co : component_entry) (dl : delete_entry) (ty : type_entry)
    (hfe : ∀ f, fe.options f = false) (hde : ∀ f, de.options f = false)
    (hre : ∀ f, re.options f = false) (hie : ∀ f, ie.options f = false)
    (hru : ∀ f, ru.options f = false) (hwait : ru.wait = .WaitUntilTerminated)
    (hclose : ic.close_on_exit = .NoSetting)
    (h3 : ic.show_command ≠ 3) (h7 : ic.show_command ≠ 7) :
    (print_entry_file env.file_flags fe
        = (if fe.type ≠ .UserFile then [] else file_fields fe ++ ['\n'])
      ∧ (fe.type = .UserFile → without_flags_suffix (print_entry_file env.file_flags fe))) ∧
    (print_entry_directory env.directory_flags de = directory_fields de ++ ['\n']
      ∧ without_flags_suffix (print_entry_directory env.directory_flags de)) ∧
    (print_entry_registry env.registry_flags env.to_utf8 re
        = registry_fields env.to_utf8 re ++ ['\n']
      ∧ without_flags_suffix (print_entry_registry env.registry_flags env.to_utf8 re)) ∧
    (print_entry_ini env.ini_flags ie = ini_fields ie ++ ['\n']
      ∧ without_flags_suffix (print_entry_ini env.ini_flags ie)) ∧
    (print_entry_run env.run_flags ru = run_fields ru ++ ['\n']
      ∧ without_flags_suffix (print_entry_run env.run_flags ru)) ∧
    (print_entry_icon ic = icon_fields ic ++ ['\n']
      ∧ without_flags_suffix (print_entry_icon ic)) ∧
    without_flags_suffix (print_entry_task ta) ∧
    without_flags_suffix (print_entry_component co) ∧
    without_flags_suffix (print_entry_delete dl) ∧
    without_flags_suffix (print_entry_type ty) ∧
    (∀ line s : List Char, without_flags_suffix line → ¬ ("; ".toList <:+ s) →
      ¬ (("Flags: ".toList ++ s ++ ['\n']) <:+ line)) := by
  have hnil : flags_suffix [] = [] := rfl
  refine ⟨?_, ?_, ?_, ?_, ?_, ?_, ?_, ?_, ?_, ?_, no_suffix_of_without_flags_suffix⟩
  · constructor
    · unfold print_entry_file
      rw [flags_to_str_all_clear _ _ _ hfe, hnil, List.append_nil]
    · intro huser
      unfold print_entry_file
      rw [if_neg (by simp [huser]), flags_to_str_all_clear _ _ _ hfe]
      exact without_flags_suffix_of_fields _ (ends_with_separator_file_fields fe)
  · constructor
    · unfold print_entry_directory
      rw [flags_to_str_all_clear _ _ _ hde, hnil, List.append_nil]
    · unfold print_entry_directory
      rw [flags_to_str_all_clear _ _ _ hde]
      exact without_flags_suffix_of_fields _ (ends_with_separator_directory_fields de)
  · constructor
    · unfold print_entry_registry
      rw [flags_to_str_all_clear _ _ _ hre, hnil, List.append_nil]
    · unfold print_entry_registry
      rw [flags_to_str_all_clear _ _ _ hre]
      exact without_flags_suffix_of_fields _ (ends_with_separator_registry_fields _ re)
  · constructor
    · unfold print_entry_ini
      rw [flags_to_str_all_clear _ _ _ hie, hnil, List.append_nil]
    · unfold print_entry_ini
      rw [flags_to_str_all_clear _ _ _ hie]
      exact without_flags_suffix_of_fields _ (ends_with_separator_ini_fields ie)
  · have hrf : run_flags env.run_flags ru = [] := by
      unfold run_flags
      rw [flags_to_str_all_clear _ _ _ hru, hwait]
      rfl
    constructor
    · unfold print_entry_run
      rw [hrf, hnil, List.append_nil]
    · unfold print_entry_run
      rw [hrf]
      exact without_flags_suffix_of_fields _ (ends_with_separator_run_fields ru)
  · have hif : icon_flags ic = [] := by
      unfold icon_flags
      rw [hclose, if_neg h3, if_neg h7]
      rfl
    constructor
    · unfold print_entry_icon
      rw [hif, hnil, List.append_nil]
    · unfold print_entry_icon
      rw [hif]
      exact without_flags_suffix_of_fields _ (ends_with_separator_icon_fields ic)
  · unfold print_entry_task
    exact ⟨_, rfl, ends_with_separator_append (ends_with_separator_append
      (ends_with_separator_append (ends_with_separator_append (ends_with_separator_append
      (ends_with_separator_append (ends_with_separator_StrParam _ _ _)
      (ends_with_separator_StrParam _ _ _)) (ends_with_separator_StrParam _ _ _))
      (ends_with_separator_StrParam _ _ _)) (ends_with_separator_StrParam _ _ _))
      (ends_with_separator_StrParam _ _ _)) (ends_with_separator_PrintVersions _)⟩
  · unfold print_entry_component
    exact ⟨_, rfl, ends_with_separator_append (ends_with_separator_append
      (ends_with_separator_append (ends_with_separator_append (ends_with_separator_append
      (ends_with_separator_append (ends_with_separator_StrParam _ _ _)
      (ends_with_separator_StrParam _ _ _)) (ends_with_separator_StrParam _ _ _))
      (ends_with_separator_IntParam _ _ _)) (ends_with_separator_StrParam _ _ _))
      (ends_with_separator_StrParam _ _ _)) (ends_with_separator_PrintVersions _)⟩
  · unfold print_entry_delete
    exact ⟨_, rfl, ends_with_separator_append (ends_with_separator_append
      (ends_with_separator_StrParam _ _ _) (ends_with_separator_StrParam _ _ _))
      (ends_with_separator_PrintItem _ _ _)⟩
  · unfold print_entry_type
    exact ⟨_, rfl, ends_with_separator_append (ends_with_separator_append
      (ends_with_separator_append (ends_with_separator_append
      (ends_with_separator_StrParam _ _ _) (ends_with_separator_StrParam _ _ _))
      (ends_with_separator_StrParam _ _ _)) (ends_with_separator_StrParam _ _ _))
      (ends_with_separator_PrintVersions _)⟩

set_option maxRecDepth 100000 in
/-- C6 (amended), at a run entry with a file name and parameters and an icon entry
with a name and a file name, without options; the line `Flags: nowait` of a run
entry that does not wait is not of the form without a suffix. -/
theorem no_flags_when_clear_witness :
    print_entry_run example_env.run_flags
        { name := "\x7bapp\x7d\\app.exe".toList, parameters := "/s".toList }
      = "Filename: \"\x7bapp\x7d\\app.exe\"; Parameters: \"/s\"; \n".toList ∧
    without_flags_suffix (print_entry_run example_env.run_flags
        { name := "\x7bapp\x7d\\app.exe".toList, parameters := "/s".toList }) ∧
    print_entry_icon { name := "App".toList, filename := "\x7bapp\x7d\\app.exe".toList }
      = "Name: \"App\"; Filename: \"\x7bapp\x7d\\app.exe\"; \n".toList ∧
    ¬ without_flags_suffix "Flags: nowait\n".toList :=
  ⟨by decide,
    (no_flags_when_clear example_env {} {} {} {}
      { name := "\x7bapp\x7d\\app.exe".toList, parameters := "/s".toList }
      { name := "App".toList, filename := "\x7bapp\x7d\\app.exe".toList } {} {} {} {}
      (fun _ => rfl) (fun _ => rfl) (fun _ => rfl) (fun _ => rfl) (fun _ => rfl) rfl rfl
      (by decide) (by decide)).2.2.2.2.1.2,
    by decide,
    fun h => (no_flags_when_clear example_env {} {} {} {}
      { name := "\x7bapp\x7d\\app.exe".toList, parameters := "/s".toList }
      { name := "App".toList, filename := "\x7bapp\x7d\\app.exe".toList } {} {} {} {}
      (fun _ => rfl) (fun _ => rfl) (fun _ => rfl) (fun _ => rfl) (fun _ => rfl) rfl rfl
      (by decide) (by decide)).2.2.2.2.2.2.2.2.2.2
      "Flags: nowait\n".toList "nowait".toList h (by decide) ⟨[], rfl⟩⟩

end iss
